import Mathlib

/-! # PISCES DVR grid code (`src/DVR.cpp`): a shallow embedding

Conventions of the embedding.

* C `int` values are mathematical integers (`Int`); no overflow is modelled.
  C `/` and `%` on `int` are `Int.tdiv` and `Int.tmod` (truncation).
* C `double` values are exact rationals (`ℚ`).
* Small fixed-size `int`/`double` arrays that are members or locals
  (`n_1dbas`, `incv`, `StepSize`, `ii`, `ir`, the table of `e_kin` pointers) are total
  functions of the index; an assignment `a[i] = v` is `Function.update a i v`.
* Heap arrays of `double` (`x_dvr`, `v_diag`, `diag`, `qtest`, `v_copy`, `e_kin[d]`)
  are lists; every read and write is bounds-checked and an out-of-range access makes the
  enclosing function return `none`.
* `#pragma omp for` loops whose iterations touch disjoint slots are run sequentially.
* `Potential::Evaluate` is a pure function `V` of the three coordinates it reads.
* A call that can end the process has a result of type `Res`: it returns, it calls
  `exit(code)`, or it faults on an out-of-range access.
* The C library generator and the solvers of `larnoldi.h` and `davdriver.h` are the fields
  of an environment `Ext`; statements about them hold for every environment, under the
  assumptions spelled out in `Ext.RandOK` and `Ext.SolversOK` where these are needed.

The definitions that embed the source come first, followed by example objects and the
predicates used in the statements; the lemmas and the theorems on the code follow.
-/

namespace PISCES

/-! ## Memory and control-flow primitives -/

/-- Bounds-checked read `a[i]` of a heap array of doubles. -/
def rd (a : List ℚ) (i : Int) : Option ℚ :=
  if 0 ≤ i then a[i.toNat]? else none

/-- Bounds-checked write `a[i] = v` into a heap array of doubles. -/
def wr (a : List ℚ) (i : Int) (v : ℚ) : Option (List ℚ) :=
  if 0 ≤ i ∧ i.toNat < a.length then some (a.set i.toNat v) else none

/-- The call `vec.resize(n)` of `std::vector<double>`: keeps the leading entries and
value-initialises (zero) the new ones. -/
def resize (a : List ℚ) (n : Int) : Option (List ℚ) :=
  if 0 ≤ n then some (a.take n.toNat ++ List.replicate (n.toNat - a.length) 0) else none

/-- Copy of the `cnt` leading entries of `src` over the `cnt` leading entries of `dst`
(`memcpy(dst, src, cnt*sizeof(double))`, and `std::copy(src, src+cnt, dst)`). -/
def copyN (dst src : List ℚ) (cnt : Int) : Option (List ℚ) :=
  if 0 ≤ cnt ∧ cnt.toNat ≤ src.length ∧ cnt.toNat ≤ dst.length then
    some (src.take cnt.toNat ++ dst.drop cnt.toNat)
  else none

/-- The first `cnt` iterations `i = lo, lo+1, ...` of a loop whose body may fail. -/
def iterM {σ : Type} (body : Int → σ → Option σ) (lo : Int) : Nat → σ → Option σ
  | 0, s => some s
  | cnt + 1, s => (iterM body lo cnt s).bind (body (lo + cnt))

/-- The loop `for (int i = lo; i < hi; ++i) body`, with a body that may fail. -/
def forM {σ : Type} (lo hi : Int) (body : Int → σ → Option σ) (s : σ) : Option σ :=
  iterM body lo (hi - lo).toNat s

/-- The first `cnt` iterations `i = lo, lo+1, ...` of a loop whose body cannot fail. -/
def iterP {σ : Type} (body : Int → σ → σ) (lo : Int) : Nat → σ → σ
  | 0, s => s
  | cnt + 1, s => body (lo + cnt) (iterP body lo cnt s)

/-- The loop `for (int i = lo; i < hi; ++i) body`, with a body that cannot fail. -/
def forP {σ : Type} (lo hi : Int) (body : Int → σ → σ) (s : σ) : σ :=
  iterP body lo (hi - lo).toNat s

/-! ## The object state -/

/-- The number of dimensions: `no_dim` is 3 throughout (`DVR.cpp`, lines 6-7). -/
def no_dim : Int := 3

/-- The members of `class DVR` used by the grid, potential and diagonal routines. -/
structure DVR where
  /-- Field `dvrtype`: basis type code. -/
  dvrtype : Int
  /-- Field `sampling`: potential sampling code. -/
  sampling : Int
  /-- Field `n_1dbas[MAXDIM]`: number of grid points along each axis. -/
  n_1dbas : Int → Int
  /-- Field `incv[MAXDIM]`: stride of each axis in `v_diag`. -/
  incv : Int → Int
  /-- Field `ngp`: total number of grid points. -/
  ngp : Int
  /-- Field `max1db`: largest number of points of an axis. -/
  max1db : Int
  /-- Field `x_dvr`: the abscissae, axis `d` at offset `d*max1db`. -/
  x_dvr : List ℚ
  /-- Field `StepSize[MAXDIM]`: step of each equidistant axis. -/
  StepSize : Int → ℚ
  /-- Field `v_diag`: the potential at the grid points. -/
  v_diag : List ℚ
  /-- Field `e_kin[MAXDIM]`: the kinetic energy array of each axis. -/
  e_kin : Int → List ℚ

/-! ## `DVR::ComputeGridParameters` (lines 302-318) -/

/-- One pass of the `idim` loop of `ComputeGridParameters`. -/
def ComputeGridParameters_body (idim : Int) (s : DVR) : DVR :=
  let npi := s.n_1dbas idim
  let s := { s with ngp := s.ngp * npi }
  let s := if s.max1db < npi then { s with max1db := npi } else s
  let s := { s with incv := Function.update s.incv idim 1 }
  forP 0 idim (fun k s => { s with incv := Function.update s.incv idim (s.incv idim * s.n_1dbas k) }) s

/-- The method `DVR::ComputeGridParameters` (without its printing). -/
def DVR.ComputeGridParameters (s : DVR) : DVR :=
  let s := { s with ngp := 1 }
  let s := { s with max1db := 1 }
  forP 0 no_dim ComputeGridParameters_body s

/-! ## `sub2ind` and `ind2sub` (lines 643-657) -/

/-- The function `sub2ind(i, j, k, n)`: `i + n[X]*(j + n[Y]*k)`. -/
def sub2ind (i j k : Int) (n : Int → Int) : Int :=
  i + n 0 * (j + n 1 * k)

/-- The function `ind2sub(I, n, i, j, k)`; the result is the triple `(i, j, k)` written
through the reference parameters. A zero divisor of `%` gives `none`. -/
def ind2sub (I : Int) (n : Int → Int) : Option (Int × Int × Int) :=
  if n 0 * n 1 = 0 ∨ n 0 = 0 then none
  else
    let k := Int.tmod I (n 0 * n 1)
    let I := I - k * n 0 * n 1
    let j := Int.tmod I (n 0)
    let I := I - j * n 0
    let i := I
    some (i, j, k)

/-! ## `DVR::ComputeDiagonal` and `addtdiag` (lines 875-948) -/

/-- One counter-advance step, starting at position `k` with `fuel` positions left:
`for (; k < nod; k++) { ir[k]++; if (ir[k] == ndod[k]) ir[k] = 0; else break; }`. -/
def advanceFrom (ndod : Int → Int) : Nat → Int → (Int → Int) → (Int → Int)
  | 0, _, ir => ir
  | fuel + 1, k, ir =>
    let ir := Function.update ir k (ir k + 1)
    if ir k = ndod k then advanceFrom ndod fuel (k + 1) (Function.update ir k 0)
    else ir

/-- The counter-advance loop of `addtdiag` (lines 926-932) and of `ComputePotential`
(lines 424-430): `for (k = 0; k < nod; k++) { ir[k]++; if (ir[k] == ndod[k]) ir[k] = 0; else break; }`. -/
def advance (ndod : Int → Int) (nod : Int) (ir : Int → Int) : Int → Int :=
  advanceFrom ndod nod.toNat 0 ir

/-- The body of the `i1` loop of `addtdiag`: `diag[incrc + i1*inc1] += t[i1*(i1+1)/2 + i1]`. -/
def addtdiag_inner (inc1 incrc : Int) (t : List ℚ) (i1 : Int) (diag : List ℚ) :
    Option (List ℚ) := do
  let ig := incrc + i1 * inc1
  let tt := Int.tdiv (i1 * (i1 + 1)) 2
  let tv ← rd t (tt + i1)
  let dv ← rd diag ig
  wr diag ig (dv + tv)

/-- The function `addtdiag(n1, inc1, nod, ndod, incr, t, diag, ng)`; the result is the updated
`diag`. The entries of the local `ir[20]` that the code leaves uninitialised are 0 here; they
are never read. -/
def addtdiag (n1 inc1 nod : Int) (ndod incr : Int → Int) (t diag : List ℚ) (_ng : Int) :
    Option (List ℚ) :=
  let nrc := forP 0 nod (fun iod nrc => nrc * ndod iod) 1
  let ir : Int → Int := Function.update (fun _ => 0) 0 (-1)
  let ir := forP 1 nod (fun iod ir => Function.update ir iod 0) ir
  (forM 0 nrc (fun _ (st : (Int → Int) × List ℚ) =>
      let ir := advance ndod nod st.1
      let incrc := forP 0 nod (fun k incrc => incrc + ir k * incr k) 0
      (forM 0 n1 (addtdiag_inner inc1 incrc t) st.2).map (fun d => (ir, d)))
    (ir, diag)).map Prod.snd

/-- The three statements `k = a[id]; a[id] = a[0]; a[0] = k;`. -/
def swap0 (a : Int → Int) (id : Int) : Int → Int :=
  let k := a id
  let a := Function.update a id (a 0)
  Function.update a 0 k

/-- One pass of the `id` loop of `ComputeDiagonal` (lines 892-896). -/
def ComputeDiagonal_body (id : Int) (st : DVR × List ℚ) : Option (DVR × List ℚ) := do
  let s := st.1
  let s := { s with n_1dbas := swap0 s.n_1dbas id }
  let s := { s with incv := swap0 s.incv id }
  let diag ← addtdiag (s.n_1dbas 0) (s.incv 0) (no_dim - 1) (fun k => s.n_1dbas (1 + k))
    (fun k => s.incv (1 + k)) (s.e_kin id) st.2 s.ngp
  let s := { s with n_1dbas := swap0 s.n_1dbas id }
  let s := { s with incv := swap0 s.incv id }
  pure (s, diag)

/-- The method `DVR::ComputeDiagonal(diag)`; the result is the object state on return and
the filled `diag`. -/
def DVR.ComputeDiagonal (s : DVR) (diag : List ℚ) : Option (DVR × List ℚ) := do
  let diag ← copyN diag s.v_diag s.ngp
  forM 0 no_dim ComputeDiagonal_body (s, diag)

/-! ## `DVR::ComputePotential` (lines 406-639) -/

/-- The function-local `static` vectors of `ComputePotential`; they keep their contents
from one call to the next. -/
structure Statics where
  /-- The local `static dVec qtest`: coordinates of all grid points. -/
  qtest : List ℚ
  /-- The local `static dVec v_copy`: copy of the point-sampled potential. -/
  v_copy : List ℚ

/-- One pass of the `igp` loop that fills `qtest` (lines 424-433); the loop state is the
counter array `ii` and `qtest`. -/
def qtest_body (s : DVR) (igp : Int) (st : (Int → Int) × List ℚ) :
    Option ((Int → Int) × List ℚ) := do
  let ii := advance s.n_1dbas no_dim st.1
  let qtest ← forM 0 no_dim (fun id qtest => do
    let x ← rd s.x_dvr (id * s.max1db + ii id)
    wr qtest (igp * no_dim + id) x) st.2
  pure (ii, qtest)

/-- Lines 418-434: resize the static `qtest` and fill it with the coordinates of every
grid point; `ii` starts as `{-1,0,0}`. -/
def fill_qtest (s : DVR) (qtest : List ℚ) : Option (List ℚ) := do
  let qtest ← resize qtest (no_dim * s.ngp)
  let ii : Int → Int := fun k => if k = 0 then -1 else 0
  let r ← forM 0 s.ngp (qtest_body s) (ii, qtest)
  pure r.2

/-- The common shape of the `igp` loops at lines 447, 465, 497, 552 and 580: read the
coordinates `x0, y0, z0` of grid point `igp` from `qtest` and store `f x0 y0 z0` in
`v_diag[igp]`. For point sampling `f` is the potential itself (`Evaluate` reads the three
coordinates at `&qtest[igp*no_dim]`). -/
def grid_loop (f : ℚ → ℚ → ℚ → ℚ) (qtest : List ℚ) (ngp : Int) (v_diag : List ℚ) :
    Option (List ℚ) :=
  forM 0 ngp (fun igp v_diag => do
    let x0 ← rd qtest (igp * no_dim)
    let y0 ← rd qtest (igp * no_dim + 1)
    let z0 ← rd qtest (igp * no_dim + 2)
    wr v_diag igp (f x0 y0 z0)) v_diag

/-- The value stored by the 8x sampling branch (lines 469-482). -/
def sample8 (V : ℚ → ℚ → ℚ → ℚ) (dx dy dz x0 y0 z0 : ℚ) : ℚ :=
  let v8 : ℚ := 0
  let wsum : ℚ := 1 / 8
  let v8 := v8 + V (x0 + dx) (y0 + dy) (z0 + dz)
  let v8 := v8 + V (x0 - dx) (y0 + dy) (z0 + dz)
  let v8 := v8 + V (x0 + dx) (y0 - dy) (z0 + dz)
  let v8 := v8 + V (x0 + dx) (y0 + dy) (z0 - dz)
  let v8 := v8 + V (x0 - dx) (y0 - dy) (z0 + dz)
  let v8 := v8 + V (x0 - dx) (y0 + dy) (z0 - dz)
  let v8 := v8 + V (x0 + dx) (y0 - dy) (z0 - dz)
  let v8 := v8 + V (x0 - dx) (y0 - dy) (z0 - dz)
  wsum * v8

/-- The value stored by the 27x sampling branch (lines 501-539). -/
def sample27 (V : ℚ → ℚ → ℚ → ℚ) (dx dy dz x0 y0 z0 : ℚ) : ℚ :=
  let v27 : ℚ := 0
  let v27 := v27 + V x0 y0 z0
  let v27 := v27 + V (x0 + dx) y0 z0
  let v27 := v27 + V (x0 - dx) y0 z0
  let v27 := v27 + V x0 (y0 + dy) z0
  let v27 := v27 + V x0 (y0 - dy) z0
  let v27 := v27 + V x0 y0 (z0 + dz)
  let v27 := v27 + V x0 y0 (z0 - dz)
  let v27 := v27 + V (x0 + dx) (y0 + dy) z0
  let v27 := v27 + V (x0 - dx) (y0 + dy) z0
  let v27 := v27 + V (x0 + dx) (y0 - dy) z0
  let v27 := v27 + V (x0 - dx) (y0 - dy) z0
  let v27 := v27 + V (x0 + dx) y0 (z0 + dz)
  let v27 := v27 + V (x0 - dx) y0 (z0 + dz)
  let v27 := v27 + V (x0 + dx) y0 (z0 - dz)
  let v27 := v27 + V (x0 - dx) y0 (z0 - dz)
  let v27 := v27 + V x0 (y0 + dy) (z0 + dz)
  let v27 := v27 + V x0 (y0 - dy) (z0 + dz)
  let v27 := v27 + V x0 (y0 + dy) (z0 - dz)
  let v27 := v27 + V x0 (y0 - dy) (z0 - dz)
  let v27 := v27 + V (x0 + dx) (y0 + dy) (z0 + dz)
  let v27 := v27 + V (x0 - dx) (y0 + dy) (z0 + dz)
  let v27 := v27 + V (x0 + dx) (y0 - dy) (z0 + dz)
  let v27 := v27 + V (x0 + dx) (y0 + dy) (z0 - dz)
  let v27 := v27 + V (x0 - dx) (y0 - dy) (z0 + dz)
  let v27 := v27 + V (x0 - dx) (y0 + dy) (z0 - dz)
  let v27 := v27 + V (x0 + dx) (y0 - dy) (z0 - dz)
  let v27 := v27 + V (x0 - dx) (y0 - dy) (z0 - dz)
  v27 / 27

/-- The value stored by the 6x sampling branch (lines 556-567); `dx` is the constant 0.2
used for all three axes. -/
def sample6 (V : ℚ → ℚ → ℚ → ℚ) (dx x0 y0 z0 : ℚ) : ℚ :=
  let v6 : ℚ := 0
  let wsum : ℚ := 1 / 6
  let v6 := v6 + V (x0 + dx) y0 z0
  let v6 := v6 + V (x0 - dx) y0 z0
  let v6 := v6 + V x0 (y0 + dx) z0
  let v6 := v6 + V x0 (y0 - dx) z0
  let v6 := v6 + V x0 y0 (z0 + dx)
  let v6 := v6 + V x0 y0 (z0 - dx)
  wsum * v6

/-- The two statements `igp = sub2ind(..); vsmooth += w * v_copy[igp];` of the smoothing
stencil. -/
def stencil_add (w : ℚ) (v_copy : List ℚ) (igp : Int) (vsmooth : ℚ) : Option ℚ :=
  (rd v_copy igp).map (fun v => vsmooth + w * v)

/-- The two statements `igp = sub2ind(i,j,k,n_1dbas); vsmooth += v_copy[igp];` for the point
itself. -/
def stencil_self (v_copy : List ℚ) (igp : Int) (vsmooth : ℚ) : Option ℚ :=
  (rd v_copy igp).map (fun v => vsmooth + v)

/-- The smoothed value of the interior point `(i,j,k)` (lines 599-632), read from `v_copy`:
`vsmooth` starts at 0, receives the face, edge and corner terms in source order, then the
point itself, and is multiplied by `wsum`. -/
def smooth_point (wface wedge wcrnr wsum : ℚ) (n : Int → Int) (v_copy : List ℚ)
    (i j k : Int) : Option ℚ :=
  (some (0 : ℚ))
    -- face
    |>.bind (stencil_add wface v_copy (sub2ind (i+1) j k n))
    |>.bind (stencil_add wface v_copy (sub2ind (i-1) j k n))
    |>.bind (stencil_add wface v_copy (sub2ind i (j+1) k n))
    |>.bind (stencil_add wface v_copy (sub2ind i (j-1) k n))
    |>.bind (stencil_add wface v_copy (sub2ind i j (k+1) n))
    |>.bind (stencil_add wface v_copy (sub2ind i j (k-1) n))
    -- edge
    |>.bind (stencil_add wedge v_copy (sub2ind (i+1) (j+1) k n))
    |>.bind (stencil_add wedge v_copy (sub2ind (i-1) (j+1) k n))
    |>.bind (stencil_add wedge v_copy (sub2ind (i+1) (j-1) k n))
    |>.bind (stencil_add wedge v_copy (sub2ind (i-1) (j-1) k n))
    |>.bind (stencil_add wedge v_copy (sub2ind (i+1) j (k+1) n))
    |>.bind (stencil_add wedge v_copy (sub2ind (i-1) j (k-1) n))
    |>.bind (stencil_add wedge v_copy (sub2ind (i+1) j (k+1) n))
    |>.bind (stencil_add wedge v_copy (sub2ind (i-1) j (k-1) n))
    |>.bind (stencil_add wedge v_copy (sub2ind i (j+1) (k+1) n))
    |>.bind (stencil_add wedge v_copy (sub2ind i (j-1) (k-1) n))
    |>.bind (stencil_add wedge v_copy (sub2ind i (j+1) (k+1) n))
    |>.bind (stencil_add wedge v_copy (sub2ind i (j-1) (k-1) n))
    -- corner
    |>.bind (stencil_add wcrnr v_copy (sub2ind (i+1) (j+1) (k+1) n))
    |>.bind (stencil_add wcrnr v_copy (sub2ind (i-1) (j+1) (k+1) n))
    |>.bind (stencil_add wcrnr v_copy (sub2ind (i+1) (j-1) (k+1) n))
    |>.bind (stencil_add wcrnr v_copy (sub2ind (i+1) (j+1) (k-1) n))
    |>.bind (stencil_add wcrnr v_copy (sub2ind (i-1) (j-1) (k+1) n))
    |>.bind (stencil_add wcrnr v_copy (sub2ind (i-1) (j+1) (k-1) n))
    |>.bind (stencil_add wcrnr v_copy (sub2ind (i+1) (j-1) (k-1) n))
    |>.bind (stencil_add wcrnr v_copy (sub2ind (i-1) (j-1) (k-1) n))
    -- point itself
    |>.bind (stencil_self v_copy (sub2ind i j k n))
    |>.map (fun vsmooth => vsmooth * wsum)

/-- The loop nest over all non-edge grid points (lines 596-637). -/
def smooth_loop (wface wedge wcrnr wsum : ℚ) (n : Int → Int) (v_copy v_diag : List ℚ) :
    Option (List ℚ) :=
  forM 1 (n 2 - 1) (fun k v_diag =>
    forM 1 (n 1 - 1) (fun j v_diag =>
      forM 1 (n 0 - 1) (fun i v_diag => do
        let vsmooth ← smooth_point wface wedge wcrnr wsum n v_copy i j k
        wr v_diag (sub2ind i j k n) vsmooth) v_diag) v_diag) v_diag

/-- The `else` branch of `ComputePotential` (lines 575-638): point sampling, copy into the
static `v_copy`, smoothing of the interior points. The call
`std::copy(v_diag, &v_diag[ngp-1], &v_copy[0])` copies the `ngp-1` entries in front of
`&v_diag[ngp-1]`. -/
def smoothing_branch (s : DVR) (V : ℚ → ℚ → ℚ → ℚ) (qtest v_copy : List ℚ) :
    Option (DVR × Statics) := do
  let v_diag ← grid_loop V qtest s.ngp s.v_diag
  let v_copy ← resize v_copy s.ngp
  let v_copy ← copyN v_copy v_diag (s.ngp - 1)
  let qs : ℚ := s.sampling
  let wface : ℚ := 1 / qs
  let wedge : ℚ := wface / qs
  let wcrnr : ℚ := wedge / qs
  let wsum : ℚ := qs*qs*qs / (qs*qs*qs + 6*qs*qs + 12*qs + 8)
  let v_diag ← smooth_loop wface wedge wcrnr wsum s.n_1dbas v_copy v_diag
  pure ({ s with v_diag := v_diag }, { qtest := qtest, v_copy := v_copy })

/-- The method `DVR::ComputePotential(V)`; the result is the object state and the static
locals on return. -/
def DVR.ComputePotential (s : DVR) (V : ℚ → ℚ → ℚ → ℚ) (st : Statics) :
    Option (DVR × Statics) := do
  let qtest ← fill_qtest s st.qtest
  if s.sampling = 1 then
    let v_diag ← grid_loop V qtest s.ngp s.v_diag
    pure ({ s with v_diag := v_diag }, { st with qtest := qtest })
  else if s.dvrtype = 0 ∧ s.sampling = 2 then
    let dx : ℚ := 0.25 * s.StepSize 0
    let dy : ℚ := 0.25 * s.StepSize 1
    let dz : ℚ := 0.25 * s.StepSize 2
    let v_diag ← grid_loop (sample8 V dx dy dz) qtest s.ngp s.v_diag
    pure ({ s with v_diag := v_diag }, { st with qtest := qtest })
  else if s.dvrtype = 0 ∧ s.sampling = 3 then
    let dx : ℚ := s.StepSize 0 / 3
    let dy : ℚ := s.StepSize 1 / 3
    let dz : ℚ := s.StepSize 2 / 3
    let v_diag ← grid_loop (sample27 V dx dy dz) qtest s.ngp s.v_diag
    pure ({ s with v_diag := v_diag }, { st with qtest := qtest })
  else if s.sampling = 4 then
    let dx : ℚ := 0.2
    let v_diag ← grid_loop (sample6 V dx) qtest s.ngp s.v_diag
    pure ({ s with v_diag := v_diag }, { st with qtest := qtest })
  else
    smoothing_branch s V qtest st.v_copy

/-! ## The Fourier kinetic-energy diagonal (lines 368-379) -/

/-- The assignment at line 374:
`KE_diag[xa1*n_1dbas[1]*n_1dbas[2] + ya2*n_1dbas[2] + za3] = e_kin[0][xa1] + e_kin[1][ya2] + e_kin[2][za3]`. -/
def KE_diag_body (s : DVR) (xa1 ya2 za3 : Int) (KE_diag : List ℚ) : Option (List ℚ) := do
  let a ← rd (s.e_kin 0) xa1
  let b ← rd (s.e_kin 1) ya2
  let c ← rd (s.e_kin 2) za3
  wr KE_diag (xa1 * s.n_1dbas 1 * s.n_1dbas 2 + ya2 * s.n_1dbas 2 + za3) (a + b + c)

/-- The last part of `DVR::ComputeGridPointsAndKineticEnergy` (lines 370-379): when
`dvrtype == 3` the loop nest over `xa1`, `ya2`, `za3` fills the global array `KE_diag`. -/
def DVR.fill_KE_diag (s : DVR) (KE_diag : List ℚ) : Option (List ℚ) :=
  if s.dvrtype = 3 then
    forM 0 (s.n_1dbas 0) (fun xa1 KE =>
      forM 0 (s.n_1dbas 1) (fun ya2 KE =>
        forM 0 (s.n_1dbas 2) (fun za3 KE => KE_diag_body s xa1 ya2 za3 KE) KE) KE) KE_diag
  else some KE_diag

/-! ## `DVR::Diagonalize` (lines 182-291) -/

/-- How a call ends: it returns, it calls `exit(code)`, or it reads or writes outside an
array. -/
inductive Res (α : Type) where
  /-- Normal return. -/
  | ok (a : α) : Res α
  /-- The call `exit(code)`. -/
  | exit (code : Int) : Res α
  /-- An out-of-range array access or a `resize` to a negative length. -/
  | fault : Res α
  deriving DecidableEq

/-- Sequencing of two steps that may end the process. -/
def Res.bind {α β : Type} (r : Res α) (f : α → Res β) : Res β :=
  match r with
  | .ok a => f a
  | .exit c => .exit c
  | .fault => .fault

/-- A step that can only fault, as a step that may also end the process. -/
def Res.ofOption {α : Type} : Option α → Res α
  | some a => .ok a
  | none => .fault

/-- The members of `class DVR` read or written by `Diagonalize`, together with the position
`rpos` reached in the sequence of results of the C library call `rand()`. -/
structure DVRSolve where
  /-- Field `nStates`: number of requested eigenpairs. -/
  nStates : Int
  /-- Field `diagFlag`: method code. -/
  diagFlag : Int
  /-- Field `maxSub`. -/
  maxSub : Int
  /-- Field `maxIter`. -/
  maxIter : Int
  /-- Field `ptol`. -/
  ptol : Int
  /-- Field `ngp`: total number of grid points. -/
  ngp : Int
  /-- Field `nwavefn`: number of allocated wavefunctions. -/
  nwavefn : Int
  /-- Field `nconverged`: number of converged wavefunctions. -/
  nconverged : Int
  /-- Field `wavefn`: the wavefunctions, column `i` at offset `i*ngp`. -/
  wavefn : List ℚ
  /-- Number of calls of `rand()` made so far. -/
  rpos : Nat
  deriving DecidableEq

/-- What `Diagonalize` calls and this file does not define: the C library generator
(`RAND_MAX` and the successive results of `rand()`), the value `pib igp` that
`ParticleInAnDBoxWf` stores at grid point `igp` (a product of sines), and the two iterative
solvers of `larnoldi.h` and `davdriver.h`. A solver receives its arguments, the array `ev`
and the wavefunction storage, and gives back its return value and the new contents of `ev`
and of the wavefunction storage. -/
structure Ext where
  /-- The constant `RAND_MAX`. -/
  RAND_MAX : Int
  /-- The result of the call number `p` of `rand()`. -/
  rand : Nat → Int
  /-- The value `ParticleInAnDBoxWf` stores in `wf[igp]`. -/
  pib : Int → ℚ
  /-- The call `larnoldi(ngp, nStates, maxSub, maxIter, ptol, ev)`. -/
  larnoldi : Int → Int → Int → Int → Int → List ℚ → List ℚ → Int × List ℚ × List ℚ
  /-- The call `davdriver(ngp, nStates, maxSub, maxIter, ptol, CorrFlag, ev)`. -/
  davdriver : Int → Int → Int → Int → Int → Int → List ℚ → List ℚ → Int × List ℚ × List ℚ

/-- The function `Randm11()` (lines 50-56), started at position `p` of the `rand()` sequence:
the value returned and the position reached. -/
def Randm11 (e : Ext) (p : Nat) : ℚ × Nat :=
  if e.rand p > Int.tdiv e.RAND_MAX 2 then
    ((e.rand (p + 1) : ℚ) / (e.RAND_MAX : ℚ), p + 2)
  else
    (-(e.rand (p + 1) : ℚ) / (e.RAND_MAX : ℚ), p + 2)

/-- The effect of `ParticleInAnDBoxWf(wf)` (lines 810-872) on the array it is given:
`wf[igp]` is assigned for `igp = 0, ..., ngp-1`. -/
def ParticleInAnDBoxWf (e : Ext) (ngp : Int) (wf : List ℚ) : Option (List ℚ) :=
  forM 0 ngp (fun igp wf => wr wf igp (e.pib igp)) wf

/-- Lines 197-203: the wavefunction storage grows when more states are requested than are
allocated. -/
def Diagonalize_realloc (s : DVRSolve) : Option DVRSolve :=
  if s.nwavefn < s.nStates then do
    let s := if s.nwavefn > 0 then { s with nconverged := 0 } else s
    let w ← resize s.wavefn (s.ngp * s.nStates)
    pure { s with wavefn := w, nwavefn := s.nStates }
  else some s

/-- The `switch (SVFlag)` at lines 211-232; the result is `istart` and the state. -/
def Diagonalize_istart (e : Ext) (SVFlag : Int) (s : DVRSolve) : Res (Int × DVRSolve) :=
  if SVFlag = 0 then .ok (s.nconverged, s)
  else if SVFlag = 1 then
    Res.ofOption ((ParticleInAnDBoxWf e s.ngp s.wavefn).map (fun w => (1, { s with wavefn := w })))
  else if SVFlag = 2 then .ok (0, s)
  else .exit 1

/-- The assignment `wavefn[i*ngp+k] = Randm11()` at line 238. -/
def Diagonalize_random_body (e : Ext) (ngp i k : Int) (st : List ℚ × Nat) :
    Option (List ℚ × Nat) :=
  let r := Randm11 e st.2
  (wr st.1 (i * ngp + k) r.1).map (fun w => (w, r.2))

/-- Lines 234-239: the columns `istart .. nStates-1` receive random entries. -/
def Diagonalize_random (e : Ext) (istart : Int) (s : DVRSolve) : Option DVRSolve :=
  if istart < s.nStates then
    (forM istart s.nStates (fun i st =>
      forM 0 s.ngp (fun k st => Diagonalize_random_body e s.ngp i k st) st)
      (s.wavefn, s.rpos)).map (fun r => { s with wavefn := r.1, rpos := r.2 })
  else some s

/-- Lines 211-239: the start vectors are built. -/
def Diagonalize_start (e : Ext) (SVFlag : Int) (s : DVRSolve) : Res DVRSolve :=
  (Diagonalize_istart e SVFlag s).bind (fun r => Res.ofOption (Diagonalize_random e r.1 r.2))

/-- The first `switch (diagFlag)` (lines 248-256): the value of `CorrFlag`. -/
def Diagonalize_CorrFlag (diagFlag : Int) : Int :=
  if diagFlag = 2 then 1 else if diagFlag = 3 then 2 else if diagFlag = 4 then 0 else 0

/-- The second `switch (diagFlag)` (lines 258-286): the solver is called. In `case 0` the
matrix `hmat` is a local that `build_h` and `fulldiag` fill and use; no member changes. -/
def Diagonalize_dispatch (e : Ext) (s : DVRSolve) (ev : List ℚ) : Res (DVRSolve × List ℚ) :=
  let CorrFlag := Diagonalize_CorrFlag s.diagFlag
  if s.diagFlag = 0 then
    if s.ngp > 1000 then .exit 42 else .ok (s, ev)
  else if s.diagFlag = 1 then
    let r := e.larnoldi s.ngp s.nStates s.maxSub s.maxIter s.ptol ev s.wavefn
    .ok ({ s with nconverged := r.1, wavefn := r.2.2 }, r.2.1)
  else if s.diagFlag = 2 ∨ s.diagFlag = 3 ∨ s.diagFlag = 4 then
    let r := e.larnoldi s.ngp s.nStates s.maxSub s.maxIter s.ptol ev s.wavefn
    let s := { s with nconverged := r.1, wavefn := r.2.2 }
    let r := e.davdriver s.ngp s.nStates s.maxSub s.maxIter s.ptol CorrFlag r.2.1 s.wavefn
    .ok ({ s with nconverged := r.1, wavefn := r.2.2 }, r.2.1)
  else .exit 1

/-- The method `DVR::DiagonalizeSetup` (lines 159-166). -/
def DVRSolve.DiagonalizeSetup (s : DVRSolve) (nEV DiagFlag nMaxSub nMaxIter pTol : Int) :
    DVRSolve :=
  { s with nStates := nEV, diagFlag := DiagFlag, maxSub := nMaxSub, maxIter := nMaxIter,
           ptol := pTol }

/-- What a call gives back when it returns. -/
def Res.returned {α : Type} : Res α → Option α
  | .ok a => some a
  | .exit _ => none
  | .fault => none

/-- The method `DVR::Diagonalize(SVFlag, ev)`; on return the result is the value returned,
the object state and the contents of `ev`. -/
def DVR.Diagonalize (e : Ext) (SVFlag : Int) (s : DVRSolve) (ev : List ℚ) :
    Res (Int × DVRSolve × List ℚ) :=
  (Res.ofOption (Diagonalize_realloc s)).bind (fun s =>
  (Diagonalize_start e SVFlag s).bind (fun s =>
  (Diagonalize_dispatch e s ev).bind (fun r =>
  .ok (r.1.nconverged, r.1, r.2))))

/-! ## `DVR::SetupDVR`: the kinetic-energy arrays (lines 90-95) -/

/-- The allocation of `e_kin[idim]` in `SetupDVR`: `new double[npts]` when `dvrtype == 3`,
`new double[npts*npts]` otherwise. The entries, which `new` leaves uninitialised, are 0 here;
a negative size gives `none`. -/
def SetupDVR_e_kin (dvrtype npts : Int) : Option (List ℚ) :=
  let len := if dvrtype = 3 then npts else npts * npts
  if 0 ≤ len then some (List.replicate len.toNat 0) else none

/-! ## The volume element of the output routines (lines 1102-1118) -/

/-- The value `dV` of `GetWaveFnCube` (line 1118); the same expression is computed at lines
990, 1177, 1260, 1326 and 1416. Here `xgrid = x_dvr`, `ygrid = x_dvr + max1db` and
`zgrid = x_dvr + 2*max1db`, and the divisor is the `int` product converted to `double`. -/
def DVR.GetWaveFnCube_dV (s : DVR) : Option ℚ := do
  let nx := s.n_1dbas 0
  let ny := s.n_1dbas 1
  let nz := s.n_1dbas 2
  let z1 ← rd s.x_dvr (2 * s.max1db + (nz - 1))
  let z0 ← rd s.x_dvr (2 * s.max1db + 0)
  let y1 ← rd s.x_dvr (s.max1db + (nz - 1))
  let y0 ← rd s.x_dvr (s.max1db + 0)
  let x1 ← rd s.x_dvr (nz - 1)
  let x0 ← rd s.x_dvr 0
  pure ((z1 - z0) * (y1 - y0) * (x1 - x0) / (((nx - 1) * (ny - 1) * (nz - 1) : Int) : ℚ))

/-- The volume element as the comment above line 1118 words it: `dV = dx dy dz` with
`dx = (xmax - xmin)/(nx - 1)`, and likewise `dy` and `dz` with `ny` and `nz`. -/
def DVR.dV_comment (s : DVR) : Option ℚ := do
  let nx := s.n_1dbas 0
  let ny := s.n_1dbas 1
  let nz := s.n_1dbas 2
  let x1 ← rd s.x_dvr (nx - 1)
  let x0 ← rd s.x_dvr 0
  let y1 ← rd s.x_dvr (s.max1db + (ny - 1))
  let y0 ← rd s.x_dvr (s.max1db + 0)
  let z1 ← rd s.x_dvr (2 * s.max1db + (nz - 1))
  let z0 ← rd s.x_dvr (2 * s.max1db + 0)
  pure (((x1 - x0) / ((nx - 1 : Int) : ℚ)) * ((y1 - y0) / ((ny - 1 : Int) : ℚ)) *
    ((z1 - z0) / ((nz - 1 : Int) : ℚ)))

/-! ## `DVR::ComputeGradient` (lines 658-791) -/

/-- What `ComputeGradient` calls on the class `Potential`. `grad x y z psi j` is component `j`
of what `EvaluateGradient` adds to `tGrad` for the point with coordinates `x, y, z` and the
wavefunction value `psi`; `FinalGradient` and `SubtractWWGradient` are given by their effect
on the gradient array they receive. -/
structure GradExt where
  /-- Component `j` of the gradient at a point. -/
  grad : ℚ → ℚ → ℚ → ℚ → Int → ℚ
  /-- The effect of `FinalGradient` on the gradient array. -/
  FinalGradient : List ℚ → List ℚ
  /-- The effect of `SubtractWWGradient` on `Gradient`. -/
  SubtractWWGradient : List ℚ → List ℚ

/-- The vectors of `struct Storage` (lines 662-676); in the non-OpenMP variant the same pair
is the local `tGrad` and the caller's array `Gradient`. -/
structure Storage where
  /-- Member `tGrad`: gradient at one grid point. -/
  tGrad : List ℚ
  /-- Member `Gradient`: the accumulated gradient. -/
  Gradient : List ℚ

/-- The constructor of a `dVec` with `n` value-initialised entries. -/
def dVec (n : Int) : Option (List ℚ) :=
  if 0 ≤ n then some (List.replicate n.toNat 0) else none

/-- The constructor `Storage(nSites)`: `tGrad(nSites*3)`, `Gradient(nSites*3)`. -/
def Storage.construct (nSites : Int) : Option Storage := do
  let tGrad ← dVec (nSites * 3)
  let Gradient ← dVec (nSites * 3)
  pure { tGrad := tGrad, Gradient := Gradient }

/-- Bounds-checked read `storage[ithread]`. -/
def rdS (a : List Storage) (i : Int) : Option Storage :=
  if 0 ≤ i then a[i.toNat]? else none

/-- Bounds-checked write `storage[ithread] = v`. -/
def wrS (a : List Storage) (i : Int) (v : Storage) : Option (List Storage) :=
  if 0 ≤ i ∧ i.toNat < a.length then some (a.set i.toNat v) else none

/-- The function-local `static` objects of the OpenMP variant; `none` stands for an object
that has not been constructed yet (no call has been made). -/
structure GradStatics where
  /-- The local `static dVec qtest(no_dim * ngp)`. -/
  qtest : Option (List ℚ)
  /-- The local `static std::vector<Storage> storage(nthread, Storage(nSites))`. -/
  storage : Option (List Storage)

/-- A function-local `static` object: it is constructed by `ctor` when the declaration is
reached for the first time, and kept as it is on every later call. -/
def staticObject {α : Type} (st : Option α) (ctor : Option α) : Option α :=
  match st with
  | some x => some x
  | none => ctor

/-- The three assignments of the loop nest at lines 704-707 (and 765-768); `NDIM` is 3. -/
def ComputeGradient_qtest_body (s : DVR) (i j k : Int) (qtest : List ℚ) : Option (List ℚ) := do
  let ig := sub2ind i j k s.n_1dbas
  let x ← rd s.x_dvr (0 * s.max1db + i)
  let qtest ← wr qtest (ig * 3 + 0) x
  let y ← rd s.x_dvr (1 * s.max1db + j)
  let qtest ← wr qtest (ig * 3 + 1) y
  let z ← rd s.x_dvr (2 * s.max1db + k)
  wr qtest (ig * 3 + 2) z

/-- The loop nest that fills `qtest` (lines 701-710 and 762-771). -/
def ComputeGradient_qtest (s : DVR) (qtest : List ℚ) : Option (List ℚ) :=
  forM 0 (s.n_1dbas 2) (fun k q =>
    forM 0 (s.n_1dbas 1) (fun j q =>
      forM 0 (s.n_1dbas 0) (fun i q => ComputeGradient_qtest_body s i j k q) q) q) qtest

/-- The call `EvaluateGradient(&qtest[igp*no_dim], tGrad, tmu, mCm, wavefn[igp], WaterN)`: the
three coordinates are read and every entry of `tGrad` receives its gradient component. -/
def EvaluateGradient (e : GradExt) (qtest : List ℚ) (igp : Int) (psi : ℚ) (tGrad : List ℚ) :
    Option (List ℚ) := do
  let x ← rd qtest (igp * no_dim)
  let y ← rd qtest (igp * no_dim + 1)
  let z ← rd qtest (igp * no_dim + 2)
  pure (tGrad.enum.map (fun p => p.2 + e.grad x y z psi (p.1 : Int)))

/-- The statement `Gradient[j] += wavefn[igp]*wavefn[igp]*tGrad[j]` (lines 729 and 783). -/
def accumulate_body (wavefn tGrad : List ℚ) (igp j : Int) (Gradient : List ℚ) :
    Option (List ℚ) := do
  let g ← rd Gradient j
  let psi ← rd wavefn igp
  let t ← rd tGrad j
  wr Gradient j (g + psi * psi * t)

/-- The body of the `igp` loop (lines 725-729 and 779-783): `tGrad` is filled with zeros,
`EvaluateGradient` is called, and the density-weighted gradient is added to `Gradient`. -/
def accumulate_point (e : GradExt) (wavefn qtest : List ℚ) (nSites igp : Int) (loc : Storage) :
    Option Storage := do
  let tGrad := loc.tGrad.map (fun _ => (0 : ℚ))
  let psi ← rd wavefn igp
  let tGrad ← EvaluateGradient e qtest igp psi tGrad
  let Gradient ← forM 0 (nSites * 3) (accumulate_body wavefn tGrad igp) loc.Gradient
  pure { tGrad := tGrad, Gradient := Gradient }

/-- What the thread `ithread` does in the parallel region after the barrier (lines 711-733):
its `Gradient` buffer is filled with zeros, it runs the iterations `igp` of the `omp for` loop
that the schedule `owner` gives it, in increasing order, and it calls `FinalGradient` on its
buffer. -/
def ComputeGradient_thread (e : GradExt) (wavefn qtest : List ℚ) (nSites ngp : Int)
    (owner : Int → Int) (ithread : Int) (loc : Storage) : Option Storage := do
  let loc := { loc with Gradient := loc.Gradient.map (fun _ => (0 : ℚ)) }
  let loc ← forM 0 ngp (fun igp loc =>
    if owner igp = ithread then accumulate_point e wavefn qtest nSites igp loc else some loc) loc
  pure { loc with Gradient := e.FinalGradient loc.Gradient }

/-- The parallel region (lines 698-736) for a team of `nthread` threads: each thread works on
its own `storage[ithread]`, so the threads are run one after the other. -/
def ComputeGradient_parallel (e : GradExt) (wavefn qtest : List ℚ) (nSites ngp nthread : Int)
    (owner : Int → Int) (storage : List Storage) : Option (List Storage) :=
  forM 0 nthread (fun ithread storage => do
    let loc ← rdS storage ithread
    let loc ← ComputeGradient_thread e wavefn qtest nSites ngp owner ithread loc
    wrS storage ithread loc) storage

/-- The statement `Gradient[j] += storage[ithread].Gradient[j]` (line 739). -/
def reduce_body (loc : Storage) (j : Int) (Gradient : List ℚ) : Option (List ℚ) := do
  let a ← rd Gradient j
  let b ← rd loc.Gradient j
  wr Gradient j (a + b)

/-- The serial reduction after the parallel region (lines 737-747). -/
def ComputeGradient_reduce (nSites nthread : Int) (storage : List Storage)
    (Gradient : List ℚ) : Option (List ℚ) :=
  forM 0 nthread (fun ithread Gradient => do
    let loc ← rdS storage ithread
    forM 0 (nSites * 3) (reduce_body loc) Gradient) Gradient

/-- The OpenMP variant of `DVR::ComputeGradient` (lines 679-751). `wavefn` is the member of
that name, `nthread` the value of `omp_get_max_threads()`, and `owner igp` the thread that
runs iteration `igp` of the `omp for` loop at line 723. A `static` object is constructed
on the first call only. The result is `Gradient` and the static objects on return. -/
def DVR.ComputeGradient_omp (s : DVR) (wavefn : List ℚ) (e : GradExt) (nthread : Int)
    (owner : Int → Int) (nSites : Int) (Gradient : List ℚ) (st : GradStatics) :
    Option (List ℚ × GradStatics) := do
  let qtest ← staticObject st.qtest (dVec (no_dim * s.ngp))
  let storage ← staticObject st.storage
    ((Storage.construct nSites).map (fun x => List.replicate nthread.toNat x))
  let qtest ← ComputeGradient_qtest s qtest
  let storage ← ComputeGradient_parallel e wavefn qtest nSites s.ngp nthread owner storage
  let Gradient ← ComputeGradient_reduce nSites nthread storage Gradient
  let Gradient := e.SubtractWWGradient Gradient
  pure (Gradient, { qtest := some qtest, storage := some storage })

/-- The non-OpenMP variant of `DVR::ComputeGradient` (lines 753-790); its only `static` object
is `qtest`. The result is `Gradient` and the static `qtest` on return. -/
def DVR.ComputeGradient_serial (s : DVR) (wavefn : List ℚ) (e : GradExt) (nSites : Int)
    (Gradient : List ℚ) (st : Option (List ℚ)) : Option (List ℚ × Option (List ℚ)) := do
  let qtest ← staticObject st (dVec (no_dim * s.ngp))
  let qtest ← ComputeGradient_qtest s qtest
  let tGrad ← dVec (nSites * 3)
  let loc ← forM 0 s.ngp (accumulate_point e wavefn qtest nSites)
    { tGrad := tGrad, Gradient := Gradient }
  let Gradient := e.FinalGradient loc.Gradient
  let Gradient := e.SubtractWWGradient Gradient
  pure (Gradient, some qtest)

/-! ## Example objects -/

/-- The array `{n0, n1, n2}` of three `int`s (entries past the third are `n2`). -/
def counts (n0 n1 n2 : Int) : Int → Int :=
  fun d => if d = 0 then n0 else if d = 1 then n1 else n2

/-- An object whose point counts are `n0, n1, n2`, as `SetupDVR` leaves it before it calls
`ComputeGridParameters`: nothing else is set. -/
def exampleGrid (n0 n1 n2 : Int) : DVR :=
  { dvrtype := 0, sampling := 1, n_1dbas := counts n0 n1 n2, incv := fun _ => 0, ngp := 0,
    max1db := 0, x_dvr := [], StepSize := fun _ => 0, v_diag := [], e_kin := fun _ => [] }

/-- An object on the 3 x 3 x 3 grid with abscissae 0, 1, 2 and step 1 on every axis, set up
with the given basis type and sampling codes; `v_diag` is allocated and zero. -/
def cube3 (dvrtype sampling : Int) : DVR :=
  { dvrtype := dvrtype, sampling := sampling, n_1dbas := counts 3 3 3, incv := counts 1 3 9,
    ngp := 27, max1db := 3, x_dvr := [0, 1, 2, 0, 1, 2, 0, 1, 2], StepSize := fun _ => 1,
    v_diag := List.replicate 27 0, e_kin := fun _ => [] }

/-- The potential `V(x, y, z) = x + 10 y + 100 z`. -/
def linearPotential : ℚ → ℚ → ℚ → ℚ :=
  fun x y z => x + 10 * y + 100 * z

/-- The static locals of `ComputePotential` before its first call: both vectors are empty. -/
def firstCall : Statics :=
  { qtest := [], v_copy := [] }

/-- The potential `V(x, y, z) = x^2`. -/
def squarePotential : ℚ → ℚ → ℚ → ℚ :=
  fun x _ _ => x * x

/-- The potential that is 1 at the point `(2, 1, 0)` and 0 elsewhere. On the example grid
`cube3` this is the grid point `(i, j, k) = (2, 1, 0)`, the neighbour of the centre `(1, 1, 1)`
at offset `(+1, 0, -1)`. -/
def edgeIndicator : ℚ → ℚ → ℚ → ℚ :=
  fun x y z => if x = 2 ∧ y = 1 ∧ z = 0 then 1 else 0

/-- The smoothing formula as the specification words it, for the order `q` and the
point-sampled values `p`: `w_self` times the sum over all offsets `(a, b, c)` in
`{-1, 0, 1}^3`, each taken once, of `p(i+a, j+b, k+c)` weighted by `1/q` to the number of
non-zero components of the offset (1 for the point itself, `1/q` for a face neighbour,
`1/q^2` for an edge neighbour, `1/q^3` for a corner neighbour), with
`w_self = q^3/(q^3 + 6 q^2 + 12 q + 8)`. -/
def stencil_formula (q : ℚ) (p : Int → Int → Int → ℚ) (i j k : Int) : ℚ :=
  let offs : List Int := [-1, 0, 1]
  (q ^ 3 / (q ^ 3 + 6 * q ^ 2 + 12 * q + 8)) *
    (offs.map (fun a => (offs.map (fun b => (offs.map (fun c =>
      (1 / q) ^ (a.natAbs + b.natAbs + c.natAbs) * p (i + a) (j + b) (k + c))).sum)).sum)).sum

/-- An environment for the examples: `RAND_MAX = 32767`, a `rand()` sequence with values in
`[0, RAND_MAX]`, and solvers that report all requested states as converged and leave `ev` and
the wavefunction storage as they are. -/
def exampleExt : Ext :=
  { RAND_MAX := 32767
    rand := fun p => ((p : Int) * 7919 + 11) % 32768
    pib := fun _ => 1 / 2
    larnoldi := fun _ nStates _ _ _ ev w => (nStates, ev, w)
    davdriver := fun _ nStates _ _ _ _ ev w => (nStates, ev, w) }

/-- The solver members of an object on a grid of 2 points, with the given number of requested
states, method code, number of allocated and of converged wavefunctions, and storage. -/
def exampleSolve (nStates diagFlag nwavefn nconverged : Int) (wavefn : List ℚ) : DVRSolve :=
  { nStates := nStates, diagFlag := diagFlag, maxSub := 10, maxIter := 10, ptol := 6, ngp := 2,
    nwavefn := nwavefn, nconverged := nconverged, wavefn := wavefn, rpos := 0 }

/-- The solver members of an object right after construction, for a grid of `ngp` points:
nothing is allocated and nothing has converged. -/
def freshSolve (ngp : Int) : DVRSolve :=
  { nStates := 0, diagFlag := 0, maxSub := 0, maxIter := 0, ptol := 0, ngp := ngp,
    nwavefn := 0, nconverged := 0, wavefn := [], rpos := 0 }

/-- The solver members after a fresh object on a grid of 2 points was set up for one state
with the Lanczos-Arnoldi method (code 1) and `Diagonalize(2, ev)` returned in the environment
`exampleExt`: one wavefunction with two random entries is allocated and converged, and
`rand()` was called 4 times. -/
def solvedOnce : DVRSolve :=
  { exampleSolve 1 1 1 1 [-7930 / 32767, -23768 / 32767] with rpos := 4 }

/-- An object on the 2 x 2 x 2 grid with zero potential and the packed kinetic-energy
matrices `[1, 0, 2]`, `[10, 0, 20]`, `[100, 0, 200]`, whose diagonals are `[1, 2]`,
`[10, 20]` and `[100, 200]`. -/
def cube2 : DVR :=
  { dvrtype := 2, sampling := 1, n_1dbas := counts 2 2 2, incv := counts 1 2 4, ngp := 8,
    max1db := 2, x_dvr := [0, 1, 0, 1, 0, 1], StepSize := fun _ => 1,
    v_diag := [0, 0, 0, 0, 0, 0, 0, 0],
    e_kin := fun d => if d = 0 then [1, 0, 2] else if d = 1 then [10, 0, 20]
      else [100, 0, 200] }

/-- An object with the Fourier basis (`dvrtype = 3`) on the 2 x 2 x 1 grid, with the
kinetic-energy diagonals `[0, 1]`, `[0, 10]` and `[0]` of the three axes. -/
def fourierGrid : DVR :=
  { dvrtype := 3, sampling := 1, n_1dbas := counts 2 2 1, incv := counts 1 2 4, ngp := 4,
    max1db := 2, x_dvr := [0, 1, 0, 1, 0, 0], StepSize := fun _ => 1,
    v_diag := [0, 0, 0, 0],
    e_kin := fun d => if d = 0 then [0, 1] else if d = 1 then [0, 10] else [0] }

/-- An object on the 3 x 3 x 2 grid with abscissae `0, 1, 2` on the first two axes and `0, 1`
on the third; `max1db` is 3. -/
def slab332 : DVR :=
  { dvrtype := 2, sampling := 1, n_1dbas := counts 3 3 2, incv := counts 1 3 9, ngp := 18,
    max1db := 3, x_dvr := [0, 1, 2, 0, 1, 2, 0, 1, 0], StepSize := fun _ => 1,
    v_diag := List.replicate 18 0, e_kin := fun _ => [] }

/-- An object on the grid of `n` points along the first axis (abscissae `0, 1, ...`) and one
point along the other two (`n` is 1 or 2 in the examples). -/
def lineGrid (n : Int) : DVR :=
  { dvrtype := 2, sampling := 1, n_1dbas := counts n 1 1, incv := counts 1 n n, ngp := n,
    max1db := n, x_dvr := if n = 1 then [0, 0, 0] else [0, 1, 0, 0, 0, 0],
    StepSize := fun _ => 1, v_diag := List.replicate n.toNat 0, e_kin := fun _ => [] }

/-- A potential whose gradient component `j` at the point `(x, y, z)` is `x + j + 1`, and
whose `FinalGradient` and `SubtractWWGradient` leave the gradient as it is. -/
def exampleGradExt : GradExt :=
  { grad := fun x _ _ _ j => x + (j : ℚ) + 1
    FinalGradient := fun G => G
    SubtractWWGradient := fun G => G }

/-- The schedule of the `omp for` loop that gives the even iterations to thread 0 and the odd
ones to thread 1. -/
def alternate : Int → Int :=
  fun igp => igp % 2

/-! ## Predicates of the statements -/

/-- The C library contract of `rand()`: `RAND_MAX` is positive and every result lies in
`[0, RAND_MAX]`. -/
def Ext.RandOK (e : Ext) : Prop :=
  0 < e.RAND_MAX ∧ ∀ p, 0 ≤ e.rand p ∧ e.rand p ≤ e.RAND_MAX

/-- The assumption on the external solvers: each returns a count between 0 and the requested
number of states (when that number is not negative), and overwrites the wavefunction storage
in place (its length is kept). -/
def Ext.SolversOK (e : Ext) : Prop :=
  (∀ ngp nStates maxSub maxIter ptol ev w,
    (0 ≤ nStates → 0 ≤ (e.larnoldi ngp nStates maxSub maxIter ptol ev w).1 ∧
      (e.larnoldi ngp nStates maxSub maxIter ptol ev w).1 ≤ nStates) ∧
    (e.larnoldi ngp nStates maxSub maxIter ptol ev w).2.2.length = w.length) ∧
  (∀ ngp nStates maxSub maxIter ptol CorrFlag ev w,
    (0 ≤ nStates → 0 ≤ (e.davdriver ngp nStates maxSub maxIter ptol CorrFlag ev w).1 ∧
      (e.davdriver ngp nStates maxSub maxIter ptol CorrFlag ev w).1 ≤ nStates) ∧
    (e.davdriver ngp nStates maxSub maxIter ptol CorrFlag ev w).2.2.length = w.length)

/-- The multi-index `(i, j, k)` is in range: `0 <= i < n[0]`, `0 <= j < n[1]`, `0 <= k < n[2]`. -/
def DVR.InRange (s : DVR) (i j k : Int) : Prop :=
  (0 ≤ i ∧ i < s.n_1dbas 0) ∧ (0 ≤ j ∧ j < s.n_1dbas 1) ∧ (0 ≤ k ∧ k < s.n_1dbas 2)

/-- The object is as `SetupDVR` leaves it (lines 61-106): all point counts are at least 1,
`ngp` and `max1db` are the values `ComputeGridParameters` computes, `x_dvr` has
`max1db*no_dim` entries and `v_diag` has `ngp` entries. -/
def DVR.Ready (s : DVR) : Prop :=
  (1 ≤ s.n_1dbas 0 ∧ 1 ≤ s.n_1dbas 1 ∧ 1 ≤ s.n_1dbas 2) ∧
  s.ngp = s.n_1dbas 0 * s.n_1dbas 1 * s.n_1dbas 2 ∧
  s.max1db = max (s.n_1dbas 0) (max (s.n_1dbas 1) (s.n_1dbas 2)) ∧
  (s.x_dvr.length : Int) = s.max1db * no_dim ∧
  (s.v_diag.length : Int) = s.ngp

/-- The coordinates of the grid point `(i, j, k)` are `x = x_dvr[0*max1db+i]`,
`y = x_dvr[1*max1db+j]` and `z = x_dvr[2*max1db+k]`. -/
def DVR.Coords (s : DVR) (i j k : Int) (x y z : ℚ) : Prop :=
  rd s.x_dvr (0 * s.max1db + i) = some x ∧ rd s.x_dvr (1 * s.max1db + j) = some y ∧
    rd s.x_dvr (2 * s.max1db + k) = some z

/-- Every entry of `KE_diag` whose index `i*n[1]*n[2] + j*n[2] + k` is below `m` holds
`e_kin[0][i] + e_kin[1][j] + e_kin[2][k]`. -/
def DVR.KEFilled (s : DVR) (m : Int) (t : List ℚ) : Prop :=
  ∀ i j k a b c, s.InRange i j k → i * s.n_1dbas 1 * s.n_1dbas 2 + j * s.n_1dbas 2 + k < m →
    rd (s.e_kin 0) i = some a → rd (s.e_kin 1) j = some b → rd (s.e_kin 2) k = some c →
    rd t (i * s.n_1dbas 1 * s.n_1dbas 2 + j * s.n_1dbas 2 + k) = some (a + b + c)

/-- What `ComputeDiagonal(diag)` needs: all point counts are at least 1, `ngp` and `incv` are
the values `ComputeGridParameters` computes, `v_diag` has `ngp` entries, `diag` has room for
`ngp` entries, and `e_kin[d]` holds a packed lower-triangular matrix of order `n[d]`, that
is at least `n[d]*(n[d]+1)/2` entries. -/
def DVR.DiagReady (s : DVR) (diag : List ℚ) : Prop :=
  (1 ≤ s.n_1dbas 0 ∧ 1 ≤ s.n_1dbas 1 ∧ 1 ≤ s.n_1dbas 2) ∧
  s.ngp = s.n_1dbas 0 * s.n_1dbas 1 * s.n_1dbas 2 ∧
  (s.incv 0 = 1 ∧ s.incv 1 = s.n_1dbas 0 ∧ s.incv 2 = s.n_1dbas 0 * s.n_1dbas 1) ∧
  (s.v_diag.length : Int) = s.ngp ∧
  s.ngp ≤ (diag.length : Int) ∧
  (s.n_1dbas 0 * (s.n_1dbas 0 + 1) / 2 ≤ ((s.e_kin 0).length : Int) ∧
    s.n_1dbas 1 * (s.n_1dbas 1 + 1) / 2 ≤ ((s.e_kin 1).length : Int) ∧
    s.n_1dbas 2 * (s.n_1dbas 2 + 1) / 2 ≤ ((s.e_kin 2).length : Int))

/-- The state of `diag` inside `addtdiag`, relative to its contents `diag0` on entry: the
length is unchanged, and the entry at `r0*incr[0] + r1*incr[1] + i1*inc1` holds the old value
plus `t[i1*(i1+1)/2 + i1]` if `(i1, r0, r1)` has been visited (`vis`), and the old value
otherwise. -/
def AddtInv (n1 inc1 : Int) (ndod incr : Int → Int) (t diag0 : List ℚ)
    (vis : Int → Int → Int → Prop) (d : List ℚ) : Prop :=
  d.length = diag0.length ∧
  ∀ i1 r0 r1, (0 ≤ i1 ∧ i1 < n1) → (0 ≤ r0 ∧ r0 < ndod 0) → (0 ≤ r1 ∧ r1 < ndod 1) →
    ∀ dv tv, rd diag0 (r0 * incr 0 + r1 * incr 1 + i1 * inc1) = some dv →
      rd t (Int.tdiv (i1 * (i1 + 1)) 2 + i1) = some tv →
      (vis i1 r0 r1 → rd d (r0 * incr 0 + r1 * incr 1 + i1 * inc1) = some (dv + tv)) ∧
      (¬ vis i1 r0 r1 → rd d (r0 * incr 0 + r1 * incr 1 + i1 * inc1) = some dv)

/-- The contribution of the grid point `igp` to component `j` of the gradient:
`wavefn[igp]^2` times the gradient component of the point whose coordinates are stored in
`qtest` at offset `igp*no_dim` (an entry that is out of range counts as 0). -/
def gradTerm (e : GradExt) (wavefn qtest : List ℚ) (igp j : Int) : ℚ :=
  (rd wavefn igp).getD 0 * (rd wavefn igp).getD 0 *
    e.grad ((rd qtest (igp * no_dim)).getD 0) ((rd qtest (igp * no_dim + 1)).getD 0)
      ((rd qtest (igp * no_dim + 2)).getD 0) ((rd wavefn igp).getD 0) j

/-- The static buffers of the OpenMP variant of `ComputeGradient` are large enough for a call
with `ngp` grid points, `nSites` sites and `nthread` threads: each object is either not yet
constructed, or `qtest` has at least `3*ngp` entries, and `storage` has an entry for each of
the `nthread` threads whose `tGrad` and `Gradient` have at least `3*nSites` entries. -/
def GradStatics.Fits (st : GradStatics) (ngp nSites nthread : Int) : Prop :=
  (∀ q, st.qtest = some q → 3 * ngp ≤ (q.length : Int)) ∧
  (∀ x, st.storage = some x → ∀ t, 0 ≤ t → t < nthread →
    ∃ loc, rdS x t = some loc ∧ nSites * 3 ≤ (loc.tGrad.length : Int) ∧
      nSites * 3 ≤ (loc.Gradient.length : Int))

/-- The states of the solver members that a program can bring about: the state right after
construction, and every state that a call of `DiagonalizeSetup` (asking for a number of
states `nEV >= 0`) or a returning call of `Diagonalize` makes of such a state. These two
methods are the only code that assigns `nStates`, `nwavefn`, `nconverged` or `wavefn`. -/
inductive Reachable (e : Ext) : DVRSolve → Prop
  /-- The state right after construction. -/
  | fresh (ngp : Int) : Reachable e (freshSolve ngp)
  /-- A call of `DiagonalizeSetup`. -/
  | setup (s : DVRSolve) (nEV DiagFlag nMaxSub nMaxIter pTol : Int) :
      Reachable e s → 0 ≤ nEV →
      Reachable e (s.DiagonalizeSetup nEV DiagFlag nMaxSub nMaxIter pTol)
  /-- A call of `Diagonalize` that returns. -/
  | diag (s : DVRSolve) (SVFlag : Int) (ev : List ℚ) (r : Int × DVRSolve × List ℚ) :
      Reachable e s → DVR.Diagonalize e SVFlag s ev = Res.ok r → Reachable e r.2.1

/-! ## Lemmas on array accesses and loops -/


theorem rd_eq_get (a : List ℚ) (i : Int) (h0 : 0 ≤ i) (h1 : i.toNat < a.length) :
    rd a i = some (a.get ⟨i.toNat, h1⟩) := by
  simp [rd, h0, List.getElem?_eq_getElem h1]

theorem rd_isSome (a : List ℚ) (i : Int) (h0 : 0 ≤ i) (h1 : i < a.length) :
    ∃ v, rd a i = some v := by
  have h : i.toNat < a.length := by omega
  exact ⟨_, rd_eq_get a i h0 h⟩

theorem rd_some_bounds (a : List ℚ) (i : Int) (v : ℚ) (h : rd a i = some v) :
    0 ≤ i ∧ i < a.length := by
  unfold rd at h
  split at h
  · rename_i h0
    have := List.getElem?_eq_some_iff.1 h
    obtain ⟨hlt, _⟩ := this
    exact ⟨h0, by omega⟩
  · cases h

theorem wr_some (a : List ℚ) (i : Int) (v : ℚ) (h0 : 0 ≤ i) (h1 : i < a.length) :
    wr a i v = some (a.set i.toNat v) := by
  have h : i.toNat < a.length := by omega
  simp [wr, h0, h]

theorem wr_length (a b : List ℚ) (i : Int) (v : ℚ) (h : wr a i v = some b) :
    b.length = a.length := by
  unfold wr at h
  split at h
  · cases h; simp
  · cases h

theorem rd_wr_same (a b : List ℚ) (i : Int) (v : ℚ) (h : wr a i v = some b) :
    rd b i = some v := by
  unfold wr at h
  split at h
  · rename_i hc
    cases h
    simp [rd, hc.1, hc.2]
  · cases h

theorem rd_wr_other (a b : List ℚ) (i j : Int) (v : ℚ) (h : wr a i v = some b) (hij : j ≠ i) :
    rd b j = rd a j := by
  unfold wr at h
  split at h
  · rename_i hc
    cases h
    unfold rd
    split
    · rename_i hj
      have : i.toNat ≠ j.toNat := by omega
      simp [List.getElem?_set_ne this]
    · rfl
  · cases h

theorem iterM_inv {σ : Type} (body : Int → σ → Option σ) (lo : Int) (Inv : Nat → σ → Prop)
    (cnt : Nat) (s : σ) (h0 : Inv 0 s)
    (hstep : ∀ m t, m < cnt → Inv m t → ∃ t', body (lo + m) t = some t' ∧ Inv (m + 1) t') :
    ∃ t, iterM body lo cnt s = some t ∧ Inv cnt t := by
  induction cnt with
  | zero => exact ⟨s, rfl, h0⟩
  | succ c ih =>
    obtain ⟨t, ht, hI⟩ := ih (fun m t hm => hstep m t (by omega))
    obtain ⟨t', ht', hI'⟩ := hstep c t (by omega) hI
    exact ⟨t', by simp [iterM, ht, ht'], hI'⟩

theorem forM_inv {σ : Type} (lo hi : Int) (body : Int → σ → Option σ) (Inv : Int → σ → Prop)
    (s : σ) (hle : lo ≤ hi) (h0 : Inv lo s)
    (hstep : ∀ i t, lo ≤ i → i < hi → Inv i t → ∃ t', body i t = some t' ∧ Inv (i + 1) t') :
    ∃ t, forM lo hi body s = some t ∧ Inv hi t := by
  have key := iterM_inv body lo (fun m t => Inv (lo + m) t) (hi - lo).toNat s (by simpa using h0)
    (fun m t hm hI => by
      obtain ⟨t', h1, h2⟩ := hstep (lo + m) t (by omega) (by omega) hI
      exact ⟨t', h1, by simpa [add_assoc] using h2⟩)
  obtain ⟨t, ht, hI⟩ := key
  refine ⟨t, ht, ?_⟩
  have : lo + ((hi - lo).toNat : Int) = hi := by omega
  rw [this] at hI
  exact hI

theorem forM_empty {σ : Type} (lo hi : Int) (body : Int → σ → Option σ) (s : σ) (h : hi ≤ lo) :
    forM lo hi body s = some s := by
  have : (hi - lo).toNat = 0 := by omega
  simp [forM, this, iterM]


/-! ## Grid parameters and the linear index -/

theorem mixed_radix_unique (a b a' b' m : Int) (ha : 0 ≤ a) (ham : a < m) (ha' : 0 ≤ a')
    (ham' : a' < m) (h : a + m * b = a' + m * b') : a = a' ∧ b = b' := by
  have hb : b = b' := by
    by_contra hne
    rcases lt_or_gt_of_ne hne with hlt | hgt
    · have : m * (b' - b) ≥ m * 1 := by
        apply mul_le_mul_of_nonneg_left <;> omega
      nlinarith
    · have : m * (b - b') ≥ m * 1 := by
        apply mul_le_mul_of_nonneg_left <;> omega
      nlinarith
  subst hb
  exact ⟨by omega, rfl⟩

theorem sub2ind_inj (n : Int → Int) (i j k i' j' k' : Int)
    (hi : 0 ≤ i ∧ i < n 0) (hj : 0 ≤ j ∧ j < n 1)
    (hi' : 0 ≤ i' ∧ i' < n 0) (hj' : 0 ≤ j' ∧ j' < n 1)
    (h : sub2ind i j k n = sub2ind i' j' k' n) : i = i' ∧ j = j' ∧ k = k' := by
  unfold sub2ind at h
  obtain ⟨h1, h2⟩ := mixed_radix_unique i _ i' _ (n 0) hi.1 hi.2 hi'.1 hi'.2 h
  obtain ⟨h3, h4⟩ := mixed_radix_unique j _ j' _ (n 1) hj.1 hj.2 hj'.1 hj'.2 h2
  exact ⟨h1, h3, h4⟩

theorem sub2ind_range (n : Int → Int) (i j k : Int)
    (hi : 0 ≤ i ∧ i < n 0) (hj : 0 ≤ j ∧ j < n 1) (hk : 0 ≤ k ∧ k < n 2) :
    0 ≤ sub2ind i j k n ∧ sub2ind i j k n < n 0 * n 1 * n 2 := by
  unfold sub2ind
  have h0 : 0 < n 0 := by omega
  have h1 : 0 < n 1 := by omega
  have a1 : 0 ≤ n 1 * k := mul_nonneg (by omega) hk.1
  have a2 : n 1 * k ≤ n 1 * (n 2 - 1) := mul_le_mul_of_nonneg_left (by omega) (by omega)
  have a3 : 0 ≤ n 0 * (j + n 1 * k) := mul_nonneg (by omega) (by omega)
  have a4 : n 0 * (j + n 1 * k) ≤ n 0 * (n 1 * n 2 - 1) :=
    mul_le_mul_of_nonneg_left (by nlinarith) (by omega)
  constructor
  · omega
  · nlinarith

theorem sub2ind_surj (n : Int → Int) (g : Int) (h0 : 0 < n 0) (h1 : 0 < n 1)
    (hg : 0 ≤ g) (hlt : g < n 0 * n 1 * n 2) :
    ∃ i j k, (0 ≤ i ∧ i < n 0) ∧ (0 ≤ j ∧ j < n 1) ∧ (0 ≤ k ∧ k < n 2) ∧
      sub2ind i j k n = g := by
  refine ⟨g % n 0, (g / n 0) % n 1, g / n 0 / n 1,
    ⟨Int.emod_nonneg _ (by omega), Int.emod_lt_of_pos _ h0⟩,
    ⟨Int.emod_nonneg _ (by omega), Int.emod_lt_of_pos _ h1⟩, ⟨?_, ?_⟩, ?_⟩
  · exact Int.ediv_nonneg (Int.ediv_nonneg hg (by omega)) (by omega)
  · apply Int.ediv_lt_of_lt_mul h1
    apply Int.ediv_lt_of_lt_mul h0
    nlinarith
  · unfold sub2ind
    have e1 := Int.emod_add_ediv g (n 0)
    have e2 := Int.emod_add_ediv (g / n 0) (n 1)
    rw [e2]
    exact e1

theorem forP_0_0 {σ : Type} (body : Int → σ → σ) (s : σ) : forP 0 0 body s = s := by
  have e : ((0 : Int) - 0).toNat = 0 := by decide
  simp [forP, e, iterP]

theorem forP_0_1 {σ : Type} (body : Int → σ → σ) (s : σ) : forP 0 1 body s = body 0 s := by
  have e : ((1 : Int) - 0).toNat = 1 := by decide
  simp [forP, e, iterP]

theorem forP_0_2 {σ : Type} (body : Int → σ → σ) (s : σ) :
    forP 0 2 body s = body 1 (body 0 s) := by
  have e : ((2 : Int) - 0).toNat = 2 := by decide
  simp [forP, e, iterP]

theorem forP_0_3 {σ : Type} (body : Int → σ → σ) (s : σ) :
    forP 0 3 body s = body 2 (body 1 (body 0 s)) := by
  have e : ((3 : Int) - 0).toNat = 3 := by decide
  simp [forP, e, iterP]

theorem forP_1_2 {σ : Type} (body : Int → σ → σ) (s : σ) : forP 1 2 body s = body 1 s := by
  have e : ((2 : Int) - 1).toNat = 1 := by decide
  simp [forP, e, iterP]

theorem ComputeGridParameters_fields (s : DVR) :
    s.ComputeGridParameters.ngp = s.n_1dbas 0 * s.n_1dbas 1 * s.n_1dbas 2 ∧
    s.ComputeGridParameters.incv 0 = 1 ∧
    s.ComputeGridParameters.incv 1 = s.n_1dbas 0 ∧
    s.ComputeGridParameters.incv 2 = s.n_1dbas 0 * s.n_1dbas 1 ∧
    s.ComputeGridParameters.n_1dbas = s.n_1dbas ∧
    s.ComputeGridParameters.max1db =
      (if (if (if 1 < s.n_1dbas 0 then s.n_1dbas 0 else 1) < s.n_1dbas 1 then s.n_1dbas 1
            else (if 1 < s.n_1dbas 0 then s.n_1dbas 0 else 1)) < s.n_1dbas 2 then s.n_1dbas 2
        else (if (if 1 < s.n_1dbas 0 then s.n_1dbas 0 else 1) < s.n_1dbas 1 then s.n_1dbas 1
            else (if 1 < s.n_1dbas 0 then s.n_1dbas 0 else 1))) := by
  simp only [DVR.ComputeGridParameters, no_dim, forP_0_3, ComputeGridParameters_body, forP_0_0,
    forP_0_1, forP_0_2]
  split_ifs <;> simp [Function.update]

/-! ## Claims on the grid parameters and the index maps -/

/-- C2: for point counts that are all at least 1, `ComputeGridParameters` sets
`ngp = n[0]*n[1]*n[2]`, `incv[0] = 1`, `incv[d] = incv[d-1]*n[d-1]` for `d = 1, 2`, and
`max1db = max(n[0], n[1], n[2])`; the point counts themselves are not changed. -/
theorem ComputeGridParameters_spec (s : DVR) (h0 : 1 ≤ s.n_1dbas 0) (h1 : 1 ≤ s.n_1dbas 1)
    (h2 : 1 ≤ s.n_1dbas 2) :
    s.ComputeGridParameters.ngp = s.n_1dbas 0 * s.n_1dbas 1 * s.n_1dbas 2 ∧
    s.ComputeGridParameters.incv 0 = 1 ∧
    s.ComputeGridParameters.incv 1 = s.ComputeGridParameters.incv 0 * s.n_1dbas 0 ∧
    s.ComputeGridParameters.incv 2 = s.ComputeGridParameters.incv 1 * s.n_1dbas 1 ∧
    s.ComputeGridParameters.max1db = max (s.n_1dbas 0) (max (s.n_1dbas 1) (s.n_1dbas 2)) ∧
    s.ComputeGridParameters.n_1dbas = s.n_1dbas := by
  obtain ⟨e1, e2, e3, e4, e5, e6⟩ := ComputeGridParameters_fields s
  refine ⟨e1, e2, by rw [e3, e2]; ring, by rw [e4, e3], ?_, e5⟩
  rw [e6]
  simp only [max_def]
  split_ifs <;> omega

/-- C2, at the point counts 2, 3, 2. -/
theorem ComputeGridParameters_spec_witness :
    (1 ≤ (exampleGrid 2 3 2).n_1dbas 0 ∧ 1 ≤ (exampleGrid 2 3 2).n_1dbas 1 ∧
      1 ≤ (exampleGrid 2 3 2).n_1dbas 2) ∧
    ((exampleGrid 2 3 2).ComputeGridParameters.ngp =
        (exampleGrid 2 3 2).n_1dbas 0 * (exampleGrid 2 3 2).n_1dbas 1 *
          (exampleGrid 2 3 2).n_1dbas 2 ∧
      (exampleGrid 2 3 2).ComputeGridParameters.incv 0 = 1 ∧
      (exampleGrid 2 3 2).ComputeGridParameters.incv 1 =
        (exampleGrid 2 3 2).ComputeGridParameters.incv 0 * (exampleGrid 2 3 2).n_1dbas 0 ∧
      (exampleGrid 2 3 2).ComputeGridParameters.incv 2 =
        (exampleGrid 2 3 2).ComputeGridParameters.incv 1 * (exampleGrid 2 3 2).n_1dbas 1 ∧
      (exampleGrid 2 3 2).ComputeGridParameters.max1db =
        max ((exampleGrid 2 3 2).n_1dbas 0)
          (max ((exampleGrid 2 3 2).n_1dbas 1) ((exampleGrid 2 3 2).n_1dbas 2)) ∧
      (exampleGrid 2 3 2).ComputeGridParameters.n_1dbas = (exampleGrid 2 3 2).n_1dbas) :=
  ⟨⟨by decide, by decide, by decide⟩,
    ComputeGridParameters_spec (exampleGrid 2 3 2) (by decide) (by decide) (by decide)⟩

/-- C3: for point counts that are all at least 1, `sub2ind(i,j,k,n)` is
`i*incv[0] + j*incv[1] + k*incv[2]` with the strides of `ComputeGridParameters`; on the
in-range multi-indices its values lie in `[0, ngp)`, it is injective, and every index of
`[0, ngp)` is the image of an in-range multi-index; a step of 1 along axis 0 is a step of 1
of the linear index. -/
theorem sub2ind_bijection (s : DVR) (h0 : 1 ≤ s.n_1dbas 0) (h1 : 1 ≤ s.n_1dbas 1)
    (h2 : 1 ≤ s.n_1dbas 2) :
    (∀ i j k, sub2ind i j k s.n_1dbas =
      i * s.ComputeGridParameters.incv 0 + j * s.ComputeGridParameters.incv 1 +
        k * s.ComputeGridParameters.incv 2) ∧
    (∀ i j k, 0 ≤ i → i < s.n_1dbas 0 → 0 ≤ j → j < s.n_1dbas 1 → 0 ≤ k → k < s.n_1dbas 2 →
      0 ≤ sub2ind i j k s.n_1dbas ∧ sub2ind i j k s.n_1dbas < s.ComputeGridParameters.ngp) ∧
    (∀ i j k i' j' k', 0 ≤ i → i < s.n_1dbas 0 → 0 ≤ j → j < s.n_1dbas 1 → 0 ≤ k →
      k < s.n_1dbas 2 → 0 ≤ i' → i' < s.n_1dbas 0 → 0 ≤ j' → j' < s.n_1dbas 1 → 0 ≤ k' →
      k' < s.n_1dbas 2 → sub2ind i j k s.n_1dbas = sub2ind i' j' k' s.n_1dbas →
      i = i' ∧ j = j' ∧ k = k') ∧
    (∀ g, 0 ≤ g → g < s.ComputeGridParameters.ngp →
      ∃ i j k, (0 ≤ i ∧ i < s.n_1dbas 0) ∧ (0 ≤ j ∧ j < s.n_1dbas 1) ∧
        (0 ≤ k ∧ k < s.n_1dbas 2) ∧ sub2ind i j k s.n_1dbas = g) ∧
    (∀ i j k, sub2ind (i + 1) j k s.n_1dbas = sub2ind i j k s.n_1dbas + 1) := by
  obtain ⟨e1, e2, e3, e4, _, _⟩ := ComputeGridParameters_fields s
  refine ⟨?_, ?_, ?_, ?_, ?_⟩
  · intro i j k
    rw [e2, e3, e4]
    unfold sub2ind
    ring
  · intro i j k a1 a2 a3 a4 a5 a6
    rw [e1]
    exact sub2ind_range s.n_1dbas i j k ⟨a1, a2⟩ ⟨a3, a4⟩ ⟨a5, a6⟩
  · intro i j k i' j' k' a1 a2 a3 a4 _ _ b1 b2 b3 b4 _ _ h
    exact sub2ind_inj s.n_1dbas i j k i' j' k' ⟨a1, a2⟩ ⟨a3, a4⟩ ⟨b1, b2⟩ ⟨b3, b4⟩ h
  · intro g g0 g1
    rw [e1] at g1
    exact sub2ind_surj s.n_1dbas g (by omega) (by omega) g0 g1
  · intro i j k
    unfold sub2ind
    ring

/-- C3, at the point counts 2, 3, 2: the index of the multi-index `(1, 2, 1)` is read off. -/
theorem sub2ind_bijection_witness :
    (1 ≤ (exampleGrid 2 3 2).n_1dbas 0 ∧ 1 ≤ (exampleGrid 2 3 2).n_1dbas 1 ∧
      1 ≤ (exampleGrid 2 3 2).n_1dbas 2) ∧
    sub2ind 1 2 1 (exampleGrid 2 3 2).n_1dbas =
      1 * (exampleGrid 2 3 2).ComputeGridParameters.incv 0 +
        2 * (exampleGrid 2 3 2).ComputeGridParameters.incv 1 +
        1 * (exampleGrid 2 3 2).ComputeGridParameters.incv 2 :=
  ⟨⟨by decide, by decide, by decide⟩,
    (sub2ind_bijection (exampleGrid 2 3 2) (by decide) (by decide) (by decide)).1 1 2 1⟩

/-- C4 (failing input): on the 2 x 2 x 2 grid the multi-index `(1, 0, 0)` has linear index 1,
and `ind2sub` applied to that index gives `(-1, -1, 1)`, not `(1, 0, 0)`. -/
theorem ind2sub_sub2ind_fails :
    sub2ind 1 0 0 (counts 2 2 2) = 1 ∧
    ind2sub (sub2ind 1 0 0 (counts 2 2 2)) (counts 2 2 2) = some (-1, -1, 1) := by
  constructor <;> decide

/-- C15 (counterexample): with one point on each axis the three strides are all 1. -/
theorem incv_not_strictly_increasing :
    (1 ≤ (exampleGrid 1 1 1).n_1dbas 0 ∧ 1 ≤ (exampleGrid 1 1 1).n_1dbas 1 ∧
      1 ≤ (exampleGrid 1 1 1).n_1dbas 2) ∧
    (exampleGrid 1 1 1).ComputeGridParameters.incv 0 = 1 ∧
    (exampleGrid 1 1 1).ComputeGridParameters.incv 1 = 1 ∧
    (exampleGrid 1 1 1).ComputeGridParameters.incv 2 = 1 := by
  obtain ⟨_, e2, e3, e4, _, _⟩ := ComputeGridParameters_fields (exampleGrid 1 1 1)
  refine ⟨⟨by decide, by decide, by decide⟩, e2, ?_, ?_⟩
  · rw [e3]; decide
  · rw [e4]; decide

/-- C15 (amended): for point counts that are all at least 1 the strides of
`ComputeGridParameters` never decrease with the axis index, `incv[0] < incv[1]` holds exactly
when `n[0] >= 2`, and `incv[1] < incv[2]` holds exactly when `n[1] >= 2`. -/
theorem incv_monotone (s : DVR) (h0 : 1 ≤ s.n_1dbas 0) (h1 : 1 ≤ s.n_1dbas 1)
    (h2 : 1 ≤ s.n_1dbas 2) :
    s.ComputeGridParameters.incv 0 ≤ s.ComputeGridParameters.incv 1 ∧
    s.ComputeGridParameters.incv 1 ≤ s.ComputeGridParameters.incv 2 ∧
    (s.ComputeGridParameters.incv 0 < s.ComputeGridParameters.incv 1 ↔ 2 ≤ s.n_1dbas 0) ∧
    (s.ComputeGridParameters.incv 1 < s.ComputeGridParameters.incv 2 ↔ 2 ≤ s.n_1dbas 1) := by
  obtain ⟨_, e2, e3, e4, _, _⟩ := ComputeGridParameters_fields s
  rw [e2, e3, e4]
  refine ⟨h0, by nlinarith, by omega, ?_⟩
  constructor
  · intro h
    by_contra hc
    have : s.n_1dbas 1 = 1 := by omega
    rw [this] at h
    omega
  · intro h
    nlinarith

/-- C15 (amended), at the point counts 2, 3, 2. -/
theorem incv_monotone_witness :
    (1 ≤ (exampleGrid 2 3 2).n_1dbas 0 ∧ 1 ≤ (exampleGrid 2 3 2).n_1dbas 1 ∧
      1 ≤ (exampleGrid 2 3 2).n_1dbas 2) ∧
    ((exampleGrid 2 3 2).ComputeGridParameters.incv 0 ≤
        (exampleGrid 2 3 2).ComputeGridParameters.incv 1 ∧
      (exampleGrid 2 3 2).ComputeGridParameters.incv 1 ≤
        (exampleGrid 2 3 2).ComputeGridParameters.incv 2 ∧
      ((exampleGrid 2 3 2).ComputeGridParameters.incv 0 <
        (exampleGrid 2 3 2).ComputeGridParameters.incv 1 ↔ 2 ≤ (exampleGrid 2 3 2).n_1dbas 0) ∧
      ((exampleGrid 2 3 2).ComputeGridParameters.incv 1 <
        (exampleGrid 2 3 2).ComputeGridParameters.incv 2 ↔
          2 ≤ (exampleGrid 2 3 2).n_1dbas 1)) :=
  ⟨⟨by decide, by decide, by decide⟩,
    incv_monotone (exampleGrid 2 3 2) (by decide) (by decide) (by decide)⟩

/-! ## The counter-advance loop -/

theorem advance_3 (n ii : Int → Int) :
    advance n no_dim ii 0 = (if ii 0 + 1 = n 0 then 0 else ii 0 + 1) ∧
    advance n no_dim ii 1 =
      (if ii 0 + 1 = n 0 then (if ii 1 + 1 = n 1 then 0 else ii 1 + 1) else ii 1) ∧
    advance n no_dim ii 2 =
      (if ii 0 + 1 = n 0 then
        (if ii 1 + 1 = n 1 then (if ii 2 + 1 = n 2 then 0 else ii 2 + 1) else ii 2)
       else ii 2) := by
  have e : (3 : Int).toNat = 3 := by decide
  simp only [advance, no_dim, e, advanceFrom]
  refine ⟨?_, ?_, ?_⟩ <;> split_ifs <;> simp_all [Function.update]

theorem advance_2 (n ir : Int → Int) :
    advance n 2 ir 0 = (if ir 0 + 1 = n 0 then 0 else ir 0 + 1) ∧
    advance n 2 ir 1 =
      (if ir 0 + 1 = n 0 then (if ir 1 + 1 = n 1 then 0 else ir 1 + 1) else ir 1) := by
  have e : (2 : Int).toNat = 2 := by decide
  simp only [advance, e, advanceFrom]
  refine ⟨?_, ?_⟩ <;> split_ifs <;> simp_all [Function.update]

theorem advance_3_step (n ii : Int → Int) (m : Int) (h0 : 1 ≤ n 0) (h1 : 1 ≤ n 1)
    (hsum : ii 0 + 1 + n 0 * (ii 1 + n 1 * ii 2) = m) (ha : -1 ≤ ii 0 ∧ ii 0 < n 0)
    (hb : 0 ≤ ii 1 ∧ ii 1 < n 1) (hc : 0 ≤ ii 2) (hm : m < n 0 * n 1 * n 2) :
    sub2ind (advance n no_dim ii 0) (advance n no_dim ii 1) (advance n no_dim ii 2) n = m ∧
    (0 ≤ advance n no_dim ii 0 ∧ advance n no_dim ii 0 < n 0) ∧
    (0 ≤ advance n no_dim ii 1 ∧ advance n no_dim ii 1 < n 1) ∧
    (0 ≤ advance n no_dim ii 2 ∧ advance n no_dim ii 2 < n 2) := by
  obtain ⟨e0, e1, e2⟩ := advance_3 n ii
  rw [e0, e1, e2]
  unfold sub2ind
  generalize ii 0 = a at *
  generalize ii 1 = b at *
  generalize ii 2 = c at *
  generalize n 0 = n0 at *
  generalize n 1 = n1 at *
  generalize n 2 = n2 at *
  have key : c < n2 := by
    by_contra hcon
    have hcn : n2 ≤ c := by omega
    have t1 : n1 * n2 ≤ n1 * c := mul_le_mul_of_nonneg_left hcn (by omega)
    have t2 : n0 * (n1 * n2) ≤ n0 * (b + n1 * c) :=
      mul_le_mul_of_nonneg_left (by omega) (by omega)
    nlinarith
  by_cases c0 : a + 1 = n0
  · by_cases c1 : b + 1 = n1
    · by_cases c2 : c + 1 = n2
      · exfalso
        subst c0 c1 c2
        nlinarith
      · simp only [c0, c1, c2, if_true, if_false]
        subst c0 c1
        refine ⟨by ring_nf; ring_nf at hsum; linarith, by omega, by omega, by omega⟩
    · simp only [c0, c1, if_true, if_false]
      subst c0
      refine ⟨by ring_nf; ring_nf at hsum; linarith, by omega, by omega, by omega⟩
  · simp only [c0, if_false]
    refine ⟨by linarith, by omega, by omega, by omega⟩

theorem forM_0_3 {σ : Type} (body : Int → σ → Option σ) (s : σ) :
    forM 0 3 body s = ((body 0 s).bind (body 1)).bind (body 2) := by
  have e : ((3 : Int) - 0).toNat = 3 := by decide
  simp [forM, e, iterM]

theorem Coords_exists (s : DVR) (hr : s.Ready) (i j k : Int) (h : s.InRange i j k) :
    ∃ x y z, s.Coords i j k x y z := by
  obtain ⟨⟨h0, h1, h2⟩, _, hmax, hx, _⟩ := hr
  obtain ⟨hi, hj, hk⟩ := h
  have m0 : s.n_1dbas 0 ≤ s.max1db := by rw [hmax]; exact le_max_left _ _
  have m1 : s.n_1dbas 1 ≤ s.max1db := by
    rw [hmax]; exact le_trans (le_max_left _ _) (le_max_right _ _)
  have m2 : s.n_1dbas 2 ≤ s.max1db := by
    rw [hmax]; exact le_trans (le_max_right _ _) (le_max_right _ _)
  simp only [no_dim] at hx
  obtain ⟨x, ex⟩ := rd_isSome s.x_dvr (0 * s.max1db + i) (by omega) (by omega)
  obtain ⟨y, ey⟩ := rd_isSome s.x_dvr (1 * s.max1db + j) (by omega) (by omega)
  obtain ⟨z, ez⟩ := rd_isSome s.x_dvr (2 * s.max1db + k) (by omega) (by omega)
  exact ⟨x, y, z, ex, ey, ez⟩

theorem qtest_body_spec (s : DVR) (m : Int) (ii : Int → Int) (q : List ℚ) (x y z : ℚ)
    (hc : s.Coords (advance s.n_1dbas no_dim ii 0) (advance s.n_1dbas no_dim ii 1)
      (advance s.n_1dbas no_dim ii 2) x y z)
    (hm0 : 0 ≤ m) (hlen : m * 3 + 3 ≤ q.length) :
    ∃ q', qtest_body s m (ii, q) = some (advance s.n_1dbas no_dim ii, q') ∧
      q'.length = q.length ∧
      rd q' (m * 3) = some x ∧ rd q' (m * 3 + 1) = some y ∧ rd q' (m * 3 + 2) = some z ∧
      ∀ g, (g < m * 3 ∨ m * 3 + 3 ≤ g) → rd q' g = rd q g := by
  obtain ⟨hx, hy, hz⟩ := hc
  have w0 := wr_some q (m * 3 + 0) x (by omega) (by omega)
  have l0 := wr_length _ _ _ _ w0
  have w1 := wr_some (q.set (m * 3 + 0).toNat x) (m * 3 + 1) y (by omega) (by omega)
  have l1 := wr_length _ _ _ _ w1
  have w2 := wr_some ((q.set (m * 3 + 0).toNat x).set (m * 3 + 1).toNat y) (m * 3 + 2) z
    (by omega) (by omega)
  have l2 := wr_length _ _ _ _ w2
  refine ⟨((q.set (m * 3 + 0).toNat x).set (m * 3 + 1).toNat y).set (m * 3 + 2).toNat z,
    ?_, ?_, ?_, ?_, ?_, ?_⟩
  · simp only [qtest_body, no_dim, forM_0_3] at hx hy hz ⊢
    simp only [Option.bind_eq_bind, Option.pure_def, hx, hy, hz, Option.some_bind, w0, w1, w2]
  · rw [l2, l1, l0]
  · rw [rd_wr_other _ _ _ _ _ w2 (by omega), rd_wr_other _ _ _ _ _ w1 (by omega)]
    have := rd_wr_same _ _ _ _ w0
    simpa using this
  · rw [rd_wr_other _ _ _ _ _ w2 (by omega)]
    exact rd_wr_same _ _ _ _ w1
  · exact rd_wr_same _ _ _ _ w2
  · intro g hg
    rw [rd_wr_other _ _ _ _ _ w2 (by omega), rd_wr_other _ _ _ _ _ w1 (by omega),
      rd_wr_other _ _ _ _ _ w0 (by omega)]

theorem resize_spec (a : List ℚ) (n : Int) (h : 0 ≤ n) :
    ∃ b, resize a n = some b ∧ (b.length : Int) = n := by
  refine ⟨a.take n.toNat ++ List.replicate (n.toNat - a.length) 0, by simp [resize, h], ?_⟩
  simp only [List.length_append, List.length_take, List.length_replicate]
  omega

theorem fill_qtest_spec (s : DVR) (q0 : List ℚ) (hr : s.Ready) :
    ∃ q, fill_qtest s q0 = some q ∧ (q.length : Int) = 3 * s.ngp ∧
      ∀ i j k x y z, s.InRange i j k → s.Coords i j k x y z →
        rd q (sub2ind i j k s.n_1dbas * 3) = some x ∧
        rd q (sub2ind i j k s.n_1dbas * 3 + 1) = some y ∧
        rd q (sub2ind i j k s.n_1dbas * 3 + 2) = some z := by
  have hr' := hr
  obtain ⟨⟨h0, h1, h2⟩, hngp, _, _, _⟩ := hr'
  have hpos : 0 ≤ s.ngp := by
    rw [hngp]; exact mul_nonneg (mul_nonneg (by omega) (by omega)) (by omega)
  obtain ⟨q1, hq1, hl1⟩ := resize_spec q0 (no_dim * s.ngp) (by simp only [no_dim]; omega)
  simp only [no_dim] at hl1
  have key := forM_inv 0 s.ngp (qtest_body s)
    (fun m st => (st.2.length : Int) = 3 * s.ngp ∧
      (st.1 0 + 1 + s.n_1dbas 0 * (st.1 1 + s.n_1dbas 1 * st.1 2) = m ∧
        (-1 ≤ st.1 0 ∧ st.1 0 < s.n_1dbas 0) ∧ (0 ≤ st.1 1 ∧ st.1 1 < s.n_1dbas 1) ∧
        0 ≤ st.1 2) ∧
      ∀ i j k x y z, s.InRange i j k → sub2ind i j k s.n_1dbas < m → s.Coords i j k x y z →
        rd st.2 (sub2ind i j k s.n_1dbas * 3) = some x ∧
        rd st.2 (sub2ind i j k s.n_1dbas * 3 + 1) = some y ∧
        rd st.2 (sub2ind i j k s.n_1dbas * 3 + 2) = some z)
    ((fun k => if k = 0 then -1 else 0), q1) hpos
    (by
      refine ⟨hl1, ⟨by simp, by simp; omega, by simp; omega, by simp⟩, ?_⟩
      intro i j k x y z hin hlt _
      have := (sub2ind_range s.n_1dbas i j k hin.1 hin.2.1 hin.2.2).1
      omega)
    (by
      rintro m ⟨ii, q⟩ hm0 hm ⟨hlen, ⟨hsum, ha, hb, hc⟩, hfill⟩
      simp only at hlen hsum ha hb hc hfill
      obtain ⟨e, r0, r1, r2⟩ := advance_3_step s.n_1dbas ii m h0 h1 hsum ha hb hc
        (by rw [← hngp]; exact hm)
      obtain ⟨x, y, z, hxyz⟩ := Coords_exists s hr _ _ _ ⟨r0, r1, r2⟩
      obtain ⟨q', hq', hl', hx', hy', hz', hframe⟩ :=
        qtest_body_spec s m ii q x y z hxyz hm0 (by omega)
      refine ⟨_, hq', by simp only; omega, ⟨?_, ⟨by simp only; omega, r0.2⟩, r1, r2.1⟩, ?_⟩
      · simp only
        unfold sub2ind at e
        omega
      · intro i j k x1 y1 z1 hin hlt hco
        simp only
        by_cases hcase : sub2ind i j k s.n_1dbas = m
        · rw [← e] at hcase
          obtain ⟨ei, ej, ek⟩ := sub2ind_inj s.n_1dbas i j k _ _ _ hin.1 hin.2.1 r0 r1 hcase
          rw [ei, ej, ek] at hco
          obtain ⟨c1, c2, c3⟩ := hco
          obtain ⟨d1, d2, d3⟩ := hxyz
          rw [c1] at d1; rw [c2] at d2; rw [c3] at d3
          cases d1; cases d2; cases d3
          rw [ei, ej, ek, e]
          exact ⟨hx', hy', hz'⟩
        · have hlt' : sub2ind i j k s.n_1dbas < m := by omega
          obtain ⟨f1, f2, f3⟩ := hfill i j k x1 y1 z1 hin hlt' hco
          rw [hframe _ (by omega), hframe _ (by omega), hframe _ (by omega)]
          exact ⟨f1, f2, f3⟩)
  obtain ⟨⟨ii, q⟩, hloop, hlen, _, hfill⟩ := key
  refine ⟨q, ?_, hlen, ?_⟩
  · simp only [fill_qtest, Option.bind_eq_bind, Option.pure_def, hq1, Option.some_bind, hloop]
  · intro i j k x y z hin hco
    have := (sub2ind_range s.n_1dbas i j k hin.1 hin.2.1 hin.2.2).2
    exact hfill i j k x y z hin (by rw [hngp]; exact this) hco

/-! ## The grid loops of `ComputePotential` -/

theorem grid_loop_spec (f : ℚ → ℚ → ℚ → ℚ) (q : List ℚ) (ngp : Int) (v : List ℚ)
    (hpos : 0 ≤ ngp) (hv : (v.length : Int) = ngp) (hq : (q.length : Int) = 3 * ngp) :
    ∃ v', grid_loop f q ngp v = some v' ∧ v'.length = v.length ∧
      ∀ g x y z, 0 ≤ g → g < ngp → rd q (g * 3) = some x → rd q (g * 3 + 1) = some y →
        rd q (g * 3 + 2) = some z → rd v' g = some (f x y z) := by
  have key := forM_inv 0 ngp (fun igp v_diag =>
      (rd q (igp * no_dim)).bind (fun x0 => (rd q (igp * no_dim + 1)).bind (fun y0 =>
        (rd q (igp * no_dim + 2)).bind (fun z0 => wr v_diag igp (f x0 y0 z0)))))
    (fun m st => st.length = v.length ∧
      ∀ g x y z, 0 ≤ g → g < m → rd q (g * 3) = some x → rd q (g * 3 + 1) = some y →
        rd q (g * 3 + 2) = some z → rd st g = some (f x y z))
    v hpos ⟨rfl, by intro g x y z h0 h1; omega⟩
    (by
      rintro m st hm0 hm ⟨hlen, hfill⟩
      obtain ⟨x, hx⟩ := rd_isSome q (m * 3) (by omega) (by omega)
      obtain ⟨y, hy⟩ := rd_isSome q (m * 3 + 1) (by omega) (by omega)
      obtain ⟨z, hz⟩ := rd_isSome q (m * 3 + 2) (by omega) (by omega)
      have w := wr_some st m (f x y z) hm0 (by omega)
      refine ⟨st.set m.toNat (f x y z),
        by simp only [no_dim, hx, hy, hz, Option.some_bind, w], ?_, ?_⟩
      · rw [wr_length _ _ _ _ w, hlen]
      · intro g x1 y1 z1 g0 g1 gx gy gz
        by_cases hg : g = m
        · subst hg
          rw [hx] at gx; rw [hy] at gy; rw [hz] at gz
          cases gx; cases gy; cases gz
          exact rd_wr_same _ _ _ _ w
        · rw [rd_wr_other _ _ _ _ _ w hg]
          exact hfill g x1 y1 z1 g0 (by omega) gx gy gz)
  obtain ⟨v', h1, h2, h3⟩ := key
  exact ⟨v', h1, h2, h3⟩

theorem sample_loop_spec (s : DVR) (f : ℚ → ℚ → ℚ → ℚ) (q0 : List ℚ) (hr : s.Ready) :
    ∃ q v, fill_qtest s q0 = some q ∧ grid_loop f q s.ngp s.v_diag = some v ∧
      (q.length : Int) = 3 * s.ngp ∧ (v.length : Int) = s.ngp ∧
      (∀ i j k x y z, s.InRange i j k → s.Coords i j k x y z →
        rd q (sub2ind i j k s.n_1dbas * 3) = some x ∧
        rd q (sub2ind i j k s.n_1dbas * 3 + 1) = some y ∧
        rd q (sub2ind i j k s.n_1dbas * 3 + 2) = some z) ∧
      ∀ i j k, s.InRange i j k →
        ∃ x y z, s.Coords i j k x y z ∧ rd v (sub2ind i j k s.n_1dbas) = some (f x y z) := by
  obtain ⟨q, hq, hlen, hfill⟩ := fill_qtest_spec s q0 hr
  have hr' := hr
  obtain ⟨⟨h0, h1, h2⟩, hngp, _, _, hv⟩ := hr'
  have hpos : 0 ≤ s.ngp := by
    rw [hngp]; exact mul_nonneg (mul_nonneg (by omega) (by omega)) (by omega)
  obtain ⟨v, hv1, hv2, hv3⟩ := grid_loop_spec f q s.ngp s.v_diag hpos hv hlen
  refine ⟨q, v, hq, hv1, hlen, by rw [hv2]; exact hv, hfill, ?_⟩
  intro i j k hin
  obtain ⟨x, y, z, hc⟩ := Coords_exists s hr i j k hin
  obtain ⟨a, b, c⟩ := hfill i j k x y z hin hc
  have rg := sub2ind_range s.n_1dbas i j k hin.1 hin.2.1 hin.2.2
  exact ⟨x, y, z, hc, hv3 _ x y z rg.1 (by rw [hngp]; exact rg.2) a b c⟩

theorem sample8_eq (V : ℚ → ℚ → ℚ → ℚ) (dx dy dz x0 y0 z0 : ℚ) :
    sample8 V dx dy dz x0 y0 z0 =
      (1 / 8) * ∑ sx ∈ ({-1, 1} : Finset ℚ), ∑ sy ∈ ({-1, 1} : Finset ℚ),
        ∑ sz ∈ ({-1, 1} : Finset ℚ), V (x0 + sx * dx) (y0 + sy * dy) (z0 + sz * dz) := by
  have hne : (-1 : ℚ) ≠ 1 := by norm_num
  simp only [sample8, Finset.sum_pair hne, neg_one_mul, one_mul, ← sub_eq_add_neg]
  ring

theorem sample27_eq (V : ℚ → ℚ → ℚ → ℚ) (dx dy dz x0 y0 z0 : ℚ) :
    sample27 V dx dy dz x0 y0 z0 =
      (1 / 27) * ∑ sx ∈ ({-1, 0, 1} : Finset ℚ), ∑ sy ∈ ({-1, 0, 1} : Finset ℚ),
        ∑ sz ∈ ({-1, 0, 1} : Finset ℚ), V (x0 + sx * dx) (y0 + sy * dy) (z0 + sz * dz) := by
  have hne : (0 : ℚ) ≠ 1 := by norm_num
  have hnm : (-1 : ℚ) ∉ ({0, 1} : Finset ℚ) := by
    simp only [Finset.mem_insert, Finset.mem_singleton]; norm_num
  simp only [sample27, Finset.sum_insert hnm, Finset.sum_pair hne, neg_one_mul, one_mul,
    zero_mul, add_zero, ← sub_eq_add_neg]
  ring

/-! ## Claims on the sampling branches of `ComputePotential` -/

theorem cube3_Ready (dvrtype sampling : Int) : (cube3 dvrtype sampling).Ready := by
  simp [DVR.Ready, cube3, counts, no_dim]

/-- C5: on an object set up by `SetupDVR` (all point counts at least 1), `ComputePotential`
with `sampling = 1` returns, and then `v_diag[i + n[0]*(j + n[1]*k)] = V(x_i, y_j, z_k)` for
every in-range `(i, j, k)`, where `x_i, y_j, z_k` are the entries `x_dvr[0*max1db+i]`,
`x_dvr[1*max1db+j]`, `x_dvr[2*max1db+k]`; the coordinate table `qtest` holds these three
coordinates at offset `3*igp` of the linear index `igp` of `(i, j, k)`; and a constant
potential gives that constant at every grid point. -/
theorem ComputePotential_point_sampling (s : DVR) (V : ℚ → ℚ → ℚ → ℚ) (st : Statics)
    (hr : s.Ready) (hs : s.sampling = 1) :
    ∃ r, s.ComputePotential V st = some r ∧
      (∀ i j k, s.InRange i j k → ∃ x y z, s.Coords i j k x y z ∧
        rd r.1.v_diag (sub2ind i j k s.n_1dbas) = some (V x y z) ∧
        rd r.2.qtest (sub2ind i j k s.n_1dbas * 3) = some x ∧
        rd r.2.qtest (sub2ind i j k s.n_1dbas * 3 + 1) = some y ∧
        rd r.2.qtest (sub2ind i j k s.n_1dbas * 3 + 2) = some z) ∧
      (∀ c, (∀ x y z, V x y z = c) → ∀ i j k, s.InRange i j k →
        rd r.1.v_diag (sub2ind i j k s.n_1dbas) = some c) := by
  obtain ⟨q, v, hq, hv, _, _, hfill, hval⟩ := sample_loop_spec s V st.qtest hr
  refine ⟨({ s with v_diag := v }, { st with qtest := q }), ?_, ?_, ?_⟩
  · simp only [DVR.ComputePotential, Option.bind_eq_bind, Option.pure_def, hq, Option.some_bind,
      hs, if_true, hv]
  · intro i j k hin
    obtain ⟨x, y, z, hc, hrd⟩ := hval i j k hin
    obtain ⟨a, b, c⟩ := hfill i j k x y z hin hc
    exact ⟨x, y, z, hc, hrd, a, b, c⟩
  · intro c hc i j k hin
    obtain ⟨x, y, z, _, hrd⟩ := hval i j k hin
    rw [hc] at hrd
    exact hrd

/-- C5, on the 3 x 3 x 3 example grid with the potential `x + 10 y + 100 z`. -/
theorem ComputePotential_point_sampling_witness :
    ((cube3 0 1).Ready ∧ (cube3 0 1).sampling = 1) ∧
    ∃ r, (cube3 0 1).ComputePotential linearPotential firstCall = some r ∧
      (∀ i j k, (cube3 0 1).InRange i j k → ∃ x y z, (cube3 0 1).Coords i j k x y z ∧
        rd r.1.v_diag (sub2ind i j k (cube3 0 1).n_1dbas) = some (linearPotential x y z) ∧
        rd r.2.qtest (sub2ind i j k (cube3 0 1).n_1dbas * 3) = some x ∧
        rd r.2.qtest (sub2ind i j k (cube3 0 1).n_1dbas * 3 + 1) = some y ∧
        rd r.2.qtest (sub2ind i j k (cube3 0 1).n_1dbas * 3 + 2) = some z) ∧
      (∀ c, (∀ x y z, linearPotential x y z = c) → ∀ i j k, (cube3 0 1).InRange i j k →
        rd r.1.v_diag (sub2ind i j k (cube3 0 1).n_1dbas) = some c) :=
  ⟨⟨cube3_Ready 0 1, rfl⟩,
    ComputePotential_point_sampling (cube3 0 1) linearPotential firstCall (cube3_Ready 0 1) rfl⟩

/-- C6: on an object set up by `SetupDVR`, when `ComputePotential` takes the 8x branch
(`dvrtype = 0` and `sampling = 2`) it returns, and the value stored for the grid point
`(i, j, k)` with coordinates `(x0, y0, z0)` is one eighth of the sum of
`V(x0 + sx*dx, y0 + sy*dy, z0 + sz*dz)` over all `(sx, sy, sz)` in `{-1, 1}^3`, each taken
once, with `dx, dy, dz` one quarter of the step sizes. -/
theorem ComputePotential_8_point (s : DVR) (V : ℚ → ℚ → ℚ → ℚ) (st : Statics)
    (hr : s.Ready) (hd : s.dvrtype = 0) (hs : s.sampling = 2) :
    ∃ r, s.ComputePotential V st = some r ∧
      ∀ i j k, s.InRange i j k → ∃ x0 y0 z0, s.Coords i j k x0 y0 z0 ∧
        rd r.1.v_diag (sub2ind i j k s.n_1dbas) =
          some ((1 / 8) * ∑ sx ∈ ({-1, 1} : Finset ℚ), ∑ sy ∈ ({-1, 1} : Finset ℚ),
            ∑ sz ∈ ({-1, 1} : Finset ℚ),
              V (x0 + sx * (s.StepSize 0 / 4)) (y0 + sy * (s.StepSize 1 / 4))
                (z0 + sz * (s.StepSize 2 / 4))) := by
  obtain ⟨q, v, hq, hv, _, _, _, hval⟩ := sample_loop_spec s
    (sample8 V (0.25 * s.StepSize 0) (0.25 * s.StepSize 1) (0.25 * s.StepSize 2)) st.qtest hr
  refine ⟨({ s with v_diag := v }, { st with qtest := q }), ?_, ?_⟩
  · simp only [DVR.ComputePotential, Option.bind_eq_bind, Option.pure_def, hq, Option.some_bind,
      hd, hs, and_self, if_true, hv]
    rw [if_neg (by decide)]
  · intro i j k hin
    obtain ⟨x, y, z, hc, hrd⟩ := hval i j k hin
    refine ⟨x, y, z, hc, ?_⟩
    rw [hrd, sample8_eq]
    have e : ∀ t : ℚ, 0.25 * t = t / 4 := by intro t; norm_num; ring
    simp only [e]

/-- C6, on the 3 x 3 x 3 example grid with the potential `x + 10 y + 100 z`. -/
theorem ComputePotential_8_point_witness :
    ((cube3 0 2).Ready ∧ (cube3 0 2).dvrtype = 0 ∧ (cube3 0 2).sampling = 2) ∧
    ∃ r, (cube3 0 2).ComputePotential linearPotential firstCall = some r ∧
      ∀ i j k, (cube3 0 2).InRange i j k → ∃ x0 y0 z0, (cube3 0 2).Coords i j k x0 y0 z0 ∧
        rd r.1.v_diag (sub2ind i j k (cube3 0 2).n_1dbas) =
          some ((1 / 8) * ∑ sx ∈ ({-1, 1} : Finset ℚ), ∑ sy ∈ ({-1, 1} : Finset ℚ),
            ∑ sz ∈ ({-1, 1} : Finset ℚ),
              linearPotential (x0 + sx * ((cube3 0 2).StepSize 0 / 4))
                (y0 + sy * ((cube3 0 2).StepSize 1 / 4))
                (z0 + sz * ((cube3 0 2).StepSize 2 / 4))) :=
  ⟨⟨cube3_Ready 0 2, rfl, rfl⟩,
    ComputePotential_8_point (cube3 0 2) linearPotential firstCall (cube3_Ready 0 2) rfl rfl⟩

/-- C7: on an object set up by `SetupDVR`, when `ComputePotential` takes the 27x branch
(`dvrtype = 0` and `sampling = 3`) it returns, and the value stored for the grid point
`(i, j, k)` with coordinates `(x0, y0, z0)` is `1/27` times the sum of
`V(x0 + sx*dx, y0 + sy*dy, z0 + sz*dz)` over all `(sx, sy, sz)` in `{-1, 0, 1}^3`, each taken
once, with `dx, dy, dz` one third of the step sizes. -/
theorem ComputePotential_27_point (s : DVR) (V : ℚ → ℚ → ℚ → ℚ) (st : Statics)
    (hr : s.Ready) (hd : s.dvrtype = 0) (hs : s.sampling = 3) :
    ∃ r, s.ComputePotential V st = some r ∧
      ∀ i j k, s.InRange i j k → ∃ x0 y0 z0, s.Coords i j k x0 y0 z0 ∧
        rd r.1.v_diag (sub2ind i j k s.n_1dbas) =
          some ((1 / 27) * ∑ sx ∈ ({-1, 0, 1} : Finset ℚ), ∑ sy ∈ ({-1, 0, 1} : Finset ℚ),
            ∑ sz ∈ ({-1, 0, 1} : Finset ℚ),
              V (x0 + sx * (s.StepSize 0 / 3)) (y0 + sy * (s.StepSize 1 / 3))
                (z0 + sz * (s.StepSize 2 / 3))) := by
  obtain ⟨q, v, hq, hv, _, _, _, hval⟩ := sample_loop_spec s
    (sample27 V (s.StepSize 0 / 3) (s.StepSize 1 / 3) (s.StepSize 2 / 3)) st.qtest hr
  refine ⟨({ s with v_diag := v }, { st with qtest := q }), ?_, ?_⟩
  · simp only [DVR.ComputePotential, Option.bind_eq_bind, Option.pure_def, hq, Option.some_bind,
      hd, hs, and_self, if_true, hv]
    rw [if_neg (by decide), if_neg (by decide)]
  · intro i j k hin
    obtain ⟨x, y, z, hc, hrd⟩ := hval i j k hin
    refine ⟨x, y, z, hc, ?_⟩
    rw [hrd, sample27_eq]

/-- C7, on the 3 x 3 x 3 example grid with the potential `x + 10 y + 100 z`. -/
theorem ComputePotential_27_point_witness :
    ((cube3 0 3).Ready ∧ (cube3 0 3).dvrtype = 0 ∧ (cube3 0 3).sampling = 3) ∧
    ∃ r, (cube3 0 3).ComputePotential linearPotential firstCall = some r ∧
      ∀ i j k, (cube3 0 3).InRange i j k → ∃ x0 y0 z0, (cube3 0 3).Coords i j k x0 y0 z0 ∧
        rd r.1.v_diag (sub2ind i j k (cube3 0 3).n_1dbas) =
          some ((1 / 27) * ∑ sx ∈ ({-1, 0, 1} : Finset ℚ), ∑ sy ∈ ({-1, 0, 1} : Finset ℚ),
            ∑ sz ∈ ({-1, 0, 1} : Finset ℚ),
              linearPotential (x0 + sx * ((cube3 0 3).StepSize 0 / 3))
                (y0 + sy * ((cube3 0 3).StepSize 1 / 3))
                (z0 + sz * ((cube3 0 3).StepSize 2 / 3))) :=
  ⟨⟨cube3_Ready 0 3, rfl, rfl⟩,
    ComputePotential_27_point (cube3 0 3) linearPotential firstCall (cube3_Ready 0 3) rfl rfl⟩

theorem sample8_const (V : ℚ → ℚ → ℚ → ℚ) (c : ℚ) (hV : ∀ x y z, V x y z = c)
    (dx dy dz x0 y0 z0 : ℚ) : sample8 V dx dy dz x0 y0 z0 = c := by
  simp only [sample8, hV]
  ring

theorem sample27_const (V : ℚ → ℚ → ℚ → ℚ) (c : ℚ) (hV : ∀ x y z, V x y z = c)
    (dx dy dz x0 y0 z0 : ℚ) : sample27 V dx dy dz x0 y0 z0 = c := by
  simp only [sample27, hV]
  ring

theorem sample6_const (V : ℚ → ℚ → ℚ → ℚ) (c : ℚ) (hV : ∀ x y z, V x y z = c)
    (dx x0 y0 z0 : ℚ) : sample6 V dx x0 y0 z0 = c := by
  simp only [sample6, hV]
  ring

/-- C8: on an object set up by `SetupDVR`, if the potential is the constant `c` then each of
the 8x branch (`dvrtype = 0`, `sampling = 2`), the 27x branch (`dvrtype = 0`, `sampling = 3`)
and the 6-point branch (`sampling = 4`) of `ComputePotential` returns and stores exactly `c`
at every grid point. -/
theorem ComputePotential_constant (s : DVR) (V : ℚ → ℚ → ℚ → ℚ) (c : ℚ) (st : Statics)
    (hr : s.Ready) (hV : ∀ x y z, V x y z = c)
    (hb : (s.dvrtype = 0 ∧ s.sampling = 2) ∨ (s.dvrtype = 0 ∧ s.sampling = 3) ∨
      s.sampling = 4) :
    ∃ r, s.ComputePotential V st = some r ∧
      ∀ i j k, s.InRange i j k → rd r.1.v_diag (sub2ind i j k s.n_1dbas) = some c := by
  rcases hb with ⟨hd, hs⟩ | ⟨hd, hs⟩ | hs
  · obtain ⟨q, v, hq, hv, _, _, _, hval⟩ := sample_loop_spec s
      (sample8 V (0.25 * s.StepSize 0) (0.25 * s.StepSize 1) (0.25 * s.StepSize 2)) st.qtest hr
    refine ⟨({ s with v_diag := v }, { st with qtest := q }), ?_, ?_⟩
    · simp only [DVR.ComputePotential, Option.bind_eq_bind, Option.pure_def, hq,
        Option.some_bind, hd, hs, and_self, if_true, hv]
      rw [if_neg (by decide)]
    · intro i j k hin
      obtain ⟨x, y, z, _, hrd⟩ := hval i j k hin
      rw [hrd, sample8_const V c hV]
  · obtain ⟨q, v, hq, hv, _, _, _, hval⟩ := sample_loop_spec s
      (sample27 V (s.StepSize 0 / 3) (s.StepSize 1 / 3) (s.StepSize 2 / 3)) st.qtest hr
    refine ⟨({ s with v_diag := v }, { st with qtest := q }), ?_, ?_⟩
    · simp only [DVR.ComputePotential, Option.bind_eq_bind, Option.pure_def, hq,
        Option.some_bind, hd, hs, and_self, if_true, hv]
      rw [if_neg (by decide), if_neg (by decide)]
    · intro i j k hin
      obtain ⟨x, y, z, _, hrd⟩ := hval i j k hin
      rw [hrd, sample27_const V c hV]
  · obtain ⟨q, v, hq, hv, _, _, _, hval⟩ := sample_loop_spec s (sample6 V 0.2) st.qtest hr
    refine ⟨({ s with v_diag := v }, { st with qtest := q }), ?_, ?_⟩
    · simp only [DVR.ComputePotential, Option.bind_eq_bind, Option.pure_def, hq,
        Option.some_bind, hs, if_true, hv]
      rw [if_neg (by decide), if_neg (by intro h; exact absurd h.2 (by decide)),
        if_neg (by intro h; exact absurd h.2 (by decide))]
    · intro i j k hin
      obtain ⟨x, y, z, _, hrd⟩ := hval i j k hin
      rw [hrd, sample6_const V c hV]

/-- C8, on the 3 x 3 x 3 example grid with the constant potential 7 and the 6-point branch
reached with the basis type code 2. -/
theorem ComputePotential_constant_witness :
    ((cube3 2 4).Ready ∧ (∀ x y z : ℚ, (fun _ _ _ => (7 : ℚ)) x y z = 7) ∧
      (((cube3 2 4).dvrtype = 0 ∧ (cube3 2 4).sampling = 2) ∨
        ((cube3 2 4).dvrtype = 0 ∧ (cube3 2 4).sampling = 3) ∨ (cube3 2 4).sampling = 4)) ∧
    ∃ r, (cube3 2 4).ComputePotential (fun _ _ _ => 7) firstCall = some r ∧
      ∀ i j k, (cube3 2 4).InRange i j k →
        rd r.1.v_diag (sub2ind i j k (cube3 2 4).n_1dbas) = some 7 :=
  ⟨⟨cube3_Ready 2 4, fun _ _ _ => rfl, Or.inr (Or.inr rfl)⟩,
    ComputePotential_constant (cube3 2 4) (fun _ _ _ => 7) 7 firstCall (cube3_Ready 2 4)
      (fun _ _ _ => rfl) (Or.inr (Or.inr rfl))⟩

/-! ## Claims on the smoothing branch of `ComputePotential`: concrete runs -/

set_option maxRecDepth 100000 in
set_option maxHeartbeats 4000000 in
/-- C9 (failing input): with the basis type code 2 (sine grid) and `sampling = 2` on the
3 x 3 x 3 example grid, `ComputePotential` runs the smoothing branch with order 2, for every
potential; for `V = x^2` the value stored at the centre point is `23/16`, whereas the 8x
average at that point is `17/16` (the value stored when the basis type code is 0). -/
theorem sampling_2_on_sine_grid_is_smoothed :
    (∀ V st, (cube3 2 2).ComputePotential V st =
      (fill_qtest (cube3 2 2) st.qtest).bind (fun q =>
        smoothing_branch (cube3 2 2) V q st.v_copy)) ∧
    ((cube3 2 2).ComputePotential squarePotential firstCall).bind
      (fun r => rd r.1.v_diag (sub2ind 1 1 1 (cube3 2 2).n_1dbas)) = some (23 / 16) ∧
    sample8 squarePotential (0.25 * 1) (0.25 * 1) (0.25 * 1) 1 1 1 = 17 / 16 := by
  refine ⟨?_, ?_, ?_⟩
  · intro V st
    rfl
  · decide!
  · decide!

set_option maxRecDepth 100000 in
set_option maxHeartbeats 4000000 in
/-- C10 (failing input): on the 3 x 3 x 3 example grid with `sampling = 5` and the potential
that is 1 at the grid point `(2, 1, 0)` only, the smoothed value of the centre `(1, 1, 1)` is
0: the edge neighbour at offset `(+1, 0, -1)` does not contribute. The formula of the
specification gives `w_self * w_edge = 5/343` there. -/
theorem stencil_omits_edge_neighbour :
    ((cube3 2 5).ComputePotential edgeIndicator firstCall).bind
      (fun r => rd r.1.v_diag (sub2ind 1 1 1 (cube3 2 5).n_1dbas)) = some 0 ∧
    stencil_formula 5 (fun i j k => edgeIndicator i j k) 1 1 1 = 5 / 343 := by
  refine ⟨?_, ?_⟩
  · decide!
  · decide!

set_option maxRecDepth 100000 in
set_option maxHeartbeats 4000000 in
/-- C12 (failing input): on the 3 x 3 x 3 example grid with `sampling = 5` and the constant
potential 1, the value stored at the centre point is `342/343`, on the first call and again
on a second call that starts from the state and the static locals the first call left. -/
theorem stencil_constant_not_reproduced :
    ((cube3 2 5).ComputePotential (fun _ _ _ => 1) firstCall).bind
      (fun r => rd r.1.v_diag (sub2ind 1 1 1 (cube3 2 5).n_1dbas)) = some (342 / 343) ∧
    ((cube3 2 5).ComputePotential (fun _ _ _ => 1) firstCall).bind
      (fun r => (r.1.ComputePotential (fun _ _ _ => 1) r.2).bind
        (fun r2 => rd r2.1.v_diag (sub2ind 1 1 1 (cube3 2 5).n_1dbas))) = some (342 / 343) := by
  refine ⟨?_, ?_⟩
  · decide!
  · decide!

set_option maxRecDepth 100000 in
set_option maxHeartbeats 4000000 in
/-- C13 (failing input): on the 3 x 3 x 3 example grid with `sampling = 5` and the potential
`x + 10 y + 100 z`, on the first call, the last grid index is `ngp - 1 = 26`, the
point-sampled value there is 222 (the point is on the boundary, so `v_diag[26]` still holds
it on return), and `v_copy[26]` is 0: the copy stops one entry short. The centre point reads
that entry as its corner neighbour `(2, 2, 2)`. -/
theorem v_copy_last_entry_not_copied :
    (cube3 2 5).ngp - 1 = 26 ∧ sub2ind 2 2 2 (cube3 2 5).n_1dbas = 26 ∧
    ((cube3 2 5).ComputePotential linearPotential firstCall).bind
      (fun r => rd r.1.v_diag 26) = some 222 ∧
    ((cube3 2 5).ComputePotential linearPotential firstCall).bind
      (fun r => rd r.2.v_copy 26) = some 0 := by
  refine ⟨by decide, by decide, ?_, ?_⟩
  · decide!
  · decide!

/-! ## The smoothing pass: which entries it writes -/

theorem forM_preserve {σ : Type} (lo hi : Int) (body : Int → σ → Option σ) (P : σ → Prop)
    (s : σ) (h0 : P s)
    (hstep : ∀ i t, lo ≤ i → i < hi → P t → ∃ t', body i t = some t' ∧ P t') :
    ∃ t, forM lo hi body s = some t ∧ P t := by
  by_cases hle : lo ≤ hi
  · exact forM_inv lo hi body (fun _ t => P t) s hle h0 hstep
  · exact ⟨s, forM_empty lo hi body s (by omega), h0⟩

theorem copyN_spec (dst src : List ℚ) (cnt : Int) (h0 : 0 ≤ cnt) (h1 : cnt ≤ src.length)
    (h2 : cnt ≤ dst.length) :
    ∃ b, copyN dst src cnt = some b ∧ b.length = dst.length ∧
      (∀ g, 0 ≤ g → g < cnt → rd b g = rd src g) ∧
      (∀ g, cnt ≤ g → rd b g = rd dst g) := by
  have a1 : cnt.toNat ≤ src.length := by omega
  have a2 : cnt.toNat ≤ dst.length := by omega
  refine ⟨src.take cnt.toNat ++ dst.drop cnt.toNat, by simp [copyN, h0, a1, a2], ?_, ?_, ?_⟩
  · simp only [List.length_append, List.length_take, List.length_drop]
    omega
  · intro g g0 g1
    have hg : g.toNat < cnt.toNat := by omega
    have hl : g.toNat < (List.take cnt.toNat src).length := by
      simp only [List.length_take]; omega
    simp only [rd, g0, if_true]
    rw [List.getElem?_append_left hl, List.getElem?_take_of_lt hg]
  · intro g g1
    have g0 : 0 ≤ g := by omega
    have hl : (List.take cnt.toNat src).length ≤ g.toNat := by
      simp only [List.length_take]; omega
    simp only [rd, g0, if_true]
    rw [List.getElem?_append_right hl, List.getElem?_drop]
    congr 1
    simp only [List.length_take]
    omega

theorem stencil_add_bind_isSome (o : Option ℚ) (w : ℚ) (vc : List ℚ) (g : Int) :
    (o.bind (stencil_add w vc g)).isSome = true ↔
      (o.isSome = true ∧ (rd vc g).isSome = true) := by
  cases o with
  | none => simp
  | some a => cases h : rd vc g <;> simp [stencil_add, h]

theorem stencil_self_bind_isSome (o : Option ℚ) (vc : List ℚ) (g : Int) :
    (o.bind (stencil_self vc g)).isSome = true ↔
      (o.isSome = true ∧ (rd vc g).isSome = true) := by
  cases o with
  | none => simp
  | some a => cases h : rd vc g <;> simp [stencil_self, h]

theorem smooth_point_isSome (wface wedge wcrnr wsum : ℚ) (n : Int → Int) (vc : List ℚ)
    (i j k : Int)
    (H : ∀ i' j' k', i - 1 ≤ i' → i' ≤ i + 1 → j - 1 ≤ j' → j' ≤ j + 1 → k - 1 ≤ k' →
      k' ≤ k + 1 → (rd vc (sub2ind i' j' k' n)).isSome = true) :
    (smooth_point wface wedge wcrnr wsum n vc i j k).isSome = true := by
  simp only [smooth_point, Option.isSome_map', stencil_add_bind_isSome,
    stencil_self_bind_isSome, Option.isSome_some, true_and]
  repeat' apply And.intro
  all_goals (apply H <;> omega)



theorem smooth_loop_frame (wface wedge wcrnr wsum : ℚ) (n : Int → Int) (vc v : List ℚ)
    (hvc : (vc.length : Int) = n 0 * n 1 * n 2) (hv : (v.length : Int) = n 0 * n 1 * n 2) :
    ∃ v', smooth_loop wface wedge wcrnr wsum n vc v = some v' ∧ v'.length = v.length ∧
      ∀ g, (∀ i j k, (1 ≤ i ∧ i < n 0 - 1) → (1 ≤ j ∧ j < n 1 - 1) → (1 ≤ k ∧ k < n 2 - 1) →
        g ≠ sub2ind i j k n) → rd v' g = rd v g := by
  have P0 : v.length = v.length ∧ ∀ g, (∀ i j k, (1 ≤ i ∧ i < n 0 - 1) →
      (1 ≤ j ∧ j < n 1 - 1) → (1 ≤ k ∧ k < n 2 - 1) → g ≠ sub2ind i j k n) →
      rd v g = rd v g := ⟨rfl, fun _ _ => rfl⟩
  unfold smooth_loop
  refine forM_preserve _ _ _ (fun t => t.length = v.length ∧ ∀ g, (∀ i j k,
    (1 ≤ i ∧ i < n 0 - 1) → (1 ≤ j ∧ j < n 1 - 1) → (1 ≤ k ∧ k < n 2 - 1) →
      g ≠ sub2ind i j k n) → rd t g = rd v g) v P0 ?_
  intro k t hk0 hk1 Pt
  refine forM_preserve _ _ _ _ t Pt ?_
  intro j t hj0 hj1 Pt
  refine forM_preserve _ _ _ _ t Pt ?_
  rintro i t hi0 hi1 ⟨hlen, hfr⟩
  have hsome := smooth_point_isSome wface wedge wcrnr wsum n vc i j k (by
    intro i' j' k' a1 a2 b1 b2 c1 c2
    have rg := sub2ind_range n i' j' k' ⟨by omega, by omega⟩ ⟨by omega, by omega⟩
      ⟨by omega, by omega⟩
    obtain ⟨x, hx⟩ := rd_isSome vc _ rg.1 (by rw [hvc]; exact rg.2)
    rw [hx]; rfl)
  obtain ⟨val, hval⟩ := Option.isSome_iff_exists.1 hsome
  have rg := sub2ind_range n i j k ⟨by omega, by omega⟩ ⟨by omega, by omega⟩
    ⟨by omega, by omega⟩
  have w := wr_some t (sub2ind i j k n) val rg.1 (by rw [hlen, hv]; exact rg.2)
  refine ⟨t.set (sub2ind i j k n).toNat val, ?_, ?_, ?_⟩
  · simp only [Option.bind_eq_bind, hval, Option.some_bind, w]
  · rw [wr_length _ _ _ _ w, hlen]
  · intro g hg
    rw [rd_wr_other _ _ _ _ _ w (hg i j k ⟨hi0, hi1⟩ ⟨hj0, hj1⟩ ⟨hk0, hk1⟩)]
    exact hfr g hg
theorem smoothing_branch_spec (s : DVR) (V : ℚ → ℚ → ℚ → ℚ) (q0 vc0 : List ℚ)
    (hr : s.Ready) :
    ∃ q v vc v', fill_qtest s q0 = some q ∧ grid_loop V q s.ngp s.v_diag = some v ∧
      smoothing_branch s V q vc0 =
        some ({ s with v_diag := v' }, { qtest := q, v_copy := vc }) ∧
      (∀ i j k, s.InRange i j k →
        ∃ x y z, s.Coords i j k x y z ∧ rd v (sub2ind i j k s.n_1dbas) = some (V x y z)) ∧
      (vc.length : Int) = s.ngp ∧
      (∀ g, 0 ≤ g → g < s.ngp - 1 → rd vc g = rd v g) ∧
      (v'.length : Int) = s.ngp ∧
      ∀ g, (∀ i j k, (1 ≤ i ∧ i < s.n_1dbas 0 - 1) → (1 ≤ j ∧ j < s.n_1dbas 1 - 1) →
        (1 ≤ k ∧ k < s.n_1dbas 2 - 1) → g ≠ sub2ind i j k s.n_1dbas) → rd v' g = rd v g := by
  obtain ⟨q, v, hq, hv, _, hvl, _, hval⟩ := sample_loop_spec s V q0 hr
  obtain ⟨⟨h0, h1, h2⟩, hngp, _, _, _⟩ := hr
  have hpos : 1 ≤ s.ngp := by
    rw [hngp]
    have : 1 ≤ s.n_1dbas 0 * s.n_1dbas 1 := by nlinarith
    nlinarith
  obtain ⟨vc1, hvc1, hl1⟩ := resize_spec vc0 s.ngp (by omega)
  obtain ⟨vc, hvc, hl, hcp, _⟩ := copyN_spec vc1 v (s.ngp - 1) (by omega) (by omega) (by omega)
  obtain ⟨v', hv', hl', hfr⟩ := smooth_loop_frame (1 / (s.sampling : ℚ))
    (1 / (s.sampling : ℚ) / (s.sampling : ℚ))
    (1 / (s.sampling : ℚ) / (s.sampling : ℚ) / (s.sampling : ℚ))
    ((s.sampling : ℚ) * (s.sampling : ℚ) * (s.sampling : ℚ) /
      ((s.sampling : ℚ) * (s.sampling : ℚ) * (s.sampling : ℚ) +
        6 * (s.sampling : ℚ) * (s.sampling : ℚ) + 12 * (s.sampling : ℚ) + 8))
    s.n_1dbas vc v (by rw [hl, hl1, hngp]) (by rw [hvl, hngp])
  refine ⟨q, v, vc, v', hq, hv, ?_, hval, by rw [hl, hl1], hcp, by rw [hl', hvl], hfr⟩
  simp only [smoothing_branch, Option.bind_eq_bind, Option.pure_def, hv, Option.some_bind,
    hvc1, hvc, hv']

/-- C11: on an object set up by `SetupDVR`, whenever `ComputePotential` takes the smoothing
branch (the sampling code is not 1 or 4, and is not 2 or 3 with basis type code 0) it
returns, and every in-range grid point `(i, j, k)` with some index equal to 0 or to
`n[d]-1` ends with `v_diag` equal to `V(x_i, y_j, z_k)`; if some `n[d] < 3`, this holds for
every in-range grid point. -/
theorem smoothing_leaves_boundary (s : DVR) (V : ℚ → ℚ → ℚ → ℚ) (st : Statics)
    (hr : s.Ready) (hs1 : s.sampling ≠ 1) (hs2 : ¬ (s.dvrtype = 0 ∧ s.sampling = 2))
    (hs3 : ¬ (s.dvrtype = 0 ∧ s.sampling = 3)) (hs4 : s.sampling ≠ 4) :
    ∃ r, s.ComputePotential V st = some r ∧
      (∀ i j k, s.InRange i j k →
        (i = 0 ∨ i = s.n_1dbas 0 - 1 ∨ j = 0 ∨ j = s.n_1dbas 1 - 1 ∨ k = 0 ∨
          k = s.n_1dbas 2 - 1) →
        ∃ x y z, s.Coords i j k x y z ∧
          rd r.1.v_diag (sub2ind i j k s.n_1dbas) = some (V x y z)) ∧
      ((s.n_1dbas 0 < 3 ∨ s.n_1dbas 1 < 3 ∨ s.n_1dbas 2 < 3) →
        ∀ i j k, s.InRange i j k →
          ∃ x y z, s.Coords i j k x y z ∧
            rd r.1.v_diag (sub2ind i j k s.n_1dbas) = some (V x y z)) := by
  obtain ⟨q, v, vc, v', hq, _, hb, hval, _, _, _, hfr⟩ :=
    smoothing_branch_spec s V st.qtest st.v_copy hr
  have hbound : ∀ i j k, s.InRange i j k →
      (i = 0 ∨ i = s.n_1dbas 0 - 1 ∨ j = 0 ∨ j = s.n_1dbas 1 - 1 ∨ k = 0 ∨
        k = s.n_1dbas 2 - 1) →
      ∃ x y z, s.Coords i j k x y z ∧ rd v' (sub2ind i j k s.n_1dbas) = some (V x y z) := by
    intro i j k hin hbd
    obtain ⟨x, y, z, hc, hrd⟩ := hval i j k hin
    refine ⟨x, y, z, hc, ?_⟩
    rw [hfr _ ?_]
    · exact hrd
    · intro i' j' k' hi' hj' hk' heq
      obtain ⟨e1, e2, e3⟩ := sub2ind_inj s.n_1dbas i j k i' j' k' hin.1 hin.2.1
        ⟨by omega, by omega⟩ ⟨by omega, by omega⟩ heq
      omega
  refine ⟨({ s with v_diag := v' }, { qtest := q, v_copy := vc }), ?_, hbound, ?_⟩
  · simp only [DVR.ComputePotential, Option.bind_eq_bind, Option.pure_def, hq, Option.some_bind,
      hs1, hs2, hs3, hs4, if_false, hb]
  · intro hsmall i j k hin
    apply hbound i j k hin
    obtain ⟨hi, hj, hk⟩ := hin
    omega

/-- C11, on the 3 x 3 x 3 example grid with the basis type code 2, `sampling = 5` and the
potential `x + 10 y + 100 z`. -/
theorem smoothing_leaves_boundary_witness :
    ((cube3 2 5).Ready ∧ (cube3 2 5).sampling ≠ 1 ∧
      ¬ ((cube3 2 5).dvrtype = 0 ∧ (cube3 2 5).sampling = 2) ∧
      ¬ ((cube3 2 5).dvrtype = 0 ∧ (cube3 2 5).sampling = 3) ∧ (cube3 2 5).sampling ≠ 4) ∧
    ∃ r, (cube3 2 5).ComputePotential linearPotential firstCall = some r ∧
      (∀ i j k, (cube3 2 5).InRange i j k →
        (i = 0 ∨ i = (cube3 2 5).n_1dbas 0 - 1 ∨ j = 0 ∨ j = (cube3 2 5).n_1dbas 1 - 1 ∨
          k = 0 ∨ k = (cube3 2 5).n_1dbas 2 - 1) →
        ∃ x y z, (cube3 2 5).Coords i j k x y z ∧
          rd r.1.v_diag (sub2ind i j k (cube3 2 5).n_1dbas) = some (linearPotential x y z)) ∧
      (((cube3 2 5).n_1dbas 0 < 3 ∨ (cube3 2 5).n_1dbas 1 < 3 ∨ (cube3 2 5).n_1dbas 2 < 3) →
        ∀ i j k, (cube3 2 5).InRange i j k →
          ∃ x y z, (cube3 2 5).Coords i j k x y z ∧
            rd r.1.v_diag (sub2ind i j k (cube3 2 5).n_1dbas) =
              some (linearPotential x y z)) :=
  ⟨⟨cube3_Ready 2 5, by decide, by decide, by decide, by decide⟩,
    smoothing_leaves_boundary (cube3 2 5) linearPotential firstCall (cube3_Ready 2 5)
      (by decide) (by decide) (by decide) (by decide)⟩

/-! ## `Diagonalize`: reallocation -/

theorem resize_rd (a : List ℚ) (n : Int) (h : 0 ≤ n) :
    ∃ b, resize a n = some b ∧ (b.length : Int) = n ∧
      (∀ g : Int, 0 ≤ g → g < a.length → g < n → rd b g = rd a g) ∧
      (∀ g, (a.length : Int) ≤ g → g < n → rd b g = some 0) := by
  refine ⟨a.take n.toNat ++ List.replicate (n.toNat - a.length) 0, by simp [resize, h],
    ?_, ?_, ?_⟩
  · simp only [List.length_append, List.length_take, List.length_replicate]
    omega
  · intro g g0 g1 g2
    have hl : g.toNat < (List.take n.toNat a).length := by
      simp only [List.length_take]; omega
    simp only [rd, g0, if_true]
    rw [List.getElem?_append_left hl, List.getElem?_take_of_lt (by omega)]
  · intro g g1 g2
    have g0 : 0 ≤ g := by omega
    have hl : (List.take n.toNat a).length ≤ g.toNat := by
      simp only [List.length_take]; omega
    simp only [rd, g0, if_true]
    rw [List.getElem?_append_right hl, List.getElem?_replicate]
    simp only [List.length_take]
    rw [if_pos (by omega)]

theorem realloc_detail (s : DVRSolve) (hlt : s.nwavefn < s.nStates) (hngp : 0 ≤ s.ngp)
    (hlen : (s.wavefn.length : Int) = s.ngp * s.nwavefn) :
    ∃ s', Diagonalize_realloc s = some s' ∧ s'.nwavefn = s.nStates ∧
      (s'.wavefn.length : Int) = s.ngp * s.nStates ∧
      (∀ g, 0 ≤ g → g < s.ngp * s.nwavefn → rd s'.wavefn g = rd s.wavefn g) ∧
      (∀ g, s.ngp * s.nwavefn ≤ g → g < s.ngp * s.nStates → rd s'.wavefn g = some 0) ∧
      s'.nconverged = (if s.nwavefn > 0 then 0 else s.nconverged) ∧
      ((0 ≤ s.nconverged ∧ s.nconverged ≤ s.nwavefn) → s'.nconverged = 0) ∧
      (s'.nStates = s.nStates ∧ s'.diagFlag = s.diagFlag ∧ s'.ngp = s.ngp ∧
        s'.rpos = s.rpos) := by
  have hmono : s.ngp * s.nwavefn ≤ s.ngp * s.nStates :=
    mul_le_mul_of_nonneg_left (by omega) hngp
  have hnn : 0 ≤ s.ngp * s.nStates := by
    have : (0 : Int) ≤ s.wavefn.length := by omega
    omega
  obtain ⟨w, hw, hl, hkeep, hzero⟩ := resize_rd s.wavefn (s.ngp * s.nStates) hnn
  by_cases hpos : s.nwavefn > 0
  · refine ⟨{ s with nconverged := 0, wavefn := w, nwavefn := s.nStates }, ?_, rfl, hl,
      ?_, ?_, by simp [hpos], fun _ => rfl, ⟨rfl, rfl, rfl, rfl⟩⟩
    · simp only [Diagonalize_realloc, hlt, if_true, hpos, Option.bind_eq_bind, hw,
        Option.some_bind, Option.pure_def]
    · intro g g0 g1
      exact hkeep g g0 (by omega) (by omega)
    · intro g g0 g1
      exact hzero g (by omega) g1
  · refine ⟨{ s with wavefn := w, nwavefn := s.nStates }, ?_, rfl, hl,
      ?_, ?_, by simp [hpos], fun h => by simp only; omega, ⟨rfl, rfl, rfl, rfl⟩⟩
    · simp only [Diagonalize_realloc, hlt, if_true, hpos, if_false, Option.bind_eq_bind, hw,
        Option.some_bind, Option.pure_def]
    · intro g g0 g1
      exact hkeep g g0 (by omega) (by omega)
    · intro g g0 g1
      exact hzero g (by omega) g1

/-! ## `Diagonalize`: the start vectors -/

theorem Randm11_range (e : Ext) (h : e.RandOK) (p : Nat) :
    -1 ≤ (Randm11 e p).1 ∧ (Randm11 e p).1 ≤ 1 := by
  obtain ⟨hpos, hr⟩ := h
  obtain ⟨r0, r1⟩ := hr (p + 1)
  have hM : (0 : ℚ) < (e.RAND_MAX : ℚ) := by exact_mod_cast hpos
  have a0 : (0 : ℚ) ≤ (e.rand (p + 1) : ℚ) := by exact_mod_cast r0
  have a1 : (e.rand (p + 1) : ℚ) ≤ (e.RAND_MAX : ℚ) := by exact_mod_cast r1
  have b0 : 0 ≤ (e.rand (p + 1) : ℚ) / (e.RAND_MAX : ℚ) := div_nonneg a0 hM.le
  have b1 : (e.rand (p + 1) : ℚ) / (e.RAND_MAX : ℚ) ≤ 1 := (div_le_one hM).2 a1
  unfold Randm11
  split_ifs
  · exact ⟨by linarith, b1⟩
  · simp only [neg_div]
    exact ⟨by linarith, by linarith⟩

theorem random_fill_spec (e : Ext) (P : ℚ → Prop) (hP : ∀ p, P (Randm11 e p).1)
    (istart : Int) (s : DVRSolve)
    (hi : 0 ≤ istart) (hngp : 0 ≤ s.ngp) (hcap : s.nStates ≤ s.nwavefn)
    (hlen : (s.wavefn.length : Int) = s.ngp * s.nwavefn) :
    ∃ w p, Diagonalize_random e istart s = some { s with wavefn := w, rpos := p } ∧
      w.length = s.wavefn.length ∧
      (∀ g, (g < istart * s.ngp ∨ s.nStates * s.ngp ≤ g) → rd w g = rd s.wavefn g) ∧
      (∀ g, istart * s.ngp ≤ g → g < s.nStates * s.ngp →
        ∃ v, rd w g = some v ∧ P v) ∧
      (s.nStates ≤ istart → w = s.wavefn) := by
  by_cases hlt : istart < s.nStates
  · have key := forM_inv istart s.nStates (fun i st =>
        forM 0 s.ngp (fun k st => Diagonalize_random_body e s.ngp i k st) st)
      (fun i (st : List ℚ × Nat) => st.1.length = s.wavefn.length ∧
        (∀ g, (g < istart * s.ngp ∨ i * s.ngp ≤ g) → rd st.1 g = rd s.wavefn g) ∧
        (∀ g, istart * s.ngp ≤ g → g < i * s.ngp → ∃ v, rd st.1 g = some v ∧ P v))
      (s.wavefn, s.rpos) hlt.le ⟨rfl, fun _ _ => rfl, fun g g0 g1 => by omega⟩
      (by
        rintro i st hi0 hi1 hinv
        have hrow : (i + 1) * s.ngp ≤ s.nwavefn * s.ngp :=
          mul_le_mul_of_nonneg_right (by omega) hngp
        have hrow0 : istart * s.ngp ≤ i * s.ngp := mul_le_mul_of_nonneg_right hi0 hngp
        have hrow00 : 0 ≤ istart * s.ngp := mul_nonneg hi hngp
        have inner := forM_inv 0 s.ngp (fun k st => Diagonalize_random_body e s.ngp i k st)
          (fun k (st : List ℚ × Nat) => st.1.length = s.wavefn.length ∧
            (∀ g, (g < istart * s.ngp ∨ i * s.ngp + k ≤ g) → rd st.1 g = rd s.wavefn g) ∧
            (∀ g, istart * s.ngp ≤ g → g < i * s.ngp + k →
              ∃ v, rd st.1 g = some v ∧ P v))
          st hngp (by simpa using hinv)
          (by
            rintro k ⟨w, p⟩ hk0 hk1 ⟨hl, hfr, hval⟩
            simp only at hl hfr hval
            have hw := wr_some w (i * s.ngp + k) (Randm11 e p).1 (by omega)
              (by rw [hl, hlen]; nlinarith)
            refine ⟨(w.set (i * s.ngp + k).toNat (Randm11 e p).1, (Randm11 e p).2), ?_, ?_,
              ?_, ?_⟩
            · simp only [Diagonalize_random_body, hw, Option.map_some']
            · simp only
              rw [wr_length _ _ _ _ hw, hl]
            · intro g hg
              simp only
              rw [rd_wr_other _ _ _ _ _ hw (by omega)]
              exact hfr g (by omega)
            · intro g g0 g1
              simp only
              by_cases hg : g = i * s.ngp + k
              · subst hg
                exact ⟨_, rd_wr_same _ _ _ _ hw, hP p⟩
              · rw [rd_wr_other _ _ _ _ _ hw hg]
                exact hval g g0 (by omega))
        obtain ⟨t, ht, h1, h2, h3⟩ := inner
        refine ⟨t, ht, h1, ?_, ?_⟩
        · intro g hg
          exact h2 g (by rcases hg with h | h; exact Or.inl h; right; linarith)
        · intro g g0 g1
          exact h3 g g0 (by linarith))
    obtain ⟨⟨w, p⟩, hloop, h1, h2, h3⟩ := key
    refine ⟨w, p, ?_, h1, h2, h3, fun h => by omega⟩
    simp only [Diagonalize_random, hlt, if_true, hloop, Option.map_some']
  · refine ⟨s.wavefn, s.rpos, ?_, rfl, fun _ _ => rfl, ?_, fun _ => rfl⟩
    · simp only [Diagonalize_random, hlt, if_false]
    · intro g g0 g1
      have : istart * s.ngp ≥ s.nStates * s.ngp :=
        mul_le_mul_of_nonneg_right (by omega) hngp
      omega
theorem exampleExt_RandOK : exampleExt.RandOK := by
  refine ⟨by decide, fun p => ?_⟩
  simp only [exampleExt]
  omega

/-- C17: with `SVFlag = 0`, on a state with `nwavefn >= nStates` (and `ngp >= 0`,
`nconverged >= 0`, `wavefn` of length `ngp*nwavefn`, `rand()` within `[0, RAND_MAX]`), the
start-vector construction of `Diagonalize` (lines 211-239) completes and changes only
`wavefn`: the columns `0 .. min(nconverged, nStates)-1` are unchanged; if
`nconverged >= nStates` the whole of `wavefn` is unchanged; otherwise every entry of the
columns `nconverged .. nStates-1` holds a value in `[-1, 1]`; and the columns from `nStates`
on are unchanged. -/
theorem start_vectors_reuse (e : Ext) (s : DVRSolve) (hR : e.RandOK) (hngp : 0 ≤ s.ngp)
    (hconv : 0 ≤ s.nconverged) (hcap : s.nStates ≤ s.nwavefn)
    (hlen : (s.wavefn.length : Int) = s.ngp * s.nwavefn) :
    ∃ w p, Diagonalize_start e 0 s = Res.ok { s with wavefn := w, rpos := p } ∧
      w.length = s.wavefn.length ∧
      (∀ i k, 0 ≤ k → k < s.ngp → 0 ≤ i → i < min s.nconverged s.nStates →
        rd w (i * s.ngp + k) = rd s.wavefn (i * s.ngp + k)) ∧
      (s.nStates ≤ s.nconverged → w = s.wavefn) ∧
      (∀ i k, 0 ≤ k → k < s.ngp → s.nconverged ≤ i → i < s.nStates →
        ∃ v, rd w (i * s.ngp + k) = some v ∧ -1 ≤ v ∧ v ≤ 1) ∧
      (∀ i k, 0 ≤ k → k < s.ngp → s.nStates ≤ i →
        rd w (i * s.ngp + k) = rd s.wavefn (i * s.ngp + k)) := by
  obtain ⟨w, p, hrun, hl, hfr, hval, hsame⟩ :=
    random_fill_spec e (fun v => -1 ≤ v ∧ v ≤ 1) (Randm11_range e hR) s.nconverged s hconv hngp
      hcap hlen
  refine ⟨w, p, ?_, hl, ?_, hsame, ?_, ?_⟩
  · simp only [Diagonalize_start, Diagonalize_istart, if_true, Res.bind, hrun, Res.ofOption]
  · intro i k k0 k1 i0 i1
    apply hfr
    left
    have : (i + 1) * s.ngp ≤ s.nconverged * s.ngp :=
      mul_le_mul_of_nonneg_right (by have := min_le_left s.nconverged s.nStates; omega) hngp
    linarith
  · intro i k k0 k1 i0 i1
    apply hval
    · have : s.nconverged * s.ngp ≤ i * s.ngp := mul_le_mul_of_nonneg_right i0 hngp
      linarith
    · have : (i + 1) * s.ngp ≤ s.nStates * s.ngp :=
        mul_le_mul_of_nonneg_right (by omega) hngp
      linarith
  · intro i k k0 k1 i0
    apply hfr
    right
    have : s.nStates * s.ngp ≤ i * s.ngp := mul_le_mul_of_nonneg_right i0 hngp
    linarith

/-- C17, for two requested and allocated states of which one has converged, on a grid of 2
points. -/
theorem start_vectors_reuse_witness :
    (exampleExt.RandOK ∧ 0 ≤ (exampleSolve 2 1 2 1 [3, 4, 5, 6]).ngp ∧
      0 ≤ (exampleSolve 2 1 2 1 [3, 4, 5, 6]).nconverged ∧
      (exampleSolve 2 1 2 1 [3, 4, 5, 6]).nStates ≤ (exampleSolve 2 1 2 1 [3, 4, 5, 6]).nwavefn ∧
      ((exampleSolve 2 1 2 1 [3, 4, 5, 6]).wavefn.length : Int) =
        (exampleSolve 2 1 2 1 [3, 4, 5, 6]).ngp * (exampleSolve 2 1 2 1 [3, 4, 5, 6]).nwavefn) ∧
    ∃ w p, Diagonalize_start exampleExt 0 (exampleSolve 2 1 2 1 [3, 4, 5, 6]) =
        Res.ok { exampleSolve 2 1 2 1 [3, 4, 5, 6] with wavefn := w, rpos := p } ∧
      w.length = (exampleSolve 2 1 2 1 [3, 4, 5, 6]).wavefn.length ∧
      (∀ i k, 0 ≤ k → k < (exampleSolve 2 1 2 1 [3, 4, 5, 6]).ngp → 0 ≤ i →
        i < min (exampleSolve 2 1 2 1 [3, 4, 5, 6]).nconverged
          (exampleSolve 2 1 2 1 [3, 4, 5, 6]).nStates →
        rd w (i * (exampleSolve 2 1 2 1 [3, 4, 5, 6]).ngp + k) =
          rd (exampleSolve 2 1 2 1 [3, 4, 5, 6]).wavefn
            (i * (exampleSolve 2 1 2 1 [3, 4, 5, 6]).ngp + k)) ∧
      ((exampleSolve 2 1 2 1 [3, 4, 5, 6]).nStates ≤
        (exampleSolve 2 1 2 1 [3, 4, 5, 6]).nconverged →
        w = (exampleSolve 2 1 2 1 [3, 4, 5, 6]).wavefn) ∧
      (∀ i k, 0 ≤ k → k < (exampleSolve 2 1 2 1 [3, 4, 5, 6]).ngp →
        (exampleSolve 2 1 2 1 [3, 4, 5, 6]).nconverged ≤ i →
        i < (exampleSolve 2 1 2 1 [3, 4, 5, 6]).nStates →
        ∃ v, rd w (i * (exampleSolve 2 1 2 1 [3, 4, 5, 6]).ngp + k) = some v ∧ -1 ≤ v ∧ v ≤ 1) ∧
      (∀ i k, 0 ≤ k → k < (exampleSolve 2 1 2 1 [3, 4, 5, 6]).ngp →
        (exampleSolve 2 1 2 1 [3, 4, 5, 6]).nStates ≤ i →
        rd w (i * (exampleSolve 2 1 2 1 [3, 4, 5, 6]).ngp + k) =
          rd (exampleSolve 2 1 2 1 [3, 4, 5, 6]).wavefn
            (i * (exampleSolve 2 1 2 1 [3, 4, 5, 6]).ngp + k)) :=
  ⟨⟨exampleExt_RandOK, by decide, by decide, by decide, by decide⟩,
    start_vectors_reuse exampleExt (exampleSolve 2 1 2 1 [3, 4, 5, 6]) exampleExt_RandOK
      (by decide) (by decide) (by decide) (by decide)⟩

/-! ## `Diagonalize`: outcome of a call -/

theorem ParticleInAnDBoxWf_spec (e : Ext) (ngp : Int) (wf : List ℚ) (h : ngp ≤ wf.length) :
    ∃ w, ParticleInAnDBoxWf e ngp wf = some w ∧ w.length = wf.length := by
  unfold ParticleInAnDBoxWf
  refine forM_preserve 0 ngp _ (fun t => t.length = wf.length) wf rfl ?_
  intro i t i0 i1 hl
  have hw := wr_some t i (e.pib i) i0 (by rw [hl]; omega)
  exact ⟨_, hw, by simp only [List.length_set]; exact hl⟩

theorem realloc_total (s : DVRSolve) (hngp : 0 ≤ s.ngp)
    (hlen : (s.wavefn.length : Int) = s.ngp * s.nwavefn) :
    ∃ s1, Diagonalize_realloc s = some s1 ∧ s1.nStates = s.nStates ∧
      s1.diagFlag = s.diagFlag ∧ s1.ngp = s.ngp ∧ s1.nStates ≤ s1.nwavefn ∧
      (s1.wavefn.length : Int) = s1.ngp * s1.nwavefn ∧
      (0 ≤ s.nconverged → 0 ≤ s1.nconverged) := by
  by_cases hlt : s.nwavefn < s.nStates
  · have hmono : s.ngp * s.nwavefn ≤ s.ngp * s.nStates :=
      mul_le_mul_of_nonneg_left (by omega) hngp
    obtain ⟨w, hw, hl⟩ := resize_spec s.wavefn (s.ngp * s.nStates) (by omega)
    by_cases hpos : s.nwavefn > 0
    · refine ⟨{ s with nconverged := 0, wavefn := w, nwavefn := s.nStates }, ?_, rfl, rfl, rfl,
        le_refl _, hl, fun _ => le_refl _⟩
      simp only [Diagonalize_realloc, hlt, if_true, hpos, Option.bind_eq_bind, hw,
        Option.some_bind, Option.pure_def]
    · refine ⟨{ s with wavefn := w, nwavefn := s.nStates }, ?_, rfl, rfl, rfl,
        le_refl _, hl, fun h => h⟩
      simp only [Diagonalize_realloc, hlt, if_true, hpos, if_false, Option.bind_eq_bind, hw,
        Option.some_bind, Option.pure_def]
  · exact ⟨s, by simp only [Diagonalize_realloc, hlt, if_false], rfl, rfl, rfl, by omega, hlen,
      fun h => h⟩

theorem start_total (e : Ext) (SVFlag : Int) (s : DVRSolve) (hngp : 0 ≤ s.ngp)
    (hn : 1 ≤ s.nStates) (hconv : 0 ≤ s.nconverged) (hcap : s.nStates ≤ s.nwavefn)
    (hlen : (s.wavefn.length : Int) = s.ngp * s.nwavefn)
    (hf : SVFlag = 0 ∨ SVFlag = 1 ∨ SVFlag = 2) :
    ∃ w p, Diagonalize_start e SVFlag s = Res.ok { s with wavefn := w, rpos := p } := by
  rcases hf with hf | hf | hf
  · subst hf
    obtain ⟨w, p, hrun, _⟩ := random_fill_spec e (fun _ => True) (fun _ => trivial)
      s.nconverged s hconv hngp hcap hlen
    exact ⟨w, p, by
      simp only [Diagonalize_start, Diagonalize_istart, if_true, Res.bind, hrun, Res.ofOption]⟩
  · subst hf
    obtain ⟨w1, hw1, hl1⟩ := ParticleInAnDBoxWf_spec e s.ngp s.wavefn (by
      rw [hlen]
      have : s.ngp * 1 ≤ s.ngp * s.nwavefn := mul_le_mul_of_nonneg_left (by omega) hngp
      omega)
    obtain ⟨w, p, hrun, _⟩ := random_fill_spec e (fun _ => True) (fun _ => trivial)
      1 { s with wavefn := w1 } (by omega) hngp hcap (by simp only; rw [hl1]; exact hlen)
    simp only at hrun
    refine ⟨w, p, ?_⟩
    simp only [Diagonalize_start, Diagonalize_istart, hw1, Option.map_some', Res.ofOption]
    rw [if_neg (by decide)]
    simp only [if_true, Res.bind, hrun]
  · subst hf
    obtain ⟨w, p, hrun, _⟩ := random_fill_spec e (fun _ => True) (fun _ => trivial)
      0 s (by omega) hngp hcap hlen
    refine ⟨w, p, ?_⟩
    simp only [Diagonalize_start, Diagonalize_istart]
    rw [if_neg (by decide), if_neg (by decide)]
    simp only [if_true, Res.bind, hrun, Res.ofOption]

theorem start_exit (e : Ext) (SVFlag : Int) (s : DVRSolve)
    (hf : ¬ (SVFlag = 0 ∨ SVFlag = 1 ∨ SVFlag = 2)) :
    Diagonalize_start e SVFlag s = Res.exit 1 := by
  have h0 : ¬ SVFlag = 0 := fun h => hf (Or.inl h)
  have h1 : ¬ SVFlag = 1 := fun h => hf (Or.inr (Or.inl h))
  have h2 : ¬ SVFlag = 2 := fun h => hf (Or.inr (Or.inr h))
  simp only [Diagonalize_start, Diagonalize_istart, h0, h1, h2, if_false, Res.bind]

theorem dispatch_cases (e : Ext) (s : DVRSolve) (ev : List ℚ) :
    (¬ (0 ≤ s.diagFlag ∧ s.diagFlag ≤ 4) → Diagonalize_dispatch e s ev = Res.exit 1) ∧
    (s.diagFlag = 0 → s.ngp > 1000 → Diagonalize_dispatch e s ev = Res.exit 42) ∧
    (s.diagFlag = 0 → ¬ s.ngp > 1000 → Diagonalize_dispatch e s ev = Res.ok (s, ev)) ∧
    ((1 ≤ s.diagFlag ∧ s.diagFlag ≤ 4) → ∃ c w ev', Diagonalize_dispatch e s ev =
      Res.ok ({ s with nconverged := c, wavefn := w }, ev') ∧
      (e.SolversOK → (0 ≤ s.nStates → 0 ≤ c ∧ c ≤ s.nStates) ∧
        w.length = s.wavefn.length)) := by
  refine ⟨?_, ?_, ?_, ?_⟩
  · intro h
    have h0 : ¬ s.diagFlag = 0 := by omega
    have h1 : ¬ s.diagFlag = 1 := by omega
    have h2 : ¬ (s.diagFlag = 2 ∨ s.diagFlag = 3 ∨ s.diagFlag = 4) := by omega
    simp only [Diagonalize_dispatch, h0, h1, h2, if_false]
  · intro h0 hbig
    simp only [Diagonalize_dispatch, h0, if_true, hbig]
  · intro h0 hbig
    simp only [Diagonalize_dispatch, h0, if_true, hbig, if_false]
  · intro h
    have h0 : ¬ s.diagFlag = 0 := by omega
    by_cases h1 : s.diagFlag = 1
    · refine ⟨_, _, _, by simp only [Diagonalize_dispatch, h0, h1, if_false, if_true]; rfl, ?_⟩
      intro hS
      exact hS.1 _ _ _ _ _ _ _
    · have h2 : s.diagFlag = 2 ∨ s.diagFlag = 3 ∨ s.diagFlag = 4 := by omega
      refine ⟨_, _, _, by simp only [Diagonalize_dispatch, h0, h1, h2, if_false, if_true]; rfl,
        ?_⟩
      intro hS
      refine ⟨(hS.2 _ _ _ _ _ _ _ _).1, ?_⟩
      rw [(hS.2 _ _ _ _ _ _ _ _).2]
      exact (hS.1 _ _ _ _ _ _ _).2

theorem Diagonalize_outcome (e : Ext) (SVFlag : Int) (s : DVRSolve) (ev : List ℚ)
    (hngp : 0 ≤ s.ngp) (hn : 1 ≤ s.nStates) (hconv : 0 ≤ s.nconverged)
    (hlen : (s.wavefn.length : Int) = s.ngp * s.nwavefn) :
    (¬ (SVFlag = 0 ∨ SVFlag = 1 ∨ SVFlag = 2) → DVR.Diagonalize e SVFlag s ev = Res.exit 1) ∧
    ((SVFlag = 0 ∨ SVFlag = 1 ∨ SVFlag = 2) → ¬ (0 ≤ s.diagFlag ∧ s.diagFlag ≤ 4) →
      DVR.Diagonalize e SVFlag s ev = Res.exit 1) ∧
    ((SVFlag = 0 ∨ SVFlag = 1 ∨ SVFlag = 2) → s.diagFlag = 0 → s.ngp > 1000 →
      DVR.Diagonalize e SVFlag s ev = Res.exit 42) ∧
    ((SVFlag = 0 ∨ SVFlag = 1 ∨ SVFlag = 2) → (0 ≤ s.diagFlag ∧ s.diagFlag ≤ 4) →
      ¬ (s.diagFlag = 0 ∧ s.ngp > 1000) → ∃ r, DVR.Diagonalize e SVFlag s ev = Res.ok r) := by
  obtain ⟨s1, hre, a1, a2, a3, a4, a5, a6⟩ := realloc_total s hngp hlen
  have hD : DVR.Diagonalize e SVFlag s ev =
      (Diagonalize_start e SVFlag s1).bind (fun s =>
        (Diagonalize_dispatch e s ev).bind (fun r => Res.ok (r.1.nconverged, r.1, r.2))) := by
    simp only [DVR.Diagonalize, hre, Res.ofOption, Res.bind]
  rw [hD]
  refine ⟨?_, ?_, ?_, ?_⟩
  · intro hf
    rw [start_exit e SVFlag s1 hf]
    rfl
  · intro hf hd
    obtain ⟨w, p, hst⟩ := start_total e SVFlag s1 (by omega) (by omega) (a6 hconv) a4 a5 hf
    rw [hst]
    simp only [Res.bind]
    rw [(dispatch_cases e _ ev).1 (by simp only; omega)]
  · intro hf hd hbig
    obtain ⟨w, p, hst⟩ := start_total e SVFlag s1 (by omega) (by omega) (a6 hconv) a4 a5 hf
    rw [hst]
    simp only [Res.bind]
    rw [(dispatch_cases e _ ev).2.1 (by simp only; omega) (by simp only; omega)]
  · intro hf hd hsmall
    obtain ⟨w, p, hst⟩ := start_total e SVFlag s1 (by omega) (by omega) (a6 hconv) a4 a5 hf
    rw [hst]
    simp only [Res.bind]
    by_cases h0 : s.diagFlag = 0
    · rw [(dispatch_cases e _ ev).2.2.1 (by simp only; omega) (by simp only; omega)]
      exact ⟨_, rfl⟩
    · obtain ⟨c, w', ev', hdis, _⟩ := (dispatch_cases e { s1 with wavefn := w, rpos := p } ev).2.2.2
        (by simp only; omega)
      rw [hdis]
      exact ⟨_, rfl⟩

/-- C18: on a state with `ngp >= 0`, `nStates >= 1`, `nconverged >= 0` and `wavefn` of length
`ngp*nwavefn`, `Diagonalize` calls `exit` if and only if the start-vector flag is not 0, 1
or 2, or the method code is not one of 0..4, or the method code is 0 and `ngp > 1000`;
otherwise it returns. The exit code is 42 exactly when the flag is accepted, the method code
is 0 and `ngp > 1000`, and it is 1 exactly when the flag or the method code is not accepted;
with method code 0, an accepted flag and `ngp = 1000` the call returns. -/
theorem Diagonalize_exit_iff (e : Ext) (SVFlag : Int) (s : DVRSolve) (ev : List ℚ)
    (hngp : 0 ≤ s.ngp) (hn : 1 ≤ s.nStates) (hconv : 0 ≤ s.nconverged)
    (hlen : (s.wavefn.length : Int) = s.ngp * s.nwavefn) :
    ((∃ c, DVR.Diagonalize e SVFlag s ev = Res.exit c) ↔
      (¬ (SVFlag = 0 ∨ SVFlag = 1 ∨ SVFlag = 2) ∨ ¬ (0 ≤ s.diagFlag ∧ s.diagFlag ≤ 4) ∨
        (s.diagFlag = 0 ∧ s.ngp > 1000))) ∧
    ((∃ r, DVR.Diagonalize e SVFlag s ev = Res.ok r) ↔
      ¬ (¬ (SVFlag = 0 ∨ SVFlag = 1 ∨ SVFlag = 2) ∨ ¬ (0 ≤ s.diagFlag ∧ s.diagFlag ≤ 4) ∨
        (s.diagFlag = 0 ∧ s.ngp > 1000))) ∧
    (DVR.Diagonalize e SVFlag s ev = Res.exit 42 ↔
      ((SVFlag = 0 ∨ SVFlag = 1 ∨ SVFlag = 2) ∧ s.diagFlag = 0 ∧ s.ngp > 1000)) ∧
    (DVR.Diagonalize e SVFlag s ev = Res.exit 1 ↔
      (¬ (SVFlag = 0 ∨ SVFlag = 1 ∨ SVFlag = 2) ∨ ¬ (0 ≤ s.diagFlag ∧ s.diagFlag ≤ 4))) ∧
    ((SVFlag = 0 ∨ SVFlag = 1 ∨ SVFlag = 2) → s.diagFlag = 0 → s.ngp = 1000 →
      ∃ r, DVR.Diagonalize e SVFlag s ev = Res.ok r) := by
  obtain ⟨o1, o2, o3, o4⟩ := Diagonalize_outcome e SVFlag s ev hngp hn hconv hlen
  by_cases hf : SVFlag = 0 ∨ SVFlag = 1 ∨ SVFlag = 2
  · by_cases hd : 0 ≤ s.diagFlag ∧ s.diagFlag ≤ 4
    · by_cases hcap : s.diagFlag = 0 ∧ s.ngp > 1000
      · rw [o3 hf hcap.1 hcap.2]
        have hne : s.ngp ≠ 1000 := by omega
        simp [hf, hd, hcap, hne]
      · obtain ⟨r, h⟩ := o4 hf hd hcap
        rw [h]
        simp [hf, hd, hcap]
    · rw [o2 hf hd]
      have h0 : s.diagFlag ≠ 0 := by omega
      simp [hf, hd, h0]
  · rw [o1 hf]
    simp [hf]

/-- C18, for an unknown start-vector flag (7) on a grid of 2 points: the call exits with
code 1. -/
theorem Diagonalize_exit_iff_witness :
    (0 ≤ (exampleSolve 1 0 0 0 []).ngp ∧ 1 ≤ (exampleSolve 1 0 0 0 []).nStates ∧
      0 ≤ (exampleSolve 1 0 0 0 []).nconverged ∧
      ((exampleSolve 1 0 0 0 []).wavefn.length : Int) =
        (exampleSolve 1 0 0 0 []).ngp * (exampleSolve 1 0 0 0 []).nwavefn) ∧
    DVR.Diagonalize exampleExt 7 (exampleSolve 1 0 0 0 []) [] = Res.exit 1 :=
  ⟨⟨by decide, by decide, by decide, by decide⟩,
    (Diagonalize_exit_iff exampleExt 7 (exampleSolve 1 0 0 0 []) [] (by decide) (by decide)
      (by decide) (by decide)).2.2.2.1.2 (Or.inl (by decide))⟩

set_option maxRecDepth 100000 in
/-- C19 (failing input): a fresh object on a grid of 2 points is set up for 2 states with the
Lanczos-Arnoldi method (code 1) and `Diagonalize(2, ev)` is called, the solver reporting 2
converged states: the call returns 2. The object is then set up for 1 state with full
diagonalization (code 0) and `Diagonalize(2, ev)` is called again: this call returns 2, more
than the 1 state requested. -/
theorem Diagonalize_full_returns_stale_count :
    (DVR.Diagonalize exampleExt 2 ((freshSolve 2).DiagonalizeSetup 2 1 10 10 6) []).returned.map
      (fun r => r.1) = some 2 ∧
    (DVR.Diagonalize exampleExt 2 ((freshSolve 2).DiagonalizeSetup 2 1 10 10 6) []).returned.bind
      (fun r => (DVR.Diagonalize exampleExt 2 (r.2.1.DiagonalizeSetup 1 0 10 10 6)
        r.2.2).returned.map (fun r2 => (r2.1, r2.2.1.nStates))) = some (2, 1) := by
  constructor
  · decide!
  · decide!

/-! ## `Diagonalize`: the invariant of the solver members -/

theorem iterM_partial {σ : Type} (body : Int → σ → Option σ) (lo : Int) (P : σ → Prop)
    (hstep : ∀ i t t', body i t = some t' → P t → P t') (cnt : Nat) (s t : σ) (h0 : P s)
    (h : iterM body lo cnt s = some t) : P t := by
  induction cnt generalizing t with
  | zero =>
    simp only [iterM] at h
    cases h
    exact h0
  | succ c ih =>
    simp only [iterM] at h
    cases hm : iterM body lo c s with
    | none => rw [hm] at h; cases h
    | some m =>
      rw [hm] at h
      exact hstep _ m t h (ih m hm)

theorem forM_partial {σ : Type} (lo hi : Int) (body : Int → σ → Option σ) (P : σ → Prop)
    (hstep : ∀ i t t', body i t = some t' → P t → P t') (s t : σ) (h0 : P s)
    (h : forM lo hi body s = some t) : P t :=
  iterM_partial body lo P hstep _ s t h0 h

theorem realloc_partial (s s1 : DVRSolve) (h : Diagonalize_realloc s = some s1)
    (hlen : (s.wavefn.length : Int) = s.ngp * s.nwavefn) (hinv : s.nconverged ≤ s.nwavefn) :
    s1.nStates = s.nStates ∧ s1.diagFlag = s.diagFlag ∧ s1.ngp = s.ngp ∧
      s1.nStates ≤ s1.nwavefn ∧ s.nwavefn ≤ s1.nwavefn ∧
      (s1.wavefn.length : Int) = s1.ngp * s1.nwavefn ∧ s1.nconverged ≤ s1.nwavefn := by
  by_cases hlt : s.nwavefn < s.nStates
  · by_cases hnn : 0 ≤ s.ngp * s.nStates
    · obtain ⟨w, hw, hl⟩ := resize_spec s.wavefn (s.ngp * s.nStates) hnn
      by_cases hpos : s.nwavefn > 0
      · simp only [Diagonalize_realloc, hlt, if_true, hpos, Option.bind_eq_bind, hw,
          Option.some_bind, Option.pure_def, Option.some.injEq] at h
        subst h
        exact ⟨rfl, rfl, rfl, le_refl _, by simp only; omega, hl, by simp only; omega⟩
      · simp only [Diagonalize_realloc, hlt, if_true, hpos, if_false, Option.bind_eq_bind, hw,
          Option.some_bind, Option.pure_def, Option.some.injEq] at h
        subst h
        exact ⟨rfl, rfl, rfl, le_refl _, by simp only; omega, hl, by simp only; omega⟩
    · have hw : resize s.wavefn (s.ngp * s.nStates) = none := by simp [resize, hnn]
      by_cases hpos : s.nwavefn > 0
      · simp [Diagonalize_realloc, hlt, hpos, hw] at h
      · simp [Diagonalize_realloc, hlt, hpos, hw] at h
  · simp only [Diagonalize_realloc, hlt, if_false, Option.some.injEq] at h
    subst h
    exact ⟨rfl, rfl, rfl, by omega, le_refl _, hlen, hinv⟩

theorem random_partial (e : Ext) (istart : Int) (s s' : DVRSolve)
    (h : Diagonalize_random e istart s = some s') :
    s'.nStates = s.nStates ∧ s'.diagFlag = s.diagFlag ∧ s'.ngp = s.ngp ∧
      s'.nwavefn = s.nwavefn ∧ s'.nconverged = s.nconverged ∧
      s'.wavefn.length = s.wavefn.length := by
  by_cases hlt : istart < s.nStates
  · simp only [Diagonalize_random, hlt, if_true] at h
    cases hl : forM istart s.nStates (fun i st =>
        forM 0 s.ngp (fun k st => Diagonalize_random_body e s.ngp i k st) st)
        (s.wavefn, s.rpos) with
    | none => rw [hl] at h; cases h
    | some r =>
      rw [hl] at h
      simp only [Option.map_some', Option.some.injEq] at h
      subst h
      refine ⟨rfl, rfl, rfl, rfl, rfl, ?_⟩
      refine forM_partial _ _ _ (fun (t : List ℚ × Nat) => t.1.length = s.wavefn.length) ?_
        _ r rfl hl
      intro i t t' hb ht
      refine forM_partial _ _ _ (fun (t : List ℚ × Nat) => t.1.length = s.wavefn.length) ?_
        _ t' ht hb
      intro k u u' hb' hu
      simp only [Diagonalize_random_body] at hb'
      cases hw : wr u.1 (i * s.ngp + k) (Randm11 e u.2).1 with
      | none => rw [hw] at hb'; cases hb'
      | some w =>
        rw [hw] at hb'
        simp only [Option.map_some', Option.some.injEq] at hb'
        subst hb'
        simp only
        rw [wr_length _ _ _ _ hw, hu]
  · simp only [Diagonalize_random, hlt, if_false, Option.some.injEq] at h
    subst h
    exact ⟨rfl, rfl, rfl, rfl, rfl, rfl⟩

theorem PiaB_partial (e : Ext) (ngp : Int) (wf w : List ℚ)
    (h : ParticleInAnDBoxWf e ngp wf = some w) : w.length = wf.length := by
  refine forM_partial 0 ngp _ (fun t => t.length = wf.length) ?_ wf w rfl h
  intro i t t' hb ht
  show t'.length = wf.length
  rw [wr_length _ _ _ _ hb, ht]

theorem start_partial (e : Ext) (SVFlag : Int) (s s' : DVRSolve)
    (h : Diagonalize_start e SVFlag s = Res.ok s') :
    s'.nStates = s.nStates ∧ s'.diagFlag = s.diagFlag ∧ s'.ngp = s.ngp ∧
      s'.nwavefn = s.nwavefn ∧ s'.nconverged = s.nconverged ∧
      s'.wavefn.length = s.wavefn.length := by
  unfold Diagonalize_start at h
  cases hi : Diagonalize_istart e SVFlag s with
  | exit c => rw [hi] at h; cases h
  | fault => rw [hi] at h; cases h
  | ok r =>
    rw [hi] at h
    simp only [Res.bind] at h
    cases hr : Diagonalize_random e r.1 r.2 with
    | none => rw [hr] at h; cases h
    | some t =>
      rw [hr] at h
      simp only [Res.ofOption, Res.ok.injEq] at h
      subst h
      obtain ⟨b1, b2, b3, b4, b5, b6⟩ := random_partial e r.1 r.2 t hr
      have hr2 : r.2.nStates = s.nStates ∧ r.2.diagFlag = s.diagFlag ∧ r.2.ngp = s.ngp ∧
          r.2.nwavefn = s.nwavefn ∧ r.2.nconverged = s.nconverged ∧
          r.2.wavefn.length = s.wavefn.length := by
        unfold Diagonalize_istart at hi
        split_ifs at hi
        · cases hi; exact ⟨rfl, rfl, rfl, rfl, rfl, rfl⟩
        · cases hp : ParticleInAnDBoxWf e s.ngp s.wavefn with
          | none => rw [hp] at hi; cases hi
          | some w =>
            rw [hp] at hi
            simp only [Option.map_some', Res.ofOption, Res.ok.injEq] at hi
            subst hi
            exact ⟨rfl, rfl, rfl, rfl, rfl, PiaB_partial e _ _ _ hp⟩
        · cases hi; exact ⟨rfl, rfl, rfl, rfl, rfl, rfl⟩
      obtain ⟨c1, c2, c3, c4, c5, c6⟩ := hr2
      exact ⟨by rw [b1, c1], by rw [b2, c2], by rw [b3, c3], by rw [b4, c4], by rw [b5, c5],
        by rw [b6, c6]⟩

theorem dispatch_partial (e : Ext) (hS : e.SolversOK) (s s' : DVRSolve) (ev ev' : List ℚ)
    (h : Diagonalize_dispatch e s ev = Res.ok (s', ev')) (hn : 0 ≤ s.nStates)
    (hcap : s.nStates ≤ s.nwavefn) (hinv : s.nconverged ≤ s.nwavefn) :
    s'.nStates = s.nStates ∧ s'.ngp = s.ngp ∧ s'.nwavefn = s.nwavefn ∧
      s'.wavefn.length = s.wavefn.length ∧ s'.nconverged ≤ s'.nwavefn := by
  obtain ⟨d1, d2, d3, d4⟩ := dispatch_cases e s ev
  by_cases hd : 0 ≤ s.diagFlag ∧ s.diagFlag ≤ 4
  · by_cases h0 : s.diagFlag = 0
    · by_cases hbig : s.ngp > 1000
      · rw [d2 h0 hbig] at h; cases h
      · rw [d3 h0 hbig] at h
        simp only [Res.ok.injEq, Prod.mk.injEq] at h
        obtain ⟨h1, _⟩ := h
        subst h1
        exact ⟨rfl, rfl, rfl, rfl, hinv⟩
    · obtain ⟨c, w, ev2, hdis, hok⟩ := d4 (by omega)
      rw [hdis] at h
      simp only [Res.ok.injEq, Prod.mk.injEq] at h
      obtain ⟨h1, _⟩ := h
      subst h1
      obtain ⟨c0, c2⟩ := hok hS
      obtain ⟨_, c1⟩ := c0 hn
      exact ⟨rfl, rfl, rfl, c2, by simp only; omega⟩
  · rw [d1 hd] at h; cases h

/-- C20: assume the external solvers return a count in `[0, nStates]` and overwrite the
wavefunction storage in place, and let `nStates >= 0`, `nconverged <= nwavefn` and `wavefn`
have length `ngp*nwavefn` before a call of `Diagonalize`. If the call returns, then the value returned is
the new `nconverged`, and afterwards `nconverged <= nwavefn`, `nwavefn >= nStates`, `wavefn`
has length `ngp*nwavefn`, `nwavefn` has not decreased, and `ngp` and `nStates` are unchanged.
The call does return when moreover `ngp >= 0`, `nStates >= 1`, `nconverged >= 0`, the
start-vector flag is 0, 1 or 2, the method code is one of 0..4, and it is not the case that
the method code is 0 with `ngp > 1000`. -/
theorem Diagonalize_invariant (e : Ext) (SVFlag : Int) (s : DVRSolve) (ev : List ℚ)
    (hS : e.SolversOK) (hn : 0 ≤ s.nStates) (hinv : s.nconverged ≤ s.nwavefn)
    (hlen : (s.wavefn.length : Int) = s.ngp * s.nwavefn) :
    (∀ r, DVR.Diagonalize e SVFlag s ev = Res.ok r →
      r.1 = r.2.1.nconverged ∧ r.2.1.nconverged ≤ r.2.1.nwavefn ∧
      s.nStates ≤ r.2.1.nwavefn ∧ (r.2.1.wavefn.length : Int) = r.2.1.ngp * r.2.1.nwavefn ∧
      s.nwavefn ≤ r.2.1.nwavefn ∧ r.2.1.ngp = s.ngp ∧ r.2.1.nStates = s.nStates) ∧
    (0 ≤ s.ngp → 1 ≤ s.nStates → 0 ≤ s.nconverged → (SVFlag = 0 ∨ SVFlag = 1 ∨ SVFlag = 2) →
      (0 ≤ s.diagFlag ∧ s.diagFlag ≤ 4) → ¬ (s.diagFlag = 0 ∧ s.ngp > 1000) →
      ∃ r, DVR.Diagonalize e SVFlag s ev = Res.ok r) := by
  constructor
  · intro r hr
    unfold DVR.Diagonalize at hr
    cases h1 : Diagonalize_realloc s with
    | none => rw [h1] at hr; cases hr
    | some s1 =>
      rw [h1] at hr
      simp only [Res.ofOption, Res.bind] at hr
      obtain ⟨a1, a2, a3, a4, a5, a6, a7⟩ := realloc_partial s s1 h1 hlen hinv
      cases h2 : Diagonalize_start e SVFlag s1 with
      | exit c => rw [h2] at hr; cases hr
      | fault => rw [h2] at hr; cases hr
      | ok s2 =>
        rw [h2] at hr
        simp only at hr
        obtain ⟨b1, b2, b3, b4, b5, b6⟩ := start_partial e SVFlag s1 s2 h2
        cases h3 : Diagonalize_dispatch e s2 ev with
        | exit c => rw [h3] at hr; cases hr
        | fault => rw [h3] at hr; cases hr
        | ok t =>
          rw [h3] at hr
          simp only [Res.ok.injEq] at hr
          subst hr
          obtain ⟨c1, c2, c3, c4, c5⟩ := dispatch_partial e hS s2 t.1 ev t.2 h3
            (by rw [b1, a1]; exact hn) (by rw [b1, b4]; exact a4) (by rw [b5, b4]; exact a7)
          refine ⟨rfl, c5, ?_, ?_, ?_, ?_, ?_⟩
          · simp only; rw [c3, b4, ← a1]; exact a4
          · simp only; rw [c4, b6, a6, c2, b3, c3, b4]
          · simp only; rw [c3, b4]; exact a5
          · simp only; rw [c2, b3, a3]
          · simp only; rw [c1, b1, a1]
  · intro g1 g2 g3 g4 g5 g6
    exact (Diagonalize_outcome e SVFlag s ev g1 g2 g3 hlen).2.2.2 g4 g5 g6

theorem exampleExt_SolversOK : exampleExt.SolversOK :=
  ⟨fun _ _ _ _ _ _ _ => ⟨fun h => ⟨h, le_refl _⟩, rfl⟩,
    fun _ _ _ _ _ _ _ _ => ⟨fun h => ⟨h, le_refl _⟩, rfl⟩⟩

/-- C20, for a call with all-random start vectors and the Davidson method (code 2) on an
object with one wavefunction allocated and converged, two states being requested. -/
theorem Diagonalize_invariant_witness :
    (exampleExt.SolversOK ∧ 0 ≤ (exampleSolve 2 2 1 1 [3, 4]).nStates ∧
      (exampleSolve 2 2 1 1 [3, 4]).nconverged ≤ (exampleSolve 2 2 1 1 [3, 4]).nwavefn ∧
      ((exampleSolve 2 2 1 1 [3, 4]).wavefn.length : Int) =
        (exampleSolve 2 2 1 1 [3, 4]).ngp * (exampleSolve 2 2 1 1 [3, 4]).nwavefn) ∧
    ((∀ r, DVR.Diagonalize exampleExt 2 (exampleSolve 2 2 1 1 [3, 4]) [] = Res.ok r →
      r.1 = r.2.1.nconverged ∧ r.2.1.nconverged ≤ r.2.1.nwavefn ∧
      (exampleSolve 2 2 1 1 [3, 4]).nStates ≤ r.2.1.nwavefn ∧
      (r.2.1.wavefn.length : Int) = r.2.1.ngp * r.2.1.nwavefn ∧
      (exampleSolve 2 2 1 1 [3, 4]).nwavefn ≤ r.2.1.nwavefn ∧
      r.2.1.ngp = (exampleSolve 2 2 1 1 [3, 4]).ngp ∧
      r.2.1.nStates = (exampleSolve 2 2 1 1 [3, 4]).nStates) ∧
    ∃ r, DVR.Diagonalize exampleExt 2 (exampleSolve 2 2 1 1 [3, 4]) [] = Res.ok r) :=
  ⟨⟨exampleExt_SolversOK, by decide, by decide, by decide⟩,
    (Diagonalize_invariant exampleExt 2 (exampleSolve 2 2 1 1 [3, 4]) [] exampleExt_SolversOK
      (by decide) (by decide) (by decide)).1,
    (Diagonalize_invariant exampleExt 2 (exampleSolve 2 2 1 1 [3, 4]) [] exampleExt_SolversOK
      (by decide) (by decide) (by decide)).2 (by decide) (by decide) (by decide)
      (Or.inr (Or.inr rfl)) (by decide) (by decide)⟩

/-! ## `Diagonalize`: the states a program can reach -/

theorem realloc_nonneg (s s1 : DVRSolve) (h : Diagonalize_realloc s = some s1)
    (h0 : 0 ≤ s.nconverged) : 0 ≤ s1.nconverged := by
  by_cases hlt : s.nwavefn < s.nStates
  · cases hw : resize s.wavefn (s.ngp * s.nStates) with
    | none =>
      by_cases hpos : s.nwavefn > 0
      · simp [Diagonalize_realloc, hlt, hpos, hw] at h
      · simp [Diagonalize_realloc, hlt, hpos, hw] at h
    | some w =>
      by_cases hpos : s.nwavefn > 0
      · simp only [Diagonalize_realloc, hlt, if_true, hpos, Option.bind_eq_bind, hw,
          Option.some_bind, Option.pure_def, Option.some.injEq] at h
        subst h
        exact le_refl _
      · simp only [Diagonalize_realloc, hlt, if_true, hpos, if_false, Option.bind_eq_bind, hw,
          Option.some_bind, Option.pure_def, Option.some.injEq] at h
        subst h
        exact h0
  · simp only [Diagonalize_realloc, hlt, if_false, Option.some.injEq] at h
    subst h
    exact h0

theorem dispatch_nonneg (e : Ext) (hS : e.SolversOK) (s s' : DVRSolve) (ev ev' : List ℚ)
    (h : Diagonalize_dispatch e s ev = Res.ok (s', ev')) (hn : 0 ≤ s.nStates)
    (h0 : 0 ≤ s.nconverged) : 0 ≤ s'.nconverged := by
  obtain ⟨d1, d2, d3, d4⟩ := dispatch_cases e s ev
  by_cases hd : 0 ≤ s.diagFlag ∧ s.diagFlag ≤ 4
  · by_cases hz : s.diagFlag = 0
    · by_cases hbig : s.ngp > 1000
      · rw [d2 hz hbig] at h; cases h
      · rw [d3 hz hbig] at h
        simp only [Res.ok.injEq, Prod.mk.injEq] at h
        obtain ⟨h1, _⟩ := h
        subst h1
        exact h0
    · obtain ⟨c, w, ev2, hdis, hok⟩ := d4 (by omega)
      rw [hdis] at h
      simp only [Res.ok.injEq, Prod.mk.injEq] at h
      obtain ⟨h1, _⟩ := h
      subst h1
      exact ((hok hS).1 hn).1
  · rw [d1 hd] at h; cases h

theorem Reachable_inv (e : Ext) (hS : e.SolversOK) (s : DVRSolve) (h : Reachable e s) :
    0 ≤ s.nStates ∧ 0 ≤ s.nconverged ∧ s.nconverged ≤ s.nwavefn ∧
      (s.wavefn.length : Int) = s.ngp * s.nwavefn := by
  induction h with
  | fresh ngp => simp [freshSolve]
  | setup s nEV DiagFlag nMaxSub nMaxIter pTol _ hn ih => exact ⟨hn, ih.2.1, ih.2.2.1, ih.2.2.2⟩
  | diag s SVFlag ev r _ hr ih =>
    obtain ⟨i1, i2, i3, i4⟩ := ih
    unfold DVR.Diagonalize at hr
    cases h1 : Diagonalize_realloc s with
    | none => rw [h1] at hr; cases hr
    | some s1 =>
      rw [h1] at hr
      simp only [Res.ofOption, Res.bind] at hr
      obtain ⟨a1, a2, a3, a4, a5, a6, a7⟩ := realloc_partial s s1 h1 i4 i3
      have a8 := realloc_nonneg s s1 h1 i2
      cases h2 : Diagonalize_start e SVFlag s1 with
      | exit c => rw [h2] at hr; cases hr
      | fault => rw [h2] at hr; cases hr
      | ok s2 =>
        rw [h2] at hr
        simp only at hr
        obtain ⟨b1, b2, b3, b4, b5, b6⟩ := start_partial e SVFlag s1 s2 h2
        cases h3 : Diagonalize_dispatch e s2 ev with
        | exit c => rw [h3] at hr; cases hr
        | fault => rw [h3] at hr; cases hr
        | ok t =>
          rw [h3] at hr
          simp only [Res.ok.injEq] at hr
          subst hr
          obtain ⟨c1, c2, c3, c4, c5⟩ := dispatch_partial e hS s2 t.1 ev t.2 h3
            (by rw [b1, a1]; exact i1) (by rw [b1, b4]; exact a4) (by rw [b5, b4]; exact a7)
          have c6 := dispatch_nonneg e hS s2 t.1 ev t.2 h3 (by rw [b1, a1]; exact i1)
            (by rw [b5]; exact a8)
          refine ⟨?_, c6, c5, ?_⟩
          · simp only; rw [c1, b1, a1]; exact i1
          · simp only; rw [c4, b6, a6, c2, b3, c3, b4]

set_option maxRecDepth 100000 in
theorem solvedOnce_Reachable : Reachable exampleExt solvedOnce :=
  Reachable.diag ((freshSolve 2).DiagonalizeSetup 1 1 10 10 6) 2 [] (1, solvedOnce, [])
    (Reachable.setup (freshSolve 2) 1 1 10 10 6 (Reachable.fresh 2) (by decide)) (by decide!)

/-- C16: let the external solvers return a count in `[0, nStates]` and overwrite the
wavefunction storage in place. For every state that a program can reach (from the state right
after construction by calls of `DiagonalizeSetup` and returning calls of `Diagonalize`), on a
grid with `ngp >= 0`: when `Diagonalize` is entered with `nwavefn < nStates`, the
reallocation at lines 197-203 succeeds and hands on to the construction of the start vectors
a state with `nwavefn = nStates`, `wavefn` of length `ngp*nStates`, every previously stored
entry kept at its position, the new entries 0, `nconverged = 0`, and no other member
changed. -/
theorem realloc_resets_nconverged (e : Ext) (s : DVRSolve) (hS : e.SolversOK)
    (hreach : Reachable e s) (hngp : 0 ≤ s.ngp) (hlt : s.nwavefn < s.nStates) :
    ∃ s', Diagonalize_realloc s = some s' ∧
      (∀ SVFlag ev, DVR.Diagonalize e SVFlag s ev =
        (Diagonalize_start e SVFlag s').bind (fun s2 =>
          (Diagonalize_dispatch e s2 ev).bind (fun r => .ok (r.1.nconverged, r.1, r.2)))) ∧
      s'.nwavefn = s.nStates ∧
      (s'.wavefn.length : Int) = s.ngp * s.nStates ∧
      (∀ g, 0 ≤ g → g < s.ngp * s.nwavefn → rd s'.wavefn g = rd s.wavefn g) ∧
      (∀ g, s.ngp * s.nwavefn ≤ g → g < s.ngp * s.nStates → rd s'.wavefn g = some 0) ∧
      s'.nconverged = 0 ∧
      (s'.nStates = s.nStates ∧ s'.diagFlag = s.diagFlag ∧ s'.ngp = s.ngp ∧
        s'.rpos = s.rpos) := by
  obtain ⟨_, i2, i3, i4⟩ := Reachable_inv e hS s hreach
  obtain ⟨s', h1, h2, h3, h4, h5, _, h7, h8⟩ := realloc_detail s hlt hngp i4
  refine ⟨s', h1, ?_, h2, h3, h4, h5, h7 ⟨i2, i3⟩, h8⟩
  intro SVFlag ev
  simp only [DVR.Diagonalize, h1, Res.ofOption, Res.bind]

/-- C16, for the object that was set up for one state and solved once (one wavefunction of 2
entries allocated and converged), when it is set up again for 2 states. -/
theorem realloc_resets_nconverged_witness :
    (exampleExt.SolversOK ∧ Reachable exampleExt (solvedOnce.DiagonalizeSetup 2 1 10 10 6) ∧
      0 ≤ (solvedOnce.DiagonalizeSetup 2 1 10 10 6).ngp ∧
      (solvedOnce.DiagonalizeSetup 2 1 10 10 6).nwavefn <
        (solvedOnce.DiagonalizeSetup 2 1 10 10 6).nStates) ∧
    ∃ s', Diagonalize_realloc (solvedOnce.DiagonalizeSetup 2 1 10 10 6) = some s' ∧
      (∀ SVFlag ev, DVR.Diagonalize exampleExt SVFlag (solvedOnce.DiagonalizeSetup 2 1 10 10 6)
          ev =
        (Diagonalize_start exampleExt SVFlag s').bind (fun s2 =>
          (Diagonalize_dispatch exampleExt s2 ev).bind
            (fun r => .ok (r.1.nconverged, r.1, r.2)))) ∧
      s'.nwavefn = (solvedOnce.DiagonalizeSetup 2 1 10 10 6).nStates ∧
      (s'.wavefn.length : Int) = (solvedOnce.DiagonalizeSetup 2 1 10 10 6).ngp *
        (solvedOnce.DiagonalizeSetup 2 1 10 10 6).nStates ∧
      (∀ g, 0 ≤ g → g < (solvedOnce.DiagonalizeSetup 2 1 10 10 6).ngp *
          (solvedOnce.DiagonalizeSetup 2 1 10 10 6).nwavefn →
        rd s'.wavefn g = rd (solvedOnce.DiagonalizeSetup 2 1 10 10 6).wavefn g) ∧
      (∀ g, (solvedOnce.DiagonalizeSetup 2 1 10 10 6).ngp *
          (solvedOnce.DiagonalizeSetup 2 1 10 10 6).nwavefn ≤ g →
        g < (solvedOnce.DiagonalizeSetup 2 1 10 10 6).ngp *
          (solvedOnce.DiagonalizeSetup 2 1 10 10 6).nStates →
        rd s'.wavefn g = some 0) ∧
      s'.nconverged = 0 ∧
      (s'.nStates = (solvedOnce.DiagonalizeSetup 2 1 10 10 6).nStates ∧
        s'.diagFlag = (solvedOnce.DiagonalizeSetup 2 1 10 10 6).diagFlag ∧
        s'.ngp = (solvedOnce.DiagonalizeSetup 2 1 10 10 6).ngp ∧
        s'.rpos = (solvedOnce.DiagonalizeSetup 2 1 10 10 6).rpos) :=
  ⟨⟨exampleExt_SolversOK,
      Reachable.setup solvedOnce 2 1 10 10 6 solvedOnce_Reachable (by decide),
      by decide, by decide⟩,
    realloc_resets_nconverged exampleExt (solvedOnce.DiagonalizeSetup 2 1 10 10 6)
      exampleExt_SolversOK
      (Reachable.setup solvedOnce 2 1 10 10 6 solvedOnce_Reachable (by decide))
      (by decide) (by decide)⟩

/-! ## The Fourier kinetic-energy diagonal -/

theorem rowmajor_eq (n : Int → Int) (i j k : Int) :
    i * n 1 * n 2 + j * n 2 + k = sub2ind k j i (counts (n 2) (n 1) (n 0)) := by
  simp only [sub2ind, counts]
  norm_num
  ring

theorem rowmajor_inj (n : Int → Int) (i j k i' j' k' : Int)
    (hj : 0 ≤ j ∧ j < n 1) (hk : 0 ≤ k ∧ k < n 2) (hj' : 0 ≤ j' ∧ j' < n 1)
    (hk' : 0 ≤ k' ∧ k' < n 2)
    (h : i * n 1 * n 2 + j * n 2 + k = i' * n 1 * n 2 + j' * n 2 + k') :
    i = i' ∧ j = j' ∧ k = k' := by
  rw [rowmajor_eq, rowmajor_eq] at h
  have c0 : counts (n 2) (n 1) (n 0) 0 = n 2 := by simp [counts]
  have c1 : counts (n 2) (n 1) (n 0) 1 = n 1 := by simp [counts]
  obtain ⟨a, b, c⟩ := sub2ind_inj _ k j i k' j' i' (by rw [c0]; exact hk) (by rw [c1]; exact hj)
    (by rw [c0]; exact hk') (by rw [c1]; exact hj') h
  exact ⟨c, b, a⟩

theorem rowmajor_range (n : Int → Int) (i j k : Int) (hi : 0 ≤ i ∧ i < n 0)
    (hj : 0 ≤ j ∧ j < n 1) (hk : 0 ≤ k ∧ k < n 2) :
    0 ≤ i * n 1 * n 2 + j * n 2 + k ∧ i * n 1 * n 2 + j * n 2 + k < n 0 * n 1 * n 2 := by
  rw [rowmajor_eq]
  have c0 : counts (n 2) (n 1) (n 0) 0 = n 2 := by simp [counts]
  have c1 : counts (n 2) (n 1) (n 0) 1 = n 1 := by simp [counts]
  have c2 : counts (n 2) (n 1) (n 0) 2 = n 0 := by simp [counts]
  have := sub2ind_range (counts (n 2) (n 1) (n 0)) k j i (by rw [c0]; exact hk)
    (by rw [c1]; exact hj) (by rw [c2]; exact hi)
  rw [c0, c1, c2] at this
  refine ⟨this.1, ?_⟩
  have e : n 0 * n 1 * n 2 = n 2 * n 1 * n 0 := by ring
  rw [e]
  exact this.2

theorem KE_diag_step (s : DVR) (t : List ℚ) (a b c : Int) (hin : s.InRange a b c)
    (hlen : (t.length : Int) = s.n_1dbas 0 * s.n_1dbas 1 * s.n_1dbas 2)
    (he0 : s.n_1dbas 0 ≤ (s.e_kin 0).length) (he1 : s.n_1dbas 1 ≤ (s.e_kin 1).length)
    (he2 : s.n_1dbas 2 ≤ (s.e_kin 2).length)
    (hQ : s.KEFilled (a * s.n_1dbas 1 * s.n_1dbas 2 + b * s.n_1dbas 2 + c) t) :
    ∃ t', KE_diag_body s a b c t = some t' ∧ t'.length = t.length ∧
      s.KEFilled (a * s.n_1dbas 1 * s.n_1dbas 2 + b * s.n_1dbas 2 + (c + 1)) t' := by
  obtain ⟨hi, hj, hk⟩ := hin
  obtain ⟨x, hx⟩ := rd_isSome (s.e_kin 0) a hi.1 (by omega)
  obtain ⟨y, hy⟩ := rd_isSome (s.e_kin 1) b hj.1 (by omega)
  obtain ⟨z, hz⟩ := rd_isSome (s.e_kin 2) c hk.1 (by omega)
  have rg := rowmajor_range s.n_1dbas a b c hi hj hk
  have hw := wr_some t (a * s.n_1dbas 1 * s.n_1dbas 2 + b * s.n_1dbas 2 + c) (x + y + z) rg.1
    (by rw [hlen]; exact rg.2)
  refine ⟨_, by simp only [KE_diag_body, Option.bind_eq_bind, hx, hy, hz, Option.some_bind, hw],
    wr_length _ _ _ _ hw, ?_⟩
  intro i j k a' b' c' hin' hlt ha hb hc
  by_cases heq : i * s.n_1dbas 1 * s.n_1dbas 2 + j * s.n_1dbas 2 + k =
      a * s.n_1dbas 1 * s.n_1dbas 2 + b * s.n_1dbas 2 + c
  · obtain ⟨e1, e2, e3⟩ := rowmajor_inj s.n_1dbas i j k a b c hin'.2.1 hin'.2.2 hj hk heq
    subst e1 e2 e3
    rw [hx] at ha; rw [hy] at hb; rw [hz] at hc
    cases ha; cases hb; cases hc
    exact rd_wr_same _ _ _ _ hw
  · rw [rd_wr_other _ _ _ _ _ hw heq]
    exact hQ i j k a' b' c' hin' (by omega) ha hb hc

theorem KEFilled_congr (s : DVR) (m m' : Int) (t : List ℚ) (h : m = m')
    (hQ : s.KEFilled m t) : s.KEFilled m' t := by
  subst h
  exact hQ

/-- C14 (counterexample): for the Fourier basis on the 2 x 2 x 1 grid with the axis diagonals
`[0, 1]`, `[0, 10]`, `[0]`, the code fills `KE_diag = [0, 10, 1, 11]`. The multi-index
`(1, 0, 0)` has the linear index `1 + 2*(0 + 2*0) = 1` of the grid convention, and
`e_kin[0][1] + e_kin[1][0] + e_kin[2][0] = 1`, but `KE_diag[1]` is 10. -/
theorem KE_diag_not_axis0_fastest :
    fourierGrid.fill_KE_diag [0, 0, 0, 0] = some [0, 10, 1, 11] ∧
    sub2ind 1 0 0 fourierGrid.n_1dbas = 1 ∧
    rd (fourierGrid.e_kin 0) 1 = some 1 ∧ rd (fourierGrid.e_kin 1) 0 = some 0 ∧
    rd (fourierGrid.e_kin 2) 0 = some 0 := by
  refine ⟨by decide!, by decide, by decide!, by decide!, by decide!⟩

/-- C14 (amended): for the Fourier basis (`dvrtype = 3`), point counts that are all at least
1, axis arrays `e_kin[d]` with at least `n[d]` entries and a `KE_diag` of length
`N = n[0]*n[1]*n[2]`, the loop nest at lines 370-379 completes and then
`KE_diag[i*n[1]*n[2] + j*n[2] + k] = e_kin[0][i] + e_kin[1][j] + e_kin[2][k]` for every
in-range `(i, j, k)`: the index is row-major, axis 2 fastest. Every index of `[0, N)` is of
this form, so every one of the `N` entries is written. -/
theorem fill_KE_diag_spec (s : DVR) (KE0 : List ℚ) (hd : s.dvrtype = 3)
    (h0 : 1 ≤ s.n_1dbas 0) (h1 : 1 ≤ s.n_1dbas 1) (h2 : 1 ≤ s.n_1dbas 2)
    (hlen : (KE0.length : Int) = s.n_1dbas 0 * s.n_1dbas 1 * s.n_1dbas 2)
    (he0 : s.n_1dbas 0 ≤ (s.e_kin 0).length) (he1 : s.n_1dbas 1 ≤ (s.e_kin 1).length)
    (he2 : s.n_1dbas 2 ≤ (s.e_kin 2).length) :
    ∃ KE, s.fill_KE_diag KE0 = some KE ∧ KE.length = KE0.length ∧
      (∀ i j k, s.InRange i j k → ∃ a b c, rd (s.e_kin 0) i = some a ∧
        rd (s.e_kin 1) j = some b ∧ rd (s.e_kin 2) k = some c ∧
        rd KE (i * s.n_1dbas 1 * s.n_1dbas 2 + j * s.n_1dbas 2 + k) = some (a + b + c)) ∧
      (∀ g, 0 ≤ g → g < s.n_1dbas 0 * s.n_1dbas 1 * s.n_1dbas 2 →
        ∃ i j k, s.InRange i j k ∧ g = i * s.n_1dbas 1 * s.n_1dbas 2 + j * s.n_1dbas 2 + k) := by
  have key := forM_inv 0 (s.n_1dbas 0) (fun xa1 KE =>
      forM 0 (s.n_1dbas 1) (fun ya2 KE =>
        forM 0 (s.n_1dbas 2) (fun za3 KE => KE_diag_body s xa1 ya2 za3 KE) KE) KE)
    (fun a t => t.length = KE0.length ∧ s.KEFilled (a * s.n_1dbas 1 * s.n_1dbas 2) t)
    KE0 (by omega) ⟨rfl, by
      intro i j k a b c hin hlt
      have := (rowmajor_range s.n_1dbas i j k hin.1 hin.2.1 hin.2.2).1
      omega⟩
    (by
      rintro a t ha0 ha1 ⟨hl, hQ⟩
      have mid := forM_inv 0 (s.n_1dbas 1) (fun ya2 KE =>
          forM 0 (s.n_1dbas 2) (fun za3 KE => KE_diag_body s a ya2 za3 KE) KE)
        (fun b t => t.length = KE0.length ∧
          s.KEFilled (a * s.n_1dbas 1 * s.n_1dbas 2 + b * s.n_1dbas 2) t)
        t (by omega) ⟨hl, KEFilled_congr s _ _ t (by ring) hQ⟩
        (by
          rintro b t hb0 hb1 ⟨hl, hQ⟩
          have inner := forM_inv 0 (s.n_1dbas 2) (fun za3 KE => KE_diag_body s a b za3 KE)
            (fun c t => t.length = KE0.length ∧
              s.KEFilled (a * s.n_1dbas 1 * s.n_1dbas 2 + b * s.n_1dbas 2 + c) t)
            t (by omega) ⟨hl, KEFilled_congr s _ _ t (by ring) hQ⟩
            (by
              rintro c t hc0 hc1 ⟨hl, hQ⟩
              obtain ⟨t', r1, r2, r3⟩ := KE_diag_step s t a b c ⟨⟨ha0, ha1⟩, ⟨hb0, hb1⟩,
                ⟨hc0, hc1⟩⟩ (by rw [hl]; exact hlen) he0 he1 he2 hQ
              exact ⟨t', r1, by rw [r2, hl], r3⟩)
          obtain ⟨t', r1, r2, r3⟩ := inner
          exact ⟨t', r1, r2, KEFilled_congr s _ _ t' (by ring) r3⟩)
      obtain ⟨t', r1, r2, r3⟩ := mid
      exact ⟨t', r1, r2, KEFilled_congr s _ _ t' (by ring) r3⟩)
  obtain ⟨KE, r1, r2, r3⟩ := key
  refine ⟨KE, by simp only [DVR.fill_KE_diag, hd, if_true]; exact r1, r2, ?_, ?_⟩
  · intro i j k hin
    obtain ⟨hi, hj, hk⟩ := hin
    obtain ⟨x, hx⟩ := rd_isSome (s.e_kin 0) i hi.1 (by omega)
    obtain ⟨y, hy⟩ := rd_isSome (s.e_kin 1) j hj.1 (by omega)
    obtain ⟨z, hz⟩ := rd_isSome (s.e_kin 2) k hk.1 (by omega)
    refine ⟨x, y, z, hx, hy, hz, r3 i j k x y z ⟨hi, hj, hk⟩ ?_ hx hy hz⟩
    have := (rowmajor_range s.n_1dbas i j k hi hj hk).2
    linarith
  · intro g g0 g1
    have c0 : counts (s.n_1dbas 2) (s.n_1dbas 1) (s.n_1dbas 0) 0 = s.n_1dbas 2 := by
      simp [counts]
    have c1 : counts (s.n_1dbas 2) (s.n_1dbas 1) (s.n_1dbas 0) 1 = s.n_1dbas 1 := by
      simp [counts]
    have c2 : counts (s.n_1dbas 2) (s.n_1dbas 1) (s.n_1dbas 0) 2 = s.n_1dbas 0 := by
      simp [counts]
    obtain ⟨k, j, i, hk, hj, hi, hg⟩ := sub2ind_surj
      (counts (s.n_1dbas 2) (s.n_1dbas 1) (s.n_1dbas 0)) g (by rw [c0]; omega)
      (by rw [c1]; omega) g0 (by rw [c0, c1, c2]; linarith)
    rw [c0] at hk; rw [c1] at hj; rw [c2] at hi
    exact ⟨i, j, k, ⟨hi, hj, hk⟩, by rw [rowmajor_eq]; exact hg.symm⟩

/-- C14 (amended), for the Fourier basis on the 2 x 2 x 1 example grid. -/
theorem fill_KE_diag_spec_witness :
    (fourierGrid.dvrtype = 3 ∧ 1 ≤ fourierGrid.n_1dbas 0 ∧ 1 ≤ fourierGrid.n_1dbas 1 ∧
      1 ≤ fourierGrid.n_1dbas 2 ∧
      (([0, 0, 0, 0] : List ℚ).length : Int) =
        fourierGrid.n_1dbas 0 * fourierGrid.n_1dbas 1 * fourierGrid.n_1dbas 2 ∧
      fourierGrid.n_1dbas 0 ≤ (fourierGrid.e_kin 0).length ∧
      fourierGrid.n_1dbas 1 ≤ (fourierGrid.e_kin 1).length ∧
      fourierGrid.n_1dbas 2 ≤ (fourierGrid.e_kin 2).length) ∧
    ∃ KE, fourierGrid.fill_KE_diag [0, 0, 0, 0] = some KE ∧
      KE.length = ([0, 0, 0, 0] : List ℚ).length ∧
      (∀ i j k, fourierGrid.InRange i j k → ∃ a b c, rd (fourierGrid.e_kin 0) i = some a ∧
        rd (fourierGrid.e_kin 1) j = some b ∧ rd (fourierGrid.e_kin 2) k = some c ∧
        rd KE (i * fourierGrid.n_1dbas 1 * fourierGrid.n_1dbas 2 +
          j * fourierGrid.n_1dbas 2 + k) = some (a + b + c)) ∧
      (∀ g, 0 ≤ g →
        g < fourierGrid.n_1dbas 0 * fourierGrid.n_1dbas 1 * fourierGrid.n_1dbas 2 →
        ∃ i j k, fourierGrid.InRange i j k ∧
          g = i * fourierGrid.n_1dbas 1 * fourierGrid.n_1dbas 2 +
            j * fourierGrid.n_1dbas 2 + k) :=
  ⟨⟨by decide, by decide, by decide, by decide, by decide, by decide, by decide, by decide⟩,
    fill_KE_diag_spec fourierGrid [0, 0, 0, 0] (by decide) (by decide) (by decide) (by decide)
      (by decide) (by decide) (by decide) (by decide)⟩

/-! ## `addtdiag` -/

theorem advance_2_step (n ir : Int → Int) (m : Int) (h0 : 1 ≤ n 0)
    (hsum : ir 0 + 1 + n 0 * ir 1 = m) (ha : -1 ≤ ir 0 ∧ ir 0 < n 0) (hb : 0 ≤ ir 1)
    (hm : m < n 0 * n 1) :
    advance n 2 ir 0 + n 0 * advance n 2 ir 1 = m ∧
    (0 ≤ advance n 2 ir 0 ∧ advance n 2 ir 0 < n 0) ∧
    (0 ≤ advance n 2 ir 1 ∧ advance n 2 ir 1 < n 1) := by
  obtain ⟨e0, e1⟩ := advance_2 n ir
  rw [e0, e1]
  generalize ir 0 = a at *
  generalize ir 1 = b at *
  generalize n 0 = n0 at *
  generalize n 1 = n1 at *
  have key : b < n1 := by
    by_contra hcon
    have hcn : n1 ≤ b := by omega
    have t1 : n0 * n1 ≤ n0 * b := mul_le_mul_of_nonneg_left hcn (by omega)
    omega
  by_cases c0 : a + 1 = n0
  · by_cases c1 : b + 1 = n1
    · exfalso
      subst c0 c1
      have : (a + 1) * (b + 1) = a + 1 + (a + 1) * b := by ring
      omega
    · simp only [c0, c1, if_true, if_false]
      subst c0
      refine ⟨by ring_nf; ring_nf at hsum; linarith, by omega, by omega⟩
  · simp only [c0, if_false]
    refine ⟨by linarith, by omega, by omega⟩

theorem AddtInv_congr (n1 inc1 : Int) (ndod incr : Int → Int) (t diag0 : List ℚ)
    (vis vis' : Int → Int → Int → Prop) (d : List ℚ)
    (h : ∀ i1 r0 r1, (0 ≤ i1 ∧ i1 < n1) → (0 ≤ r0 ∧ r0 < ndod 0) → (0 ≤ r1 ∧ r1 < ndod 1) →
      (vis i1 r0 r1 ↔ vis' i1 r0 r1))
    (hI : AddtInv n1 inc1 ndod incr t diag0 vis d) :
    AddtInv n1 inc1 ndod incr t diag0 vis' d := by
  refine ⟨hI.1, ?_⟩
  intro i1 r0 r1 b1 b2 b3 dv tv hd ht
  obtain ⟨p1, p2⟩ := hI.2 i1 r0 r1 b1 b2 b3 dv tv hd ht
  have e := h i1 r0 r1 b1 b2 b3
  exact ⟨fun hv => p1 (e.2 hv), fun hv => p2 (fun hv' => hv (e.1 hv'))⟩

theorem addtdiag_inner_step (n1 inc1 : Int) (ndod incr : Int → Int) (t diag0 d : List ℚ)
    (m a b c : Int)
    (hrange : ∀ i1 r0 r1, (0 ≤ i1 ∧ i1 < n1) → (0 ≤ r0 ∧ r0 < ndod 0) →
      (0 ≤ r1 ∧ r1 < ndod 1) → 0 ≤ r0 * incr 0 + r1 * incr 1 + i1 * inc1 ∧
        r0 * incr 0 + r1 * incr 1 + i1 * inc1 < diag0.length)
    (hinj : ∀ i1 r0 r1 i1' r0' r1', (0 ≤ i1 ∧ i1 < n1) → (0 ≤ r0 ∧ r0 < ndod 0) →
      (0 ≤ r1 ∧ r1 < ndod 1) → (0 ≤ i1' ∧ i1' < n1) → (0 ≤ r0' ∧ r0' < ndod 0) →
      (0 ≤ r1' ∧ r1' < ndod 1) →
      r0 * incr 0 + r1 * incr 1 + i1 * inc1 = r0' * incr 0 + r1' * incr 1 + i1' * inc1 →
      i1 = i1' ∧ r0 = r0' ∧ r1 = r1')
    (ht : ∀ i1, 0 ≤ i1 → i1 < n1 → Int.tdiv (i1 * (i1 + 1)) 2 + i1 < t.length)
    (ha : 0 ≤ a ∧ a < ndod 0) (hb : 0 ≤ b ∧ b < ndod 1) (hc : 0 ≤ c ∧ c < n1)
    (hab : a + ndod 0 * b = m)
    (hI : AddtInv n1 inc1 ndod incr t diag0
      (fun i1 r0 r1 => r0 + ndod 0 * r1 < m ∨ (r0 = a ∧ r1 = b ∧ i1 < c)) d) :
    ∃ d', addtdiag_inner inc1 (0 + a * incr 0 + b * incr 1) t c d = some d' ∧
      AddtInv n1 inc1 ndod incr t diag0
        (fun i1 r0 r1 => r0 + ndod 0 * r1 < m ∨ (r0 = a ∧ r1 = b ∧ i1 < c + 1)) d' := by
  obtain ⟨hl, hv⟩ := hI
  have rg := hrange c a b hc ha hb
  have hnn : 0 ≤ Int.tdiv (c * (c + 1)) 2 + c := by
    have : 0 ≤ Int.tdiv (c * (c + 1)) 2 :=
      Int.tdiv_nonneg (mul_nonneg hc.1 (by omega)) (by decide)
    omega
  obtain ⟨tv, htv⟩ := rd_isSome t _ hnn (ht c hc.1 hc.2)
  obtain ⟨dv, hdv⟩ := rd_isSome diag0 _ rg.1 rg.2
  have hcur := (hv c a b hc ha hb dv tv hdv htv).2 (by
    intro h
    rcases h with h | h
    · omega
    · omega)
  have e : 0 + a * incr 0 + b * incr 1 + c * inc1 = a * incr 0 + b * incr 1 + c * inc1 := by
    ring
  have hw := wr_some d (a * incr 0 + b * incr 1 + c * inc1) (dv + tv) rg.1
    (by rw [hl]; exact rg.2)
  refine ⟨d.set (a * incr 0 + b * incr 1 + c * inc1).toNat (dv + tv), by
    simp only [addtdiag_inner, e, Option.bind_eq_bind, htv, hcur, Option.some_bind, hw], ?_, ?_⟩
  · rw [wr_length _ _ _ _ hw, hl]
  · intro i1 r0 r1 b1 b2 b3 dv' tv' hd' ht'
    by_cases heq : r0 * incr 0 + r1 * incr 1 + i1 * inc1 = a * incr 0 + b * incr 1 + c * inc1
    · obtain ⟨e1, e2, e3⟩ := hinj i1 r0 r1 c a b b1 b2 b3 hc ha hb heq
      subst e1 e2 e3
      rw [hdv] at hd'; rw [htv] at ht'
      cases hd'; cases ht'
      refine ⟨fun _ => rd_wr_same _ _ _ _ hw, fun hn => ?_⟩
      exfalso
      exact hn (Or.inr ⟨rfl, rfl, by omega⟩)
    · rw [rd_wr_other _ _ _ _ _ hw heq]
      obtain ⟨p1, p2⟩ := hv i1 r0 r1 b1 b2 b3 dv' tv' hd' ht'
      refine ⟨fun h => p1 ?_, fun h => p2 ?_⟩
      · rcases h with h | ⟨h1, h2, h3⟩
        · exact Or.inl h
        · right
          refine ⟨h1, h2, ?_⟩
          by_contra hcon
          have : i1 = c := by omega
          subst this h1 h2
          exact heq rfl
      · intro h'
        apply h
        rcases h' with h' | ⟨h1, h2, h3⟩
        · exact Or.inl h'
        · exact Or.inr ⟨h1, h2, by omega⟩

theorem addtdiag_two (n1 inc1 : Int) (ndod incr : Int → Int) (t diag : List ℚ) (ng : Int) :
    addtdiag n1 inc1 2 ndod incr t diag ng =
      (forM 0 (1 * ndod 0 * ndod 1) (fun _ (st : (Int → Int) × List ℚ) =>
        (forM 0 n1 (addtdiag_inner inc1
          (0 + advance ndod 2 st.1 0 * incr 0 + advance ndod 2 st.1 1 * incr 1) t) st.2).map
          (fun d => (advance ndod 2 st.1, d)))
        (Function.update (Function.update (fun _ => 0) 0 (-1)) 1 0, diag)).map Prod.snd := by
  simp only [addtdiag, forP_0_2, forP_1_2]

theorem addtdiag_spec (n1 inc1 : Int) (ndod incr : Int → Int) (t diag : List ℚ) (ng : Int)
    (hn1 : 1 ≤ n1) (hd0 : 1 ≤ ndod 0) (hd1 : 1 ≤ ndod 1)
    (hrange : ∀ i1 r0 r1, (0 ≤ i1 ∧ i1 < n1) → (0 ≤ r0 ∧ r0 < ndod 0) →
      (0 ≤ r1 ∧ r1 < ndod 1) → 0 ≤ r0 * incr 0 + r1 * incr 1 + i1 * inc1 ∧
        r0 * incr 0 + r1 * incr 1 + i1 * inc1 < diag.length)
    (hinj : ∀ i1 r0 r1 i1' r0' r1', (0 ≤ i1 ∧ i1 < n1) → (0 ≤ r0 ∧ r0 < ndod 0) →
      (0 ≤ r1 ∧ r1 < ndod 1) → (0 ≤ i1' ∧ i1' < n1) → (0 ≤ r0' ∧ r0' < ndod 0) →
      (0 ≤ r1' ∧ r1' < ndod 1) →
      r0 * incr 0 + r1 * incr 1 + i1 * inc1 = r0' * incr 0 + r1' * incr 1 + i1' * inc1 →
      i1 = i1' ∧ r0 = r0' ∧ r1 = r1')
    (ht : ∀ i1, 0 ≤ i1 → i1 < n1 → Int.tdiv (i1 * (i1 + 1)) 2 + i1 < t.length) :
    ∃ d, addtdiag n1 inc1 2 ndod incr t diag ng = some d ∧ d.length = diag.length ∧
      ∀ i1 r0 r1, (0 ≤ i1 ∧ i1 < n1) → (0 ≤ r0 ∧ r0 < ndod 0) → (0 ≤ r1 ∧ r1 < ndod 1) →
        ∃ dv tv, rd diag (r0 * incr 0 + r1 * incr 1 + i1 * inc1) = some dv ∧
          rd t (Int.tdiv (i1 * (i1 + 1)) 2 + i1) = some tv ∧
          rd d (r0 * incr 0 + r1 * incr 1 + i1 * inc1) = some (dv + tv) := by
  have hnrc : (0 : Int) ≤ 1 * ndod 0 * ndod 1 := by
    have : 0 ≤ ndod 0 * ndod 1 := mul_nonneg (by omega) (by omega)
    linarith
  have key := forM_inv 0 (1 * ndod 0 * ndod 1) (fun _ (st : (Int → Int) × List ℚ) =>
      (forM 0 n1 (addtdiag_inner inc1
        (0 + advance ndod 2 st.1 0 * incr 0 + advance ndod 2 st.1 1 * incr 1) t) st.2).map
        (fun d => (advance ndod 2 st.1, d)))
    (fun m st => (st.1 0 + 1 + ndod 0 * st.1 1 = m ∧ (-1 ≤ st.1 0 ∧ st.1 0 < ndod 0) ∧
        0 ≤ st.1 1) ∧
      AddtInv n1 inc1 ndod incr t diag (fun _ r0 r1 => r0 + ndod 0 * r1 < m) st.2)
    (Function.update (Function.update (fun _ => 0) 0 (-1)) 1 0, diag) hnrc
    (by
      refine ⟨⟨by simp [Function.update], by simp [Function.update]; omega,
        by simp [Function.update]⟩, rfl, ?_⟩
      intro i1 r0 r1 b1 b2 b3 dv tv hd htv
      refine ⟨fun h => ?_, fun _ => hd⟩
      exfalso
      have : 0 ≤ ndod 0 * r1 := mul_nonneg (by omega) b3.1
      omega)
    (by
      rintro m ⟨ir, d⟩ hm0 hm ⟨⟨hsum, ha, hb⟩, hI⟩
      simp only at hsum ha hb hI
      obtain ⟨e, r0, r1⟩ := advance_2_step ndod ir m hd0 hsum ha hb (by linarith)
      have inner := forM_inv 0 n1 (addtdiag_inner inc1
          (0 + advance ndod 2 ir 0 * incr 0 + advance ndod 2 ir 1 * incr 1) t)
        (fun c d => AddtInv n1 inc1 ndod incr t diag
          (fun i1 r0 r1 => r0 + ndod 0 * r1 < m ∨
            (r0 = advance ndod 2 ir 0 ∧ r1 = advance ndod 2 ir 1 ∧ i1 < c)) d)
        d (by omega)
        (AddtInv_congr n1 inc1 ndod incr t diag _ _ d (by
          intro i1 r0 r1 b1 b2 b3
          constructor
          · intro h; exact Or.inl h
          · intro h
            rcases h with h | ⟨_, _, h⟩
            · exact h
            · omega) hI)
        (by
          intro c d' hc0 hc1 hI'
          exact addtdiag_inner_step n1 inc1 ndod incr t diag d' m _ _ c hrange hinj ht r0 r1
            ⟨hc0, hc1⟩ e hI')
      obtain ⟨d', hd', hI'⟩ := inner
      refine ⟨(advance ndod 2 ir, d'), by simp only [hd', Option.map_some'], ⟨?_, ?_, ?_⟩, ?_⟩
      · simp only; omega
      · simp only; omega
      · simp only; omega
      · simp only
        refine AddtInv_congr n1 inc1 ndod incr t diag _ _ d' ?_ hI'
        intro i1 q0 q1 b1 b2 b3
        constructor
        · intro h
          rcases h with h | ⟨h1, h2, _⟩
          · omega
          · rw [h1, h2, e]; omega
        · intro h
          by_cases hlt : q0 + ndod 0 * q1 < m
          · exact Or.inl hlt
          · right
            have heq : q0 + ndod 0 * q1 = advance ndod 2 ir 0 + ndod 0 * advance ndod 2 ir 1 := by
              omega
            obtain ⟨x1, x2⟩ := mixed_radix_unique _ _ _ _ _ b2.1 b2.2 r0.1 r0.2 heq
            exact ⟨x1, x2, b1.2⟩)
  obtain ⟨⟨ir, d⟩, hloop, _, hI⟩ := key
  refine ⟨d, by rw [addtdiag_two, hloop]; rfl, hI.1, ?_⟩
  intro i1 r0 r1 b1 b2 b3
  have rg := hrange i1 r0 r1 b1 b2 b3
  have hnn : 0 ≤ Int.tdiv (i1 * (i1 + 1)) 2 + i1 := by
    have : 0 ≤ Int.tdiv (i1 * (i1 + 1)) 2 :=
      Int.tdiv_nonneg (mul_nonneg b1.1 (by omega)) (by decide)
    omega
  obtain ⟨tv, htv⟩ := rd_isSome t _ hnn (ht i1 b1.1 b1.2)
  obtain ⟨dv, hdv⟩ := rd_isSome diag _ rg.1 rg.2
  refine ⟨dv, tv, hdv, htv, (hI.2 i1 r0 r1 b1 b2 b3 dv tv hdv htv).1 ?_⟩
  have h1 : ndod 0 * r1 ≤ ndod 0 * (ndod 1 - 1) := mul_le_mul_of_nonneg_left (by omega) (by omega)
  have : r0 + ndod 0 * r1 < 1 * ndod 0 * ndod 1 := by nlinarith
  exact this

/-! ## `ComputeDiagonal` -/

theorem swap0_swap0 (a : Int → Int) (id : Int) : swap0 (swap0 a id) id = a := by
  funext x
  simp only [swap0, Function.update]
  split_ifs <;> simp_all

theorem swap0_vals (a : Int → Int) :
    (swap0 a 0 0 = a 0 ∧ swap0 a 0 1 = a 1 ∧ swap0 a 0 2 = a 2) ∧
    (swap0 a 1 0 = a 1 ∧ swap0 a 1 1 = a 0 ∧ swap0 a 1 2 = a 2) ∧
    (swap0 a 2 0 = a 2 ∧ swap0 a 2 1 = a 1 ∧ swap0 a 2 2 = a 0) := by
  simp [swap0, Function.update]

theorem ComputeDiagonal_body_eq (id : Int) (s : DVR) (d : List ℚ) :
    ComputeDiagonal_body id (s, d) =
      (addtdiag (swap0 s.n_1dbas id 0) (swap0 s.incv id 0) 2
        (fun k => swap0 s.n_1dbas id (1 + k)) (fun k => swap0 s.incv id (1 + k))
        (s.e_kin id) d s.ngp).map (fun d' => (s, d')) := by
  have e : no_dim - 1 = 2 := by decide
  simp only [ComputeDiagonal_body, e, swap0_swap0, Option.bind_eq_bind, Option.pure_def]
  cases addtdiag (swap0 s.n_1dbas id 0) (swap0 s.incv id 0) 2
    (fun k => swap0 s.n_1dbas id (1 + k)) (fun k => swap0 s.incv id (1 + k))
    (s.e_kin id) d s.ngp <;> rfl

theorem packed_diag_bound (m n : Int) (h0 : 0 ≤ m) (h1 : m < n) :
    Int.tdiv (m * (m + 1)) 2 + m < n * (n + 1) / 2 := by
  have hnn : 0 ≤ m * (m + 1) := mul_nonneg h0 (by omega)
  rw [Int.tdiv_eq_ediv hnn (by decide)]
  have : m * (m + 1) + 2 * (m + 1) ≤ n * (n + 1) := by nlinarith
  omega

theorem addtdiag_spec_at (n1 inc1 : Int) (ndod incr : Int → Int) (N0 N1 C0 C1 : Int)
    (e1 : ndod 0 = N0) (e2 : ndod 1 = N1) (e3 : incr 0 = C0) (e4 : incr 1 = C1)
    (t diag : List ℚ) (ng : Int)
    (hn1 : 1 ≤ n1) (hd0 : 1 ≤ N0) (hd1 : 1 ≤ N1)
    (hrange : ∀ i1 r0 r1, (0 ≤ i1 ∧ i1 < n1) → (0 ≤ r0 ∧ r0 < N0) →
      (0 ≤ r1 ∧ r1 < N1) → 0 ≤ r0 * C0 + r1 * C1 + i1 * inc1 ∧
        r0 * C0 + r1 * C1 + i1 * inc1 < diag.length)
    (hinj : ∀ i1 r0 r1 i1' r0' r1', (0 ≤ i1 ∧ i1 < n1) → (0 ≤ r0 ∧ r0 < N0) →
      (0 ≤ r1 ∧ r1 < N1) → (0 ≤ i1' ∧ i1' < n1) → (0 ≤ r0' ∧ r0' < N0) →
      (0 ≤ r1' ∧ r1' < N1) →
      r0 * C0 + r1 * C1 + i1 * inc1 = r0' * C0 + r1' * C1 + i1' * inc1 →
      i1 = i1' ∧ r0 = r0' ∧ r1 = r1')
    (ht : ∀ i1, 0 ≤ i1 → i1 < n1 → Int.tdiv (i1 * (i1 + 1)) 2 + i1 < t.length) :
    ∃ d, addtdiag n1 inc1 2 ndod incr t diag ng = some d ∧ d.length = diag.length ∧
      ∀ i1 r0 r1, (0 ≤ i1 ∧ i1 < n1) → (0 ≤ r0 ∧ r0 < N0) → (0 ≤ r1 ∧ r1 < N1) →
        ∃ dv tv, rd diag (r0 * C0 + r1 * C1 + i1 * inc1) = some dv ∧
          rd t (Int.tdiv (i1 * (i1 + 1)) 2 + i1) = some tv ∧
          rd d (r0 * C0 + r1 * C1 + i1 * inc1) = some (dv + tv) := by
  subst e1 e2 e3 e4
  exact addtdiag_spec n1 inc1 ndod incr t diag ng hn1 hd0 hd1 hrange hinj ht

theorem ComputeDiagonal_pass0 (s : DVR) (diag0 d : List ℚ) (hr : s.DiagReady diag0)
    (hl : d.length = diag0.length) :
    ∃ d', ComputeDiagonal_body 0 (s, d) = some (s, d') ∧ d'.length = diag0.length ∧
      ∀ i j k, s.InRange i j k → ∃ dv tv, rd d (sub2ind i j k s.n_1dbas) = some dv ∧
        rd (s.e_kin 0) (Int.tdiv (i * (i + 1)) 2 + i) = some tv ∧
        rd d' (sub2ind i j k s.n_1dbas) = some (dv + tv) := by
  obtain ⟨⟨h0, h1, h2⟩, hngp, ⟨i0, i1, i2⟩, _, hdl, ⟨t0, _, _⟩⟩ := hr
  obtain ⟨⟨v0, v1, v2⟩, _, _⟩ := swap0_vals s.n_1dbas
  obtain ⟨⟨w0, w1, w2⟩, _, _⟩ := swap0_vals s.incv
  have idx : ∀ a b c : Int, b * s.n_1dbas 0 + c * (s.n_1dbas 0 * s.n_1dbas 1) + a * 1 =
      sub2ind a b c s.n_1dbas := by
    intro a b c; unfold sub2ind; ring
  obtain ⟨d', r1, r2, r3⟩ := addtdiag_spec_at (swap0 s.n_1dbas 0 0) (swap0 s.incv 0 0)
    (fun k => swap0 s.n_1dbas 0 (1 + k)) (fun k => swap0 s.incv 0 (1 + k))
    (s.n_1dbas 1) (s.n_1dbas 2) (s.n_1dbas 0) (s.n_1dbas 0 * s.n_1dbas 1)
    (by simp only; norm_num; rw [v1]) (by simp only; norm_num; rw [v2])
    (by simp only; norm_num; rw [w1, i1]) (by simp only; norm_num; rw [w2, i2])
    (s.e_kin 0) d s.ngp (by rw [v0]; exact h0) h1 h2
    (by
      intro a b c ha hb hc
      rw [v0] at ha
      rw [w0, i0, idx, hl]
      have := sub2ind_range s.n_1dbas a b c ha hb hc
      exact ⟨this.1, by omega⟩)
    (by
      intro a b c a' b' c' ha hb hc ha' hb' hc' h
      rw [v0] at ha ha'
      rw [w0, i0, idx, idx] at h
      exact sub2ind_inj s.n_1dbas a b c a' b' c' ha hb ha' hb' h)
    (by
      intro a ha0 ha1
      rw [v0] at ha1
      have := packed_diag_bound a (s.n_1dbas 0) ha0 ha1
      omega)
  refine ⟨d', by rw [ComputeDiagonal_body_eq, r1]; rfl, by rw [r2, hl], ?_⟩
  intro i j k hin
  obtain ⟨dv, tv, q1, q2, q3⟩ := r3 i j k (by rw [v0]; exact hin.1) hin.2.1 hin.2.2
  rw [w0, i0, idx] at q1 q3
  exact ⟨dv, tv, q1, q2, q3⟩

theorem ComputeDiagonal_pass1 (s : DVR) (diag0 d : List ℚ) (hr : s.DiagReady diag0)
    (hl : d.length = diag0.length) :
    ∃ d', ComputeDiagonal_body 1 (s, d) = some (s, d') ∧ d'.length = diag0.length ∧
      ∀ i j k, s.InRange i j k → ∃ dv tv, rd d (sub2ind i j k s.n_1dbas) = some dv ∧
        rd (s.e_kin 1) (Int.tdiv (j * (j + 1)) 2 + j) = some tv ∧
        rd d' (sub2ind i j k s.n_1dbas) = some (dv + tv) := by
  obtain ⟨⟨h0, h1, h2⟩, hngp, ⟨i0, i1, i2⟩, _, hdl, ⟨_, t1, _⟩⟩ := hr
  obtain ⟨_, ⟨v0, v1, v2⟩, _⟩ := swap0_vals s.n_1dbas
  obtain ⟨_, ⟨w0, w1, w2⟩, _⟩ := swap0_vals s.incv
  have idx : ∀ a b c : Int, b * 1 + c * (s.n_1dbas 0 * s.n_1dbas 1) + a * s.n_1dbas 0 =
      sub2ind b a c s.n_1dbas := by
    intro a b c; unfold sub2ind; ring
  obtain ⟨d', r1, r2, r3⟩ := addtdiag_spec_at (swap0 s.n_1dbas 1 0) (swap0 s.incv 1 0)
    (fun k => swap0 s.n_1dbas 1 (1 + k)) (fun k => swap0 s.incv 1 (1 + k))
    (s.n_1dbas 0) (s.n_1dbas 2) 1 (s.n_1dbas 0 * s.n_1dbas 1)
    (by simp only; norm_num; rw [v1]) (by simp only; norm_num; rw [v2])
    (by simp only; norm_num; rw [w1, i0]) (by simp only; norm_num; rw [w2, i2])
    (s.e_kin 1) d s.ngp (by rw [v0]; exact h1) h0 h2
    (by
      intro a b c ha hb hc
      rw [v0] at ha
      rw [w0, i1, idx, hl]
      have := sub2ind_range s.n_1dbas b a c hb ha hc
      exact ⟨this.1, by omega⟩)
    (by
      intro a b c a' b' c' ha hb hc ha' hb' hc' h
      rw [v0] at ha ha'
      rw [w0, i1, idx, idx] at h
      obtain ⟨x, y, z⟩ := sub2ind_inj s.n_1dbas b a c b' a' c' hb ha hb' ha' h
      exact ⟨y, x, z⟩)
    (by
      intro a ha0 ha1
      rw [v0] at ha1
      have := packed_diag_bound a (s.n_1dbas 1) ha0 ha1
      omega)
  refine ⟨d', by rw [ComputeDiagonal_body_eq, r1]; rfl, by rw [r2, hl], ?_⟩
  intro i j k hin
  obtain ⟨dv, tv, q1, q2, q3⟩ := r3 j i k (by rw [v0]; exact hin.2.1) hin.1 hin.2.2
  rw [w0, i1, idx] at q1 q3
  exact ⟨dv, tv, q1, q2, q3⟩

theorem ComputeDiagonal_pass2 (s : DVR) (diag0 d : List ℚ) (hr : s.DiagReady diag0)
    (hl : d.length = diag0.length) :
    ∃ d', ComputeDiagonal_body 2 (s, d) = some (s, d') ∧ d'.length = diag0.length ∧
      ∀ i j k, s.InRange i j k → ∃ dv tv, rd d (sub2ind i j k s.n_1dbas) = some dv ∧
        rd (s.e_kin 2) (Int.tdiv (k * (k + 1)) 2 + k) = some tv ∧
        rd d' (sub2ind i j k s.n_1dbas) = some (dv + tv) := by
  obtain ⟨⟨h0, h1, h2⟩, hngp, ⟨i0, i1, i2⟩, _, hdl, ⟨_, _, t2⟩⟩ := hr
  obtain ⟨_, _, ⟨v0, v1, v2⟩⟩ := swap0_vals s.n_1dbas
  obtain ⟨_, _, ⟨w0, w1, w2⟩⟩ := swap0_vals s.incv
  have idx : ∀ a b c : Int, b * s.n_1dbas 0 + c * 1 + a * (s.n_1dbas 0 * s.n_1dbas 1) =
      sub2ind c b a s.n_1dbas := by
    intro a b c; unfold sub2ind; ring
  obtain ⟨d', r1, r2, r3⟩ := addtdiag_spec_at (swap0 s.n_1dbas 2 0) (swap0 s.incv 2 0)
    (fun k => swap0 s.n_1dbas 2 (1 + k)) (fun k => swap0 s.incv 2 (1 + k))
    (s.n_1dbas 1) (s.n_1dbas 0) (s.n_1dbas 0) 1
    (by simp only; norm_num; rw [v1]) (by simp only; norm_num; rw [v2])
    (by simp only; norm_num; rw [w1, i1]) (by simp only; norm_num; rw [w2, i0])
    (s.e_kin 2) d s.ngp (by rw [v0]; exact h2) h1 h0
    (by
      intro a b c ha hb hc
      rw [v0] at ha
      rw [w0, i2, idx, hl]
      have := sub2ind_range s.n_1dbas c b a hc hb ha
      exact ⟨this.1, by omega⟩)
    (by
      intro a b c a' b' c' ha hb hc ha' hb' hc' h
      rw [v0] at ha ha'
      rw [w0, i2, idx, idx] at h
      obtain ⟨x, y, z⟩ := sub2ind_inj s.n_1dbas c b a c' b' a' hc hb hc' hb' h
      exact ⟨z, y, x⟩)
    (by
      intro a ha0 ha1
      rw [v0] at ha1
      have := packed_diag_bound a (s.n_1dbas 2) ha0 ha1
      omega)
  refine ⟨d', by rw [ComputeDiagonal_body_eq, r1]; rfl, by rw [r2, hl], ?_⟩
  intro i j k hin
  obtain ⟨dv, tv, q1, q2, q3⟩ := r3 k j i (by rw [v0]; exact hin.2.2) hin.2.1 hin.1
  rw [w0, i2, idx] at q1 q3
  exact ⟨dv, tv, q1, q2, q3⟩

/-- C1: on an object whose grid parameters are those of `ComputeGridParameters` (all point
counts at least 1), with `v_diag` of `ngp` entries and each `e_kin[d]` a packed
lower-triangular matrix (entry `(m, m)` at offset `m*(m+1)/2 + m`), `ComputeDiagonal(diag)`
returns, leaves the object as it was, and for every in-range `(i, j, k)` the entry of `diag`
at `i*incv[0] + j*incv[1] + k*incv[2]` is the entry of `v_diag` at that index plus
`T_0(i,i) + T_1(j,j) + T_2(k,k)`. -/
theorem ComputeDiagonal_spec (s : DVR) (diag : List ℚ) (hr : s.DiagReady diag) :
    ∃ d, s.ComputeDiagonal diag = some (s, d) ∧ d.length = diag.length ∧
      ∀ i j k, s.InRange i j k → ∃ v a b c,
        rd s.v_diag (i * s.incv 0 + j * s.incv 1 + k * s.incv 2) = some v ∧
        rd (s.e_kin 0) (Int.tdiv (i * (i + 1)) 2 + i) = some a ∧
        rd (s.e_kin 1) (Int.tdiv (j * (j + 1)) 2 + j) = some b ∧
        rd (s.e_kin 2) (Int.tdiv (k * (k + 1)) 2 + k) = some c ∧
        rd d (i * s.incv 0 + j * s.incv 1 + k * s.incv 2) = some (v + a + b + c) := by
  have hr' := hr
  obtain ⟨⟨h0, h1, h2⟩, hngp, ⟨i0, i1, i2⟩, hvl, hdl, _⟩ := hr'
  have hpos : 0 ≤ s.ngp := by
    rw [hngp]; exact mul_nonneg (mul_nonneg (by omega) (by omega)) (by omega)
  obtain ⟨d0, hc, hl0, hcp, _⟩ := copyN_spec diag s.v_diag s.ngp hpos (by omega) hdl
  obtain ⟨d1, p1, l1, q1⟩ := ComputeDiagonal_pass0 s diag d0 hr hl0
  obtain ⟨d2, p2, l2, q2⟩ := ComputeDiagonal_pass1 s diag d1 hr l1
  obtain ⟨d3, p3, l3, q3⟩ := ComputeDiagonal_pass2 s diag d2 hr l2
  refine ⟨d3, ?_, l3, ?_⟩
  · simp only [DVR.ComputeDiagonal, Option.bind_eq_bind, hc, Option.some_bind, no_dim,
      forM_0_3, p1, p2, p3]
  · intro i j k hin
    have idx : i * s.incv 0 + j * s.incv 1 + k * s.incv 2 = sub2ind i j k s.n_1dbas := by
      rw [i0, i1, i2]; unfold sub2ind; ring
    rw [idx]
    have rg := sub2ind_range s.n_1dbas i j k hin.1 hin.2.1 hin.2.2
    obtain ⟨v, hv⟩ := rd_isSome s.v_diag (sub2ind i j k s.n_1dbas) rg.1 (by omega)
    obtain ⟨dv1, a, x1, x2, x3⟩ := q1 i j k hin
    obtain ⟨dv2, b, y1, y2, y3⟩ := q2 i j k hin
    obtain ⟨dv3, c, z1, z2, z3⟩ := q3 i j k hin
    rw [hcp _ rg.1 (by omega), hv] at x1
    cases x1
    rw [x3] at y1
    cases y1
    rw [y3] at z1
    cases z1
    exact ⟨v, a, b, c, hv, x2, y2, z2, z3⟩

theorem cube2_DiagReady : cube2.DiagReady [0, 0, 0, 0, 0, 0, 0, 0] := by
  unfold DVR.DiagReady
  decide

/-- C1, on the 2 x 2 x 2 grid with zero potential and the kinetic-energy diagonals `[1, 2]`,
`[10, 20]`, `[100, 200]`. -/
theorem ComputeDiagonal_spec_witness :
    cube2.DiagReady [0, 0, 0, 0, 0, 0, 0, 0] ∧
    ∃ d, cube2.ComputeDiagonal [0, 0, 0, 0, 0, 0, 0, 0] = some (cube2, d) ∧
      d.length = ([0, 0, 0, 0, 0, 0, 0, 0] : List ℚ).length ∧
      ∀ i j k, cube2.InRange i j k → ∃ v a b c,
        rd cube2.v_diag (i * cube2.incv 0 + j * cube2.incv 1 + k * cube2.incv 2) = some v ∧
        rd (cube2.e_kin 0) (Int.tdiv (i * (i + 1)) 2 + i) = some a ∧
        rd (cube2.e_kin 1) (Int.tdiv (j * (j + 1)) 2 + j) = some b ∧
        rd (cube2.e_kin 2) (Int.tdiv (k * (k + 1)) 2 + k) = some c ∧
        rd d (i * cube2.incv 0 + j * cube2.incv 1 + k * cube2.incv 2) =
          some (v + a + b + c) :=
  ⟨cube2_DiagReady, ComputeDiagonal_spec cube2 [0, 0, 0, 0, 0, 0, 0, 0] cube2_DiagReady⟩

/-! ## `ComputeDiagonal`: the object on return -/

theorem ComputeDiagonal_total (s : DVR) (diag : List ℚ) (hr : s.DiagReady diag) :
    ∃ d, s.ComputeDiagonal diag = some (s, d) := by
  have hr' := hr
  obtain ⟨⟨h0, h1, h2⟩, hngp, _, hvl, hdl, _⟩ := hr'
  have hpos : 0 ≤ s.ngp := by
    rw [hngp]; exact mul_nonneg (mul_nonneg (by omega) (by omega)) (by omega)
  obtain ⟨d0, hc, hl0, _, _⟩ := copyN_spec diag s.v_diag s.ngp hpos (by omega) hdl
  obtain ⟨d1, p1, l1, _⟩ := ComputeDiagonal_pass0 s diag d0 hr hl0
  obtain ⟨d2, p2, l2, _⟩ := ComputeDiagonal_pass1 s diag d1 hr l1
  obtain ⟨d3, p3, _, _⟩ := ComputeDiagonal_pass2 s diag d2 hr l2
  exact ⟨d3, by
    simp only [DVR.ComputeDiagonal, Option.bind_eq_bind, hc, Option.some_bind, no_dim,
      forM_0_3, p1, p2, p3]⟩

theorem ComputeDiagonal_body_state (id : Int) (t t' : DVR × List ℚ)
    (h : ComputeDiagonal_body id t = some t') : t'.1 = t.1 := by
  obtain ⟨s, d⟩ := t
  rw [ComputeDiagonal_body_eq] at h
  cases ha : addtdiag (swap0 s.n_1dbas id 0) (swap0 s.incv id 0) 2
      (fun k => swap0 s.n_1dbas id (1 + k)) (fun k => swap0 s.incv id (1 + k))
      (s.e_kin id) d s.ngp with
  | none => rw [ha] at h; cases h
  | some d' =>
    rw [ha] at h
    simp only [Option.map_some', Option.some.injEq] at h
    rw [← h]

/-- C22: whenever `ComputeDiagonal(diag)` returns, the object is exactly as on entry: the
point counts `n_1dbas`, the strides `incv` and the potential diagonal `v_diag` hold the
values they had (`diag` is a separate array); each swap of axis `id` with axis 0 is undone by
the second swap. On an object set up as `ComputeDiagonal` needs, the call does return. -/
theorem ComputeDiagonal_restores (s : DVR) (diag : List ℚ) :
    (∀ r, s.ComputeDiagonal diag = some r →
      r.1.n_1dbas = s.n_1dbas ∧ r.1.incv = s.incv ∧ r.1.v_diag = s.v_diag ∧ r.1 = s) ∧
    (∀ (a : Int → Int) (id : Int), swap0 (swap0 a id) id = a) ∧
    (s.DiagReady diag → ∃ d, s.ComputeDiagonal diag = some (s, d)) := by
  refine ⟨?_, swap0_swap0, ComputeDiagonal_total s diag⟩
  intro r hr
  have key : r.1 = s := by
    unfold DVR.ComputeDiagonal at hr
    cases hc : copyN diag s.v_diag s.ngp with
    | none => rw [hc] at hr; cases hr
    | some d0 =>
      rw [hc] at hr
      simp only [Option.bind_eq_bind, Option.some_bind] at hr
      exact forM_partial 0 no_dim ComputeDiagonal_body (fun t => t.1 = s)
        (fun i t t' hb ht => (ComputeDiagonal_body_state i t t' hb).trans ht)
        (s, d0) r rfl hr
  rw [key]
  exact ⟨rfl, rfl, rfl, rfl⟩

/-- C22, on the 2 x 2 x 2 example grid: the call returns and the object is unchanged. -/
theorem ComputeDiagonal_restores_witness :
    cube2.DiagReady [0, 0, 0, 0, 0, 0, 0, 0] ∧
    ∃ d, cube2.ComputeDiagonal [0, 0, 0, 0, 0, 0, 0, 0] = some (cube2, d) :=
  ⟨cube2_DiagReady,
    (ComputeDiagonal_restores cube2 [0, 0, 0, 0, 0, 0, 0, 0]).2.2 cube2_DiagReady⟩

/-! ## The volume element and the kinetic-energy arrays: concrete runs -/

/-- C23 (failing input): on the 3 x 3 x 2 grid with abscissae `0, 1, 2`, `0, 1, 2` and `0, 1`
(every step is 1), the code computes `dV = 1/4`, whereas `dx*dy*dz` with
`dx = (x[nx-1]-x[0])/(nx-1)`, `dy = (y[ny-1]-y[0])/(ny-1)`, `dz = (z[nz-1]-z[0])/(nz-1)`
is 1. -/
theorem dV_uses_nz_on_every_axis :
    (2 ≤ slab332.n_1dbas 0 ∧ 2 ≤ slab332.n_1dbas 1 ∧ 2 ≤ slab332.n_1dbas 2) ∧
    slab332.GetWaveFnCube_dV = some (1 / 4) ∧ slab332.dV_comment = some 1 := by
  refine ⟨by decide, ?_, ?_⟩
  · decide!
  · decide!

/-- C24 (failing input): for the Fourier basis (`dvrtype = 3`) on the 2 x 2 x 1 grid,
`SetupDVR` allocates 2 entries for `e_kin[0]`; for `i1 = 1` the index
`i1*(i1+1)/2 + i1` read by `addtdiag` is 2, which is outside that array, and
`ComputeDiagonal` faults. For every other basis type the array has `npts*npts` entries and
every such index is inside it. -/
theorem addtdiag_reads_past_fourier_e_kin :
    fourierGrid.dvrtype = 3 ∧
    (SetupDVR_e_kin fourierGrid.dvrtype (fourierGrid.n_1dbas 0)).map List.length = some 2 ∧
    (fourierGrid.e_kin 0).length = 2 ∧
    Int.tdiv (1 * (1 + 1)) 2 + 1 = 2 ∧
    rd (fourierGrid.e_kin 0) (Int.tdiv (1 * (1 + 1)) 2 + 1) = none ∧
    (fourierGrid.ComputeDiagonal [0, 0, 0, 0]).isNone = true ∧
    (∀ dvrtype npts i1 : Int, dvrtype ≠ 3 → 0 ≤ i1 → i1 < npts →
      ∃ t, SetupDVR_e_kin dvrtype npts = some t ∧
        0 ≤ Int.tdiv (i1 * (i1 + 1)) 2 + i1 ∧ Int.tdiv (i1 * (i1 + 1)) 2 + i1 < t.length) := by
  refine ⟨by decide, by decide, by decide, by decide, by decide, ?_, ?_⟩
  · decide!
  · intro dvrtype npts i1 hd h0 h1
    have hnn : 0 ≤ npts * npts := mul_nonneg (by omega) (by omega)
    refine ⟨List.replicate (npts * npts).toNat 0, by simp [SetupDVR_e_kin, hd, hnn], ?_, ?_⟩
    · have : 0 ≤ Int.tdiv (i1 * (i1 + 1)) 2 :=
        Int.tdiv_nonneg (mul_nonneg h0 (by omega)) (by decide)
      omega
    · have hb := packed_diag_bound i1 npts h0 h1
      have h2 : npts * (npts + 1) / 2 ≤ npts * npts := by
        have : npts * (npts + 1) ≤ 2 * (npts * npts) := by nlinarith
        omega
      simp only [List.length_replicate]
      omega

/-! ## `ComputeGradient`: the static buffers over a sequence of calls -/

set_option maxRecDepth 100000 in
/-- C25 (failing input): with one thread on the grid of one point, a first call of the OpenMP
variant with `nSites = 1` returns the gradient `[1, 2, 3]` and leaves a static `storage`
whose buffers have 3 entries and a static `qtest` of 3 entries. A second call with
`nSites = 2` then faults (it reads `Gradient[3]` of a buffer of 3 entries), and so does a
second call on the grid of 2 points (it writes `qtest[3]`). In the non-OpenMP variant the
second call on the grid of 2 points faults in the same way. -/
theorem ComputeGradient_static_buffers_too_small :
    ((lineGrid 1).ComputeGradient_omp [1] exampleGradExt 1 (fun _ => 0) 1 [0, 0, 0]
      { qtest := none, storage := none }).map
      (fun r => (r.1, r.2.qtest.map List.length,
        r.2.storage.map (fun x => x.map (fun loc => (loc.tGrad.length, loc.Gradient.length)))))
      = some ([1, 2, 3], some 3, some [(3, 3)]) ∧
    (((lineGrid 1).ComputeGradient_omp [1] exampleGradExt 1 (fun _ => 0) 1 [0, 0, 0]
      { qtest := none, storage := none }).bind (fun r =>
        (lineGrid 1).ComputeGradient_omp [1] exampleGradExt 1 (fun _ => 0) 2
          [0, 0, 0, 0, 0, 0] r.2)).isNone = true ∧
    (((lineGrid 1).ComputeGradient_omp [1] exampleGradExt 1 (fun _ => 0) 1 [0, 0, 0]
      { qtest := none, storage := none }).bind (fun r =>
        (lineGrid 2).ComputeGradient_omp [1, 1] exampleGradExt 1 (fun _ => 0) 1
          [0, 0, 0] r.2)).isNone = true ∧
    ((lineGrid 1).ComputeGradient_serial [1] exampleGradExt 1 [0, 0, 0] none).map
      (fun r => (r.1, r.2.map List.length)) = some ([1, 2, 3], some 3) ∧
    (((lineGrid 1).ComputeGradient_serial [1] exampleGradExt 1 [0, 0, 0] none).bind (fun r =>
        (lineGrid 2).ComputeGradient_serial [1, 1] exampleGradExt 1 [0, 0, 0] r.2)).isNone
      = true ∧
    ((lineGrid 2).ComputeGradient_serial [1, 1] exampleGradExt 1 [0, 0, 0] none).map
      (fun r => r.1) = some [3, 5, 7] := by
  refine ⟨?_, ?_, ?_, ?_, ?_, ?_⟩
  · decide!
  · decide!
  · decide!
  · decide!
  · decide!
  · decide!

/-! ## `ComputeGradient`: the accumulation loops -/

theorem rdS_isSome (a : List Storage) (i : Int) (h0 : 0 ≤ i) (h1 : i < a.length) :
    ∃ v, rdS a i = some v := by
  have h : i.toNat < a.length := by omega
  exact ⟨a[i.toNat], by simp [rdS, h0, List.getElem?_eq_getElem h]⟩

theorem rdS_some_lt (a : List Storage) (i : Int) (v : Storage) (h : rdS a i = some v) :
    0 ≤ i ∧ i < a.length := by
  unfold rdS at h
  split at h
  · rename_i h0
    obtain ⟨hlt, _⟩ := List.getElem?_eq_some_iff.1 h
    exact ⟨h0, by omega⟩
  · cases h

theorem wrS_some (a : List Storage) (i : Int) (v : Storage) (h0 : 0 ≤ i) (h1 : i < a.length) :
    wrS a i v = some (a.set i.toNat v) := by
  have h : i.toNat < a.length := by omega
  simp [wrS, h0, h]

theorem rdS_set_same (a : List Storage) (i : Int) (v : Storage) (h0 : 0 ≤ i)
    (h1 : i < a.length) : rdS (a.set i.toNat v) i = some v := by
  have h : i.toNat < a.length := by omega
  simp [rdS, h0, h]

theorem rdS_set_other (a : List Storage) (i j : Int) (v : Storage) (h0 : 0 ≤ i)
    (hij : j ≠ i) : rdS (a.set i.toNat v) j = rdS a j := by
  unfold rdS
  split
  · have : i.toNat ≠ j.toNat := by omega
    simp [List.getElem?_set_ne this]
  · rfl

theorem rd_zero_fill (a : List ℚ) (j : Int) (h0 : 0 ≤ j) (h1 : j < a.length) :
    rd (a.map (fun _ => (0 : ℚ))) j = some 0 := by
  have h : j.toNat < a.length := by omega
  simp [rd, h0, List.getElem?_replicate, h]

theorem rd_replicate (n : Nat) (j : Int) (h0 : 0 ≤ j) (h1 : j < n) :
    rd (List.replicate n (0 : ℚ)) j = some 0 := by
  have h : j.toNat < n := by omega
  simp [rd, h0, List.getElem?_replicate, h]

theorem list_ext_rd (a b : List ℚ) (hl : a.length = b.length)
    (h : ∀ j : Int, 0 ≤ j → j < a.length → rd a j = rd b j) : a = b := by
  apply List.ext_getElem? 
  intro n
  by_cases hn : n < a.length
  · have := h (n : Int) (by omega) (by omega)
    simpa [rd] using this
  · rw [List.getElem?_eq_none (by omega), List.getElem?_eq_none (by omega)]

theorem pointwise_add_loop (body : Int → List ℚ → Option (List ℚ)) (c : Int → ℚ) (m : Int)
    (G : List ℚ) (hm : m ≤ G.length)
    (hbody : ∀ j G' v, 0 ≤ j → j < m → rd G' j = some v → body j G' = wr G' j (v + c j)) :
    ∃ G', forM 0 m body G = some G' ∧ G'.length = G.length ∧
      (∀ j v, 0 ≤ j → j < m → rd G j = some v → rd G' j = some (v + c j)) ∧
      (∀ j, m ≤ j → rd G' j = rd G j) := by
  by_cases h0 : 0 ≤ m
  · have key := forM_inv 0 m body
      (fun i t => t.length = G.length ∧
        (∀ j v, 0 ≤ j → j < i → rd G j = some v → rd t j = some (v + c j)) ∧
        (∀ j, i ≤ j → rd t j = rd G j))
      G h0 ⟨rfl, fun j v a b => by omega, fun _ _ => rfl⟩
      (by
        rintro i t hi0 hi1 ⟨hl, hdone, hrest⟩
        obtain ⟨v, hv⟩ := rd_isSome G i hi0 (by omega)
        have hv' : rd t i = some v := by rw [hrest i (le_refl _)]; exact hv
        have hw := wr_some t i (v + c i) hi0 (by rw [hl]; omega)
        refine ⟨t.set i.toNat (v + c i), by rw [hbody i t v hi0 hi1 hv', hw], ?_, ?_, ?_⟩
        · rw [wr_length _ _ _ _ hw, hl]
        · intro j w j0 j1 hj
          by_cases hji : j = i
          · subst hji
            rw [hv] at hj
            cases hj
            exact rd_wr_same _ _ _ _ hw
          · rw [rd_wr_other _ _ _ _ _ hw hji]
            exact hdone j w j0 (by omega) hj
        · intro j hj
          rw [rd_wr_other _ _ _ _ _ hw (by omega)]
          exact hrest j (by omega))
    obtain ⟨G', h1, h2, h3, h4⟩ := key
    exact ⟨G', h1, h2, h3, h4⟩
  · exact ⟨G, forM_empty 0 m body G (by omega), rfl, fun j v a b => by omega, fun _ _ => rfl⟩

theorem ComputeGradient_qtest_ok (s : DVR) (q : List ℚ) (hr : s.Ready)
    (hq : 3 * s.ngp ≤ q.length) :
    ∃ q', ComputeGradient_qtest s q = some q' ∧ q'.length = q.length := by
  have hr' := hr
  obtain ⟨⟨h0, h1, h2⟩, hngp, _, _, _⟩ := hr'
  unfold ComputeGradient_qtest
  refine forM_preserve _ _ _ (fun t => t.length = q.length) q rfl ?_
  intro k t hk0 hk1 Pt
  refine forM_preserve _ _ _ _ t Pt ?_
  intro j t hj0 hj1 Pt
  refine forM_preserve _ _ _ _ t Pt ?_
  intro i t hi0 hi1 hl
  obtain ⟨x, y, z, hx, hy, hz⟩ := Coords_exists s hr i j k ⟨⟨hi0, hi1⟩, ⟨hj0, hj1⟩, ⟨hk0, hk1⟩⟩
  have rg := sub2ind_range s.n_1dbas i j k ⟨hi0, hi1⟩ ⟨hj0, hj1⟩ ⟨hk0, hk1⟩
  rw [← hngp] at rg
  have w0 := wr_some t (sub2ind i j k s.n_1dbas * 3 + 0) x (by omega) (by omega)
  have l0 := wr_length _ _ _ _ w0
  have w1 := wr_some (t.set (sub2ind i j k s.n_1dbas * 3 + 0).toNat x)
    (sub2ind i j k s.n_1dbas * 3 + 1) y (by omega) (by omega)
  have l1 := wr_length _ _ _ _ w1
  have w2 := wr_some ((t.set (sub2ind i j k s.n_1dbas * 3 + 0).toNat x).set
    (sub2ind i j k s.n_1dbas * 3 + 1).toNat y) (sub2ind i j k s.n_1dbas * 3 + 2) z
    (by omega) (by omega)
  have l2 := wr_length _ _ _ _ w2
  refine ⟨((t.set (sub2ind i j k s.n_1dbas * 3 + 0).toNat x).set
    (sub2ind i j k s.n_1dbas * 3 + 1).toNat y).set (sub2ind i j k s.n_1dbas * 3 + 2).toNat z,
    ?_, ?_⟩
  · simp only [ComputeGradient_qtest_body, Option.bind_eq_bind, hx, hy, hz, Option.some_bind,
      w0, w1, w2]
  · show _ = q.length
    rw [l2, l1, l0, hl]

theorem EvaluateGradient_spec (e : GradExt) (q : List ℚ) (igp : Int) (psi : ℚ) (tG : List ℚ)
    (h0 : 0 ≤ igp) (hq : igp * 3 + 2 < q.length) :
    ∃ tG', EvaluateGradient e q igp psi tG = some tG' ∧ tG'.length = tG.length ∧
      ∀ j v, rd tG j = some v → rd tG' j = some (v +
        e.grad ((rd q (igp * no_dim)).getD 0) ((rd q (igp * no_dim + 1)).getD 0)
          ((rd q (igp * no_dim + 2)).getD 0) psi j) := by
  obtain ⟨x, hx⟩ := rd_isSome q (igp * 3) (by omega) (by omega)
  obtain ⟨y, hy⟩ := rd_isSome q (igp * 3 + 1) (by omega) (by omega)
  obtain ⟨z, hz⟩ := rd_isSome q (igp * 3 + 2) (by omega) (by omega)
  refine ⟨tG.enum.map (fun p => p.2 + e.grad x y z psi (p.1 : Int)), ?_, by simp, ?_⟩
  · simp only [EvaluateGradient, no_dim, Option.bind_eq_bind, hx, hy, hz, Option.some_bind,
      Option.pure_def]
  · intro j v hj
    obtain ⟨j0, j1⟩ := rd_some_bounds tG j v hj
    have hjn : j.toNat < tG.length := by omega
    simp only [no_dim, hx, hy, hz, Option.getD_some]
    unfold rd at hj ⊢
    simp only [j0, if_true] at hj ⊢
    rw [List.getElem?_map, List.getElem?_enum, hj]
    simp only [Option.map_some', Option.some.injEq]
    rw [Int.toNat_of_nonneg j0]

theorem accumulate_point_spec (e : GradExt) (wavefn q : List ℚ) (nSites igp : Int)
    (loc : Storage) (h0 : 0 ≤ igp) (hq : igp * 3 + 2 < q.length) (hw : igp < wavefn.length)
    (ht : nSites * 3 ≤ loc.tGrad.length) (hg : nSites * 3 ≤ loc.Gradient.length) :
    ∃ loc', accumulate_point e wavefn q nSites igp loc = some loc' ∧
      loc'.tGrad.length = loc.tGrad.length ∧ loc'.Gradient.length = loc.Gradient.length ∧
      (∀ j v, 0 ≤ j → j < nSites * 3 → rd loc.Gradient j = some v →
        rd loc'.Gradient j = some (v + gradTerm e wavefn q igp j)) ∧
      (∀ j, nSites * 3 ≤ j → rd loc'.Gradient j = rd loc.Gradient j) := by
  obtain ⟨psi, hpsi⟩ := rd_isSome wavefn igp h0 hw
  obtain ⟨tG, htG, hlt, hval⟩ := EvaluateGradient_spec e q igp psi
    (loc.tGrad.map (fun _ => (0 : ℚ))) h0 hq
  have hlt' : tG.length = loc.tGrad.length := by rw [hlt]; simp
  obtain ⟨G', hloop, hl, hdone, hrest⟩ := pointwise_add_loop
    (accumulate_body wavefn tG igp) (fun j => gradTerm e wavefn q igp j) (nSites * 3)
    loc.Gradient hg (by
      intro j G v j0 j1 hv
      have hz := rd_zero_fill loc.tGrad j j0 (by omega)
      have htj := hval j 0 hz
      simp only [accumulate_body, Option.bind_eq_bind, hv, hpsi, htj, Option.some_bind]
      simp only [gradTerm, hpsi, Option.getD_some, zero_add])
  refine ⟨{ tGrad := tG, Gradient := G' }, ?_, hlt', hl, hdone, hrest⟩
  simp only [accumulate_point, Option.bind_eq_bind, hpsi, Option.some_bind, htG, hloop,
    Option.pure_def]

theorem accumulate_loop_spec (e : GradExt) (wavefn q : List ℚ) (nSites ngp : Int)
    (sel : Int → Prop) [DecidablePred sel] (loc : Storage) (hngp : 0 ≤ ngp)
    (hq : 3 * ngp ≤ q.length) (hw : ngp ≤ wavefn.length)
    (ht : nSites * 3 ≤ loc.tGrad.length) (hg : nSites * 3 ≤ loc.Gradient.length) :
    ∃ loc', forM 0 ngp (fun igp loc =>
        if sel igp then accumulate_point e wavefn q nSites igp loc else some loc) loc
        = some loc' ∧
      loc'.tGrad.length = loc.tGrad.length ∧ loc'.Gradient.length = loc.Gradient.length ∧
      (∀ j v, 0 ≤ j → j < nSites * 3 → rd loc.Gradient j = some v →
        rd loc'.Gradient j = some (v + ∑ i ∈ Finset.range ngp.toNat,
          if sel (i : Int) then gradTerm e wavefn q (i : Int) j else 0)) ∧
      (∀ j, nSites * 3 ≤ j → rd loc'.Gradient j = rd loc.Gradient j) := by
  have key := forM_inv 0 ngp (fun igp loc =>
      if sel igp then accumulate_point e wavefn q nSites igp loc else some loc)
    (fun m (t : Storage) => t.tGrad.length = loc.tGrad.length ∧
      t.Gradient.length = loc.Gradient.length ∧
      (∀ j v, 0 ≤ j → j < nSites * 3 → rd loc.Gradient j = some v →
        rd t.Gradient j = some (v + ∑ i ∈ Finset.range m.toNat,
          if sel (i : Int) then gradTerm e wavefn q (i : Int) j else 0)) ∧
      (∀ j, nSites * 3 ≤ j → rd t.Gradient j = rd loc.Gradient j))
    loc hngp ⟨rfl, rfl, by intro j v _ _ hv; simpa using hv, fun _ _ => rfl⟩
    (by
      rintro m t hm0 hm1 ⟨l1, l2, hdone, hrest⟩
      have hsucc : (m + 1).toNat = m.toNat + 1 := by omega
      have hcast : ((m.toNat : Nat) : Int) = m := Int.toNat_of_nonneg hm0
      by_cases hs : sel m
      · obtain ⟨t', r1, r2, r3, r4, r5⟩ := accumulate_point_spec e wavefn q nSites m t hm0
          (by omega) (by omega) (by rw [l1]; exact ht) (by rw [l2]; exact hg)
        refine ⟨t', by simp only [hs, if_true, r1], by rw [r2, l1], by rw [r3, l2], ?_, ?_⟩
        · intro j v j0 j1 hv
          rw [r4 j _ j0 j1 (hdone j v j0 j1 hv), hsucc, Finset.sum_range_succ, hcast,
            if_pos hs, add_assoc]
        · intro j hj
          rw [r5 j hj]
          exact hrest j hj
      · refine ⟨t, by simp only [hs, if_false], l1, l2, ?_, hrest⟩
        intro j v j0 j1 hv
        rw [hdone j v j0 j1 hv, hsucc, Finset.sum_range_succ, hcast, if_neg hs, add_zero])
  obtain ⟨loc', h1, h2, h3, h4, h5⟩ := key
  exact ⟨loc', h1, h2, h3, h4, h5⟩

theorem thread_spec (e : GradExt) (hF : ∀ G, e.FinalGradient G = G) (wavefn q : List ℚ)
    (nSites ngp : Int) (owner : Int → Int) (t : Int) (loc : Storage) (hngp : 0 ≤ ngp)
    (hq : 3 * ngp ≤ q.length) (hw : ngp ≤ wavefn.length)
    (ht : nSites * 3 ≤ loc.tGrad.length) (hg : nSites * 3 ≤ loc.Gradient.length) :
    ∃ loc', ComputeGradient_thread e wavefn q nSites ngp owner t loc = some loc' ∧
      loc'.tGrad.length = loc.tGrad.length ∧ loc'.Gradient.length = loc.Gradient.length ∧
      ∀ j, 0 ≤ j → j < nSites * 3 →
        rd loc'.Gradient j = some (∑ i ∈ Finset.range ngp.toNat,
          if owner (i : Int) = t then gradTerm e wavefn q (i : Int) j else 0) := by
  obtain ⟨loc', r1, r2, r3, r4, _⟩ := accumulate_loop_spec e wavefn q nSites ngp
    (fun igp => owner igp = t) { loc with Gradient := loc.Gradient.map (fun _ => (0 : ℚ)) }
    hngp hq hw ht (by simp only [List.length_map]; exact hg)
  refine ⟨{ loc' with Gradient := e.FinalGradient loc'.Gradient }, ?_, r2, ?_, ?_⟩
  · simp only [ComputeGradient_thread, Option.bind_eq_bind, r1, Option.some_bind,
      Option.pure_def]
  · simp only [hF]
    rw [r3]
    simp
  · intro j j0 j1
    simp only [hF]
    have := r4 j 0 j0 j1 (rd_zero_fill loc.Gradient j j0 (by omega))
    rw [this, zero_add]

theorem parallel_spec (e : GradExt) (hF : ∀ G, e.FinalGradient G = G) (wavefn q : List ℚ)
    (nSites ngp nthread : Int) (owner : Int → Int) (x : List Storage) (hngp : 0 ≤ ngp)
    (hq : 3 * ngp ≤ q.length) (hw : ngp ≤ wavefn.length)
    (hx : ∀ t, 0 ≤ t → t < nthread → ∃ loc, rdS x t = some loc ∧
      nSites * 3 ≤ (loc.tGrad.length : Int) ∧ nSites * 3 ≤ (loc.Gradient.length : Int)) :
    ∃ x', ComputeGradient_parallel e wavefn q nSites ngp nthread owner x = some x' ∧
      ∀ t, 0 ≤ t → t < nthread → ∃ loc, rdS x' t = some loc ∧
        ∀ j, 0 ≤ j → j < nSites * 3 →
          rd loc.Gradient j = some (∑ i ∈ Finset.range ngp.toNat,
            if owner (i : Int) = t then gradTerm e wavefn q (i : Int) j else 0) := by
  by_cases hn : 0 ≤ nthread
  · have key := forM_inv 0 nthread (fun ithread storage =>
        (rdS storage ithread).bind (fun loc =>
          (ComputeGradient_thread e wavefn q nSites ngp owner ithread loc).bind (fun loc =>
            wrS storage ithread loc)))
      (fun t (x' : List Storage) => x'.length = x.length ∧
        (∀ u, 0 ≤ u → u < t → ∃ loc, rdS x' u = some loc ∧
          ∀ j, 0 ≤ j → j < nSites * 3 →
            rd loc.Gradient j = some (∑ i ∈ Finset.range ngp.toNat,
              if owner (i : Int) = u then gradTerm e wavefn q (i : Int) j else 0)) ∧
        (∀ u, t ≤ u → rdS x' u = rdS x u))
      x hn ⟨rfl, fun u a b => by omega, fun _ _ => rfl⟩
      (by
        rintro t x' ht0 ht1 ⟨hl, hdone, hrest⟩
        obtain ⟨loc, hloc, g1, g2⟩ := hx t ht0 ht1
        have hloc' : rdS x' t = some loc := by rw [hrest t (le_refl _)]; exact hloc
        have hlt := (rdS_some_lt x t loc hloc).2
        obtain ⟨loc', r1, _, _, r4⟩ := thread_spec e hF wavefn q nSites ngp owner t loc hngp
          hq hw g1 g2
        have hw' := wrS_some x' t loc' ht0 (by rw [hl]; exact hlt)
        refine ⟨x'.set t.toNat loc', by
          simp only [hloc', Option.some_bind, r1, hw'], by simp [hl], ?_, ?_⟩
        · intro u u0 u1
          by_cases hut : u = t
          · subst hut
            exact ⟨loc', rdS_set_same x' u loc' u0 (by rw [hl]; exact hlt), r4⟩
          · rw [rdS_set_other x' t u loc' ht0 hut]
            exact hdone u u0 (by omega)
        · intro u hu
          rw [rdS_set_other x' t u loc' ht0 (by omega)]
          exact hrest u (by omega))
    obtain ⟨x', h1, _, h3, _⟩ := key
    exact ⟨x', h1, h3⟩
  · exact ⟨x, forM_empty 0 nthread _ x (by omega), fun t a b => by omega⟩

theorem reduce_spec (nSites nthread : Int) (x : List Storage) (c : Int → Int → ℚ)
    (G : List ℚ) (hG : nSites * 3 ≤ G.length)
    (hx : ∀ t, 0 ≤ t → t < nthread → ∃ loc, rdS x t = some loc ∧
      ∀ j, 0 ≤ j → j < nSites * 3 → rd loc.Gradient j = some (c t j)) :
    ∃ G', ComputeGradient_reduce nSites nthread x G = some G' ∧ G'.length = G.length ∧
      (∀ j v, 0 ≤ j → j < nSites * 3 → rd G j = some v →
        rd G' j = some (v + ∑ u ∈ Finset.range nthread.toNat, c (u : Int) j)) ∧
      (∀ j, nSites * 3 ≤ j → rd G' j = rd G j) := by
  by_cases hn : 0 ≤ nthread
  · have key := forM_inv 0 nthread (fun ithread Gradient =>
        (rdS x ithread).bind (fun loc => forM 0 (nSites * 3) (reduce_body loc) Gradient))
      (fun t (G' : List ℚ) => G'.length = G.length ∧
        (∀ j v, 0 ≤ j → j < nSites * 3 → rd G j = some v →
          rd G' j = some (v + ∑ u ∈ Finset.range t.toNat, c (u : Int) j)) ∧
        (∀ j, nSites * 3 ≤ j → rd G' j = rd G j))
      G hn ⟨rfl, by intro j v _ _ hv; simpa using hv, fun _ _ => rfl⟩
      (by
        rintro t G1 ht0 ht1 ⟨hl, hdone, hrest⟩
        obtain ⟨loc, hloc, hval⟩ := hx t ht0 ht1
        have hsucc : (t + 1).toNat = t.toNat + 1 := by omega
        have hcast : ((t.toNat : Nat) : Int) = t := Int.toNat_of_nonneg ht0
        obtain ⟨G2, r1, r2, r3, r4⟩ := pointwise_add_loop (reduce_body loc) (fun j => c t j)
          (nSites * 3) G1 (by rw [hl]; exact hG) (by
            intro j G' v j0 j1 hv
            simp only [reduce_body, Option.bind_eq_bind, hv, hval j j0 j1, Option.some_bind])
        refine ⟨G2, by simp only [hloc, Option.some_bind, r1], by rw [r2, hl], ?_, ?_⟩
        · intro j v j0 j1 hv
          rw [r3 j _ j0 j1 (hdone j v j0 j1 hv), hsucc, Finset.sum_range_succ, hcast,
            add_assoc]
        · intro j hj
          rw [r4 j hj]
          exact hrest j hj)
    obtain ⟨G', h1, h2, h3, h4⟩ := key
    exact ⟨G', h1, h2, h3, h4⟩
  · refine ⟨G, forM_empty 0 nthread _ G (by omega), rfl, ?_, fun _ _ => rfl⟩
    intro j v _ _ hv
    have : nthread.toNat = 0 := by omega
    rw [this]
    simpa using hv

theorem owner_sum (N M : Nat) (owner : Int → Int) (a : Int → ℚ)
    (ho : ∀ i : Nat, i < M → 0 ≤ owner (i : Int) ∧ owner (i : Int) < (N : Int)) :
    ∑ u ∈ Finset.range N, ∑ i ∈ Finset.range M,
      (if owner (i : Int) = (u : Int) then a (i : Int) else 0) =
    ∑ i ∈ Finset.range M, a (i : Int) := by
  rw [Finset.sum_comm]
  apply Finset.sum_congr rfl
  intro i hi
  obtain ⟨o0, o1⟩ := ho i (Finset.mem_range.1 hi)
  have e : ∀ u : Nat, (owner (i : Int) = (u : Int)) ↔ ((owner (i : Int)).toNat = u) := by
    intro u
    constructor <;> intro h <;> omega
  simp only [e]
  rw [Finset.sum_ite_eq]
  rw [if_pos (Finset.mem_range.2 (by omega))]

/-! ## `ComputeGradient`: the partition of the grid points among the threads -/

theorem static_qtest_spec (sq : Option (List ℚ)) (ngp : Int) (hngp : 0 ≤ ngp)
    (h : ∀ q, sq = some q → 3 * ngp ≤ (q.length : Int)) :
    ∃ q0, staticObject sq (dVec (no_dim * ngp)) = some q0 ∧ 3 * ngp ≤ (q0.length : Int) := by
  cases sq with
  | some q => exact ⟨q, rfl, h q rfl⟩
  | none =>
    have h3 : (0 : Int) ≤ no_dim * ngp := by simp only [no_dim]; omega
    refine ⟨List.replicate (no_dim * ngp).toNat 0, by simp [staticObject, dVec, h3], ?_⟩
    simp only [List.length_replicate, no_dim]
    omega

theorem static_storage_spec (ss : Option (List Storage)) (nSites nthread : Int)
    (hn : 0 ≤ nSites)
    (h : ∀ x, ss = some x → ∀ t, 0 ≤ t → t < nthread →
      ∃ loc, rdS x t = some loc ∧ nSites * 3 ≤ (loc.tGrad.length : Int) ∧
        nSites * 3 ≤ (loc.Gradient.length : Int)) :
    ∃ x0, staticObject ss
        ((Storage.construct nSites).map (fun x => List.replicate nthread.toNat x)) = some x0 ∧
      ∀ t, 0 ≤ t → t < nthread →
        ∃ loc, rdS x0 t = some loc ∧ nSites * 3 ≤ (loc.tGrad.length : Int) ∧
          nSites * 3 ≤ (loc.Gradient.length : Int) := by
  cases ss with
  | some x => exact ⟨x, rfl, h x rfl⟩
  | none =>
    have h3 : (0 : Int) ≤ nSites * 3 := by omega
    refine ⟨List.replicate nthread.toNat
      { tGrad := List.replicate (nSites * 3).toNat 0,
        Gradient := List.replicate (nSites * 3).toNat 0 }, ?_, ?_⟩
    · simp [staticObject, Storage.construct, dVec, h3]
    · intro t t0 t1
      have ht : t.toNat < nthread.toNat := by omega
      refine ⟨Storage.mk (List.replicate (nSites * 3).toNat 0)
        (List.replicate (nSites * 3).toNat 0),
        by simp [rdS, t0, List.getElem?_replicate, ht], ?_, ?_⟩ <;>
        simp only [List.length_replicate] <;> omega

/-- C21: on an object set up by `SetupDVR`, with `wavefn` holding at least `ngp` entries,
`Gradient` at least `3*nSites`, static buffers that are large enough or not yet constructed,
and `FinalGradient` and `SubtractWWGradient` leaving the gradient as it is: for every
assignment `owner` of the grid points to the threads `0 .. nthread-1`, the OpenMP variant of
`ComputeGradient` (every thread zeroes its buffer and accumulates over its own points, then
the buffers are added serially) and the non-OpenMP variant both return, with the same
`Gradient`, and every component `j < 3*nSites` has grown by exactly the sum over all grid
points `igp` of `wavefn[igp]^2` times the gradient component `j` of that point. -/
theorem gradient_partition_invariant (s : DVR) (wavefn : List ℚ) (e : GradExt)
    (nthread : Int) (owner : Int → Int) (nSites : Int) (Gradient : List ℚ) (st : GradStatics)
    (hr : s.Ready) (hw : s.ngp ≤ wavefn.length) (hn : 0 ≤ nSites)
    (hG : nSites * 3 ≤ Gradient.length)
    (ho : ∀ igp, 0 ≤ igp → igp < s.ngp → 0 ≤ owner igp ∧ owner igp < nthread)
    (hfit : st.Fits s.ngp nSites nthread) :
    ∃ Gomp Gser q stor,
      s.ComputeGradient_omp wavefn
        { e with FinalGradient := fun G => G, SubtractWWGradient := fun G => G }
        nthread owner nSites Gradient st =
          some (Gomp, { qtest := some q, storage := some stor }) ∧
      s.ComputeGradient_serial wavefn
        { e with FinalGradient := fun G => G, SubtractWWGradient := fun G => G }
        nSites Gradient st.qtest = some (Gser, some q) ∧
      Gomp = Gser ∧
      ∀ j v, 0 ≤ j → j < nSites * 3 → rd Gradient j = some v →
        rd Gomp j = some (v + ∑ igp ∈ Finset.range s.ngp.toNat,
          gradTerm e wavefn q (igp : Int) j) := by
  have hr' := hr
  obtain ⟨⟨h0, h1, h2⟩, hngp, _, _, _⟩ := hr'
  have hpos : 1 ≤ s.ngp := by
    rw [hngp]
    have : 1 ≤ s.n_1dbas 0 * s.n_1dbas 1 := by nlinarith
    nlinarith
  obtain ⟨q0, hq0, hl0⟩ := static_qtest_spec st.qtest s.ngp (by omega) hfit.1
  obtain ⟨x0, hx0, hfit0⟩ := static_storage_spec st.storage nSites nthread hn hfit.2
  obtain ⟨q, hq, hlq⟩ := ComputeGradient_qtest_ok s q0 hr hl0
  have hq3 : 3 * s.ngp ≤ (q.length : Int) := by rw [hlq]; exact hl0
  -- the OpenMP variant
  obtain ⟨x1, hx1, hgood⟩ := parallel_spec
    { e with FinalGradient := fun G => G, SubtractWWGradient := fun G => G } (fun _ => rfl)
    wavefn q nSites s.ngp nthread owner x0 (by omega) hq3 hw hfit0
  obtain ⟨G1, hG1, hlG1, hv1, hr1⟩ := reduce_spec nSites nthread x1
    (fun t j => ∑ i ∈ Finset.range s.ngp.toNat,
      if owner (i : Int) = t then gradTerm e wavefn q (i : Int) j else 0)
    Gradient hG hgood
  -- the non-OpenMP variant
  have h3 : (0 : Int) ≤ nSites * 3 := by omega
  obtain ⟨loc2, hloop, _, hlG2, hv2, hr2⟩ := accumulate_loop_spec
    { e with FinalGradient := fun G => G, SubtractWWGradient := fun G => G }
    wavefn q nSites s.ngp (fun _ => True)
    { tGrad := List.replicate (nSites * 3).toNat 0, Gradient := Gradient }
    (by omega) hq3 hw (by simp only [List.length_replicate]; omega) hG
  simp only [if_true] at hloop hv2
  have hsum : ∀ j, (∑ u ∈ Finset.range nthread.toNat, ∑ i ∈ Finset.range s.ngp.toNat,
      (if owner (i : Int) = (u : Int) then gradTerm e wavefn q (i : Int) j else 0)) =
      ∑ i ∈ Finset.range s.ngp.toNat, gradTerm e wavefn q (i : Int) j := by
    intro j
    refine owner_sum nthread.toNat s.ngp.toNat owner (fun i => gradTerm e wavefn q i j) ?_
    intro i hi
    have := ho (i : Int) (by omega) (by omega)
    omega
  have hfinal : ∀ j v, 0 ≤ j → j < nSites * 3 → rd Gradient j = some v →
      rd G1 j = some (v + ∑ igp ∈ Finset.range s.ngp.toNat,
        gradTerm e wavefn q (igp : Int) j) := by
    intro j v j0 j1 hv
    rw [hv1 j v j0 j1 hv, hsum j]
  have heq : G1 = loc2.Gradient := by
    apply list_ext_rd _ _ (by rw [hlG1, hlG2])
    intro j j0 jl
    by_cases hj : j < nSites * 3
    · obtain ⟨v, hv⟩ := rd_isSome Gradient j j0 (by omega)
      rw [hfinal j v j0 hj hv, hv2 j v j0 hj hv]
      rfl
    · rw [hr1 j (by omega), hr2 j (by omega)]
  refine ⟨G1, loc2.Gradient, q, x1, ?_, ?_, heq, hfinal⟩
  · simp only [DVR.ComputeGradient_omp, Option.bind_eq_bind, hq0, hx0, Option.some_bind, hq,
      hx1, hG1, Option.pure_def]
  · have hd : dVec (nSites * 3) = some (List.replicate (nSites * 3).toNat 0) := by
      simp only [dVec, h3, if_true]
    simp only [DVR.ComputeGradient_serial, Option.bind_eq_bind, hq0, Option.some_bind, hq,
      hd, hloop, Option.pure_def]

/-- C21, on the grid of two points along the first axis with `wavefn = [1, 1]`, one site, two
threads and the alternating schedule, from static buffers that are not yet constructed. -/
theorem gradient_partition_invariant_witness :
    ((lineGrid 2).Ready ∧ (lineGrid 2).ngp ≤ (([1, 1] : List ℚ).length : Int) ∧
      (0 : Int) ≤ 1 ∧ (1 : Int) * 3 ≤ (([0, 0, 0] : List ℚ).length : Int) ∧
      (∀ igp, 0 ≤ igp → igp < (lineGrid 2).ngp → 0 ≤ alternate igp ∧ alternate igp < 2) ∧
      GradStatics.Fits (GradStatics.mk none none) (lineGrid 2).ngp 1 2) ∧
    ∃ Gomp Gser q stor,
      (lineGrid 2).ComputeGradient_omp [1, 1]
        { exampleGradExt with FinalGradient := fun G => G, SubtractWWGradient := fun G => G }
        2 alternate 1 [0, 0, 0] (GradStatics.mk none none) =
          some (Gomp, { qtest := some q, storage := some stor }) ∧
      (lineGrid 2).ComputeGradient_serial [1, 1]
        { exampleGradExt with FinalGradient := fun G => G, SubtractWWGradient := fun G => G }
        1 [0, 0, 0] (GradStatics.mk none none).qtest = some (Gser, some q) ∧
      Gomp = Gser ∧
      ∀ j v, 0 ≤ j → j < (1 : Int) * 3 → rd [0, 0, 0] j = some v →
        rd Gomp j = some (v + ∑ igp ∈ Finset.range (lineGrid 2).ngp.toNat,
          gradTerm exampleGradExt [1, 1] q (igp : Int) j) :=
  ⟨⟨by simp [DVR.Ready, lineGrid, counts, no_dim], by simp [lineGrid], by decide, by decide,
      by intro igp h0 h1; simp only [lineGrid] at h1; simp only [alternate]; omega,
      ⟨fun _ h => (by cases h), fun _ h => (by cases h)⟩⟩,
    gradient_partition_invariant (lineGrid 2) [1, 1] exampleGradExt 2 alternate 1 [0, 0, 0]
      (GradStatics.mk none none) (by simp [DVR.Ready, lineGrid, counts, no_dim])
      (by simp [lineGrid]) (by decide) (by decide)
      (by intro igp h0 h1; simp only [lineGrid] at h1; simp only [alternate]; omega)
      ⟨fun _ h => (by cases h), fun _ h => (by cases h)⟩⟩

end PISCES
